import Mathlib

/-!
# Pylon import: a shallow embedding of `pylon-reflect/Import.cpp`

The development embeds the two recursive routines of `Import.cpp`,
`PylonTypeImporter::convertType` (type synthesis) and `convertFrom` (value
conversion), and proves properties of them.

Conventions of the embedding.

* Typed storage is a tree of `Value`s instead of raw bytes: a struct's storage is
  the list of its members' storages (member `k` of the descriptor addresses slot
  `k`), an array's storage is the list of its items.
* `PLY_ASSERT(c)` is a checked site: when `c` is false the routine stops with a
  `ConversionError` and the storage as it stands at that point.
* Reading storage that does not hold a value of the descriptor's kind has no
  defined behaviour in the source; the embedding reports it as `Outcome.undefined`.
  Releasing the storage of an array item that still holds an object (a leak) is
  reported the same way.
-/

set_option linter.unusedVariables false
set_option linter.unnecessarySeqFocus false
set_option linter.unreachableTactic false
set_option linter.unusedTactic false

namespace pylon

/-! ## Document tree -/

/-- Modelled from the spec: the document tree `pylon::Node`, whose declaration is
not part of `Import.cpp`.  Spec §3: tagged variant Null, Bool, Number, Text,
Array of nodes, Object of ordered (name, node) entries with names not guaranteed
unique.  An invalid node (`!isValid()`), which the source obtains from a failed
lookup, is `none : Option Node`. -/
inductive Node where
  | null
  | bool (b : Bool)
  | number (x : ℚ)
  | text (s : String)
  | array (items : List Node)
  | object (items : List (String × Node))

namespace Node

/-- Modelled from the spec: `Node::isText()`. -/
def isText : Node → Bool
  | text _ => true
  | _ => false

/-- Modelled from the spec: `Node::isObject()`. -/
def isObject : Node → Bool
  | object _ => true
  | _ => false

/-- Modelled from the spec: `Node::isArray()`. -/
def isArray : Node → Bool
  | array _ => true
  | _ => false

/-- Modelled from the spec: `Node::isNumeric()`. -/
def isNumeric : Node → Bool
  | number _ => true
  | _ => false

/-- Modelled from the spec: `Node::text()` and the conversion of a node to a
`StringView`, the "textual form" of a node.  Spec §4.2, Bool row: the conversion of a
Bool target accepts "any node whose textual form is available", stores whether that
text equals the literal "true" and "does not require the node to be tagged Bool"; a
node tagged Bool thus has a textual form, its literal `true` or `false`.  The textual
form of a Text node is its text, that of a Number node its numeral (the spec does not
fix the format: an integer is written in decimal, any other number as a quotient of
two integers).  Null, Array and Object nodes have no textual form and give the empty
text. -/
def textOf : Node → String
  | text s => s
  | bool b => if b then "true" else "false"
  | number x => toString x
  | _ => ""

/-- Modelled from the spec: the text of a possibly invalid node (empty when
invalid). -/
def textOfRef : Option Node → String
  | some n => n.textOf
  | none => ""

/-- Modelled from the spec: `isText()` of a possibly invalid node. -/
def isTextRef : Option Node → Bool
  | some n => n.isText
  | none => false

/-- Modelled from the spec: `Node::operator[](StringView)`, "look up a same-named
entry": the value of the first entry with that name; invalid (`none`) when the
node is not an Object or has no such entry. -/
def get : Node → String → Option Node
  | object items, key => (items.find? (fun it => it.1 == key)).map (fun it => it.2)
  | _, _ => none

/-- Modelled from the spec: `Node::operator[](u32)`: the element at an index of an
Array node; invalid (`none`) otherwise. -/
def item : Node → Nat → Option Node
  | array items, i => items[i]?
  | _, _ => none

/-- Modelled from the spec: `Node::array()`: the elements of an Array node (no
elements for any other node). -/
def arrayItems : Node → List Node
  | array items => items
  | _ => []

/-- Modelled from the spec: `Node::array()` of a possibly invalid node, as lines
214-215 read it from the result of a lookup (no elements when invalid). -/
def arrayItemsRef : Option Node → List Node
  | some n => n.arrayItems
  | none => []

/-- Modelled from the spec: `Node::object().items`: the ordered entries of an
Object node (no entries for any other node). -/
def objectItems : Node → List (String × Node)
  | object items => items
  | _ => []

/-- Modelled from the spec: truncation of a number toward zero. -/
def truncate (x : ℚ) : Int :=
  if 0 ≤ x then x.floor else x.ceil

/-- Modelled from the spec: the number carried by a node, `0` when the node is
not a Number. -/
def numberOf : Node → ℚ
  | number x => x
  | _ => 0

/-- Modelled from the spec: `Node::numeric<T>()` for an unsigned `T` of `bits`
bits ("the legacy behavior truncates silently"): the number is truncated to an
integer and narrowed to the target width. -/
def numericU (bits : Nat) (aNode : Node) : Nat :=
  (truncate aNode.numberOf % (2 : Int) ^ bits).toNat

/-- Modelled from the spec: `Node::numeric<s32>()`: truncated to an integer and
narrowed to 32 bits, two's complement. -/
def numericS32 (aNode : Node) : Int :=
  (truncate aNode.numberOf + 2 ^ 31) % 2 ^ 32 - 2 ^ 31

/-- Modelled from the spec: rounding of a number to the nearest integer, a tie
going to the even neighbour. -/
def roundHalfEven (y : ℚ) : Int :=
  if y - ⌊y⌋ < 1 / 2 then ⌊y⌋
  else if 1 / 2 < y - ⌊y⌋ then ⌊y⌋ + 1
  else if ⌊y⌋ % 2 = 0 then ⌊y⌋ else ⌊y⌋ + 1

/-- Modelled from the spec: the value of the "32-bit float" nearest to a number:
the number rounded to 24 significant binary digits, a tie going to the even
significand.  The exponent limits of the format are not modelled. -/
def float32 (x : ℚ) : ℚ :=
  let quantum : ℚ := (2 : ℚ) ^ (Int.log 2 |x| - 23)
  if x < 0 then -(roundHalfEven (|x| / quantum) * quantum)
  else roundHalfEven (|x| / quantum) * quantum

/-- Modelled from the spec: `Node::numeric<float>()`: the number converted to the
target width, a 32-bit float.  A stored float is represented by its value. -/
def numericFloat (aNode : Node) : ℚ :=
  float32 aNode.numberOf

theorem sizeOf_get_lt {aNode : Node} {key : String} {v : Node}
    (h : aNode.get key = some v) : sizeOf v < sizeOf aNode := by
  cases aNode with
  | object items =>
    simp only [get, Option.map_eq_some'] at h
    obtain ⟨it, hit, rfl⟩ := h
    have hlt := List.sizeOf_lt_of_mem (List.mem_of_find?_eq_some hit)
    obtain ⟨a, b⟩ := it
    simp only [object.sizeOf_spec, Prod.mk.sizeOf_spec] at hlt ⊢
    omega
  | _ => simp [get] at h

theorem sizeOf_lt_of_mem_arrayItems {aNode v : Node}
    (h : v ∈ aNode.arrayItems) : sizeOf v < sizeOf aNode := by
  cases aNode with
  | array items =>
    have hlt := List.sizeOf_lt_of_mem h
    simp only [array.sizeOf_spec]
    simp only [arrayItems] at hlt
    omega
  | _ => simp [arrayItems] at h

theorem sizeOf_arrayItems_get_lt {aNode : Node} {i : Nat} {v : Node}
    (h : aNode.arrayItems[i]? = some v) : sizeOf v < sizeOf aNode :=
  sizeOf_lt_of_mem_arrayItems (List.getElem?_mem h)

theorem sizeOf_arrayItemsRef_get_lt {aNode : Node} {key : String} {i : Nat} {v : Node}
    (h : (arrayItemsRef (aNode.get key))[i]? = some v) : sizeOf v < sizeOf aNode := by
  cases hd : aNode.get key with
  | none => simp [hd, arrayItemsRef] at h
  | some aData =>
    rw [hd] at h
    exact Nat.lt_trans (sizeOf_arrayItems_get_lt h) (sizeOf_get_lt hd)

theorem sizeOf_item_lt {aNode : Node} {i : Nat} {v : Node}
    (h : aNode.item i = some v) : sizeOf v < sizeOf aNode := by
  cases aNode with
  | array items => exact sizeOf_arrayItems_get_lt h
  | _ => simp [item] at h

theorem sizeOf_lt_of_mem_objectItems {aNode : Node} {it : String × Node}
    (h : it ∈ aNode.objectItems) : sizeOf it.2 < sizeOf aNode := by
  cases aNode with
  | object items =>
    have hlt := List.sizeOf_lt_of_mem h
    obtain ⟨a, b⟩ := it
    simp only [object.sizeOf_spec]
    simp only [objectItems, Prod.mk.sizeOf_spec] at hlt
    omega
  | _ => simp [objectItems] at h

end Node

/-! ## Type descriptors -/

/-- Modelled from the spec: the type keys of descriptors that have no
sub-descriptors (`TypeKey_Float`, `TypeKey_U8`, ... of ply-reflect, whose
declarations are not part of `Import.cpp`).  `other` stands for every type key
that `convertFrom` does not compare against. -/
inductive TypeKey where
  | float
  | u8
  | u16
  | bool
  | u32
  | s32
  | string
  | savedTypedPtr
  | typedArray
  | other (name : String)
deriving DecidableEq, Repr

/-- Modelled from the spec: `TypeDescriptor_Enum::Identifier`, a name and its
integer value (a `u32` in the source). -/
structure Identifier where
  name : String
  value : Nat
deriving DecidableEq, Repr

mutual
/-- Modelled from the spec: `TypeDescriptor` and its subclasses (ply-reflect, not
part of `Import.cpp`), spec §3.  Every descriptor carries its `fixedSize`; the
constructor plays the role of `typeKey`. -/
inductive TypeDescriptor where
  | plain (typeKey : TypeKey) (fixedSize : Nat)
  | struct (fixedSize : Nat) (name : String) (members : List Member)
  | fixedArray (fixedSize : Nat) (itemType : TypeDescriptor) (numItems : Nat)
  | array (fixedSize : Nat) (itemType : TypeDescriptor)
  | enumIndexedArray (fixedSize : Nat) (itemType : TypeDescriptor)
      (enumIdentifiers : List Identifier)
  | enum (fixedSize : Nat) (identifiers : List Identifier)
  | switch (fixedSize : Nat) (storageOffset : Nat) (states : List State)
/-- Modelled from the spec: `TypeDescriptor_Struct::Member`: name, byte offset,
type. -/
inductive Member where
  | mk (name : String) (offset : Nat) (type : TypeDescriptor)
/-- Modelled from the spec: `TypeDescriptor_Switch::State`: name and payload
struct type. -/
inductive State where
  | mk (name : String) (structType : TypeDescriptor)
end

/-- Name of a struct member. -/
def Member.name : Member → String
  | .mk n _ _ => n

/-- Byte offset of a struct member. -/
def Member.offset : Member → Nat
  | .mk _ o _ => o

/-- Type of a struct member. -/
def Member.type : Member → TypeDescriptor
  | .mk _ _ t => t

/-- Name of a union state. -/
def State.name : State → String
  | .mk n _ => n

/-- Payload type of a union state. -/
def State.structType : State → TypeDescriptor
  | .mk _ t => t

/-- The field `TypeDescriptor::fixedSize`. -/
def TypeDescriptor.fixedSize : TypeDescriptor → Nat
  | .plain _ n => n
  | .struct n _ _ => n
  | .fixedArray n _ _ => n
  | .array n _ => n
  | .enumIndexedArray n _ _ => n
  | .enum n _ => n
  | .switch n _ _ => n

/-- Modelled from the spec: `TypeDescriptorOwner`: the synthesized descriptors it
has adopted, in adoption order, and its designated root. -/
structure TypeDescriptorOwner where
  types : List TypeDescriptor
  rootType : Option TypeDescriptor

/-- Modelled from the spec: `TypeDescriptorOwner::adoptType`. -/
def TypeDescriptorOwner.adoptType (o : TypeDescriptorOwner) (t : TypeDescriptor) :
    TypeDescriptorOwner :=
  { o with types := o.types ++ [t] }

/-- Modelled from the spec: `TypeDescriptorOwner::setRootType`. -/
def TypeDescriptorOwner.setRootType (o : TypeDescriptorOwner) (t : TypeDescriptor) :
    TypeDescriptorOwner :=
  { o with rootType := some t }

/-- Modelled from the spec: a struct descriptor under construction
(`TypeDescriptor_Struct`), created as `TypeDescriptor_Struct{0, aName}`. -/
structure TypeDescriptor_Struct where
  fixedSize : Nat
  name : String
  members : List Member

/-- The finished struct descriptor as a `TypeDescriptor`. -/
def TypeDescriptor_Struct.toType (s : TypeDescriptor_Struct) : TypeDescriptor :=
  .struct s.fixedSize s.name s.members

/-- Modelled from the spec: `TypeDescriptor_Struct::appendMember` of ply-reflect
(spec §3: each offset "equals the prior member's offset plus the prior member's
size"): the member is placed at the current total size, which then grows by the
member's size. -/
def TypeDescriptor_Struct.appendMember (s : TypeDescriptor_Struct) (name : String)
    (type : TypeDescriptor) : TypeDescriptor_Struct :=
  { s with members := s.members ++ [Member.mk name s.fixedSize type],
           fixedSize := s.fixedSize + type.fixedSize }

/-- The built-in descriptor `TypeResolver<u16>::get()`. -/
def typeU16 : TypeDescriptor := .plain .u16 2

/-- The built-in descriptor `TypeResolver<u16[2]>::get()`. -/
def typeU16_2 : TypeDescriptor := .fixedArray 4 typeU16 2

/-- The built-in descriptor `TypeResolver<u16[3]>::get()`. -/
def typeU16_3 : TypeDescriptor := .fixedArray 6 typeU16 3

/-- The built-in descriptor `TypeResolver<u16[4]>::get()`. -/
def typeU16_4 : TypeDescriptor := .fixedArray 8 typeU16 4

/-- The built-in descriptor `TypeResolver<float>::get()`. -/
def typeFloat : TypeDescriptor := .plain .float 4

/-! ## Errors and outcomes -/

/-- Modelled from the spec: the error taxonomy of spec §7, one name per checked
site of the source (`PLY_ASSERT`).  `EnumValueOutOfRange` and
`UnsupportedEnumWidth` name the assertions of lines 188, 191 and 196, for which
the spec has no name. -/
inductive ConversionError where
  | ShapeMismatch
  | UnresolvedPrimitiveType
  | UnrecognizedTypeDeclaration
  | AlignmentViolation
  | UnknownEnumIdentifier
  | UnknownUnionState
  | UnsupportedTargetType
  | MissingRequiredOwner
  | EnumValueOutOfRange
  | UnsupportedEnumWidth
deriving DecidableEq, Repr

/-- A loop `for (x : xs) body` over a state, leaving at the first iteration that
does not complete. -/
def forEach {ι σ ε : Type} (body : ι → σ → Except ε σ) : List ι → σ → Except ε σ
  | [], s => .ok s
  | i :: rest, s =>
    match body i s with
    | .ok s' => forEach body rest s'
    | .error e => .error e

/-- The index range of `for (u32 i = lo; i < hi; i++)`. -/
def indexRange (lo hi : Nat) : List Nat :=
  List.range' lo (hi - lo)

/-! ## Type synthesis: `PylonTypeImporter::convertType` -/

/-- Result of `convertType`: the descriptor returned, or the error of the checked
site that stopped it; in both cases with the importer's `typeOwner` as it stands
(`none` is the null pointer). -/
inductive TypeOutcome where
  | ok (type : TypeDescriptor) (typeOwner : Option TypeDescriptorOwner)
  | fail (e : ConversionError) (typeOwner : Option TypeDescriptorOwner)

/-- How a member loop of `convertType` ends early: a checked site stopped the
synthesis, with the importer's `typeOwner` as it stands. -/
inductive TypeStop where
  | fail (e : ConversionError) (typeOwner : Option TypeDescriptorOwner)

/-- The lambda `appendMember` of `convertType` (lines 54-65): append the member,
then pad with one `u16` field named "padding" when the total size is 2 modulo 4;
any other non-zero remainder fails the assertion of line 62. -/
def appendMember (structType : TypeDescriptor_Struct) (memberName : String)
    (memberType : TypeDescriptor) : Except ConversionError TypeDescriptor_Struct :=
  let structType := structType.appendMember memberName memberType
  let alignment := structType.fixedSize % 4
  if alignment > 0 then
    if alignment == 2 then
      .ok (structType.appendMember "padding" typeU16)
    else
      .error .AlignmentViolation
  else
    .ok structType

/-- The resolver call of lines 38-41: `typeFromName.call(str)` when the functor is
valid, the null descriptor otherwise. -/
def resolve (typeFromName : Option (String → Option TypeDescriptor)) (str : String) :
    Option TypeDescriptor :=
  match typeFromName with
  | some f => f str
  | none => none

/-- The state of the member loops of `convertType`: the struct under construction
and the importer's owner. -/
abbrev SynthState := TypeDescriptor_Struct × Option TypeDescriptorOwner

/-- One member of a struct declaration, once its type has been synthesized
(`appendMember(name, convertType(decl))`, lines 69 and 75). -/
def appendConverted (structType : TypeDescriptor_Struct) (memberName : String) :
    TypeOutcome → Except TypeStop SynthState
  | .ok memberType typeOwner =>
    match appendMember structType memberName memberType with
    | .ok structType => .ok (structType, typeOwner)
    | .error e => .error (.fail e typeOwner)
  | .fail e typeOwner => .error (.fail e typeOwner)

/-- The end of struct synthesis (lines 80-81): the owner adopts the struct, which
is returned. -/
def finishStruct : Except TypeStop SynthState → TypeOutcome
  | .ok (structType, typeOwner) =>
    .ok structType.toType (typeOwner.map (fun o => o.adoptType structType.toType))
  | .error (.fail e typeOwner) => .fail e typeOwner

/-- The method `PylonTypeImporter::convertType` (lines 20-90).  `typeFromName` is the
caller-supplied resolver (`none` when `!typeFromName.isValid()`), `typeOwner` the
importer's owner (`none` when null). -/
def convertType (typeFromName : Option (String → Option TypeDescriptor))
    (typeOwner : Option TypeDescriptorOwner) (aNode : Node) : TypeOutcome :=
  if aNode.isText then
    let str := aNode.textOf
    if str == "u16" then .ok typeU16 typeOwner
    else if str == "u16_2" then .ok typeU16_2 typeOwner
    else if str == "u16_3" then .ok typeU16_3 typeOwner
    else if str == "u16_4" then .ok typeU16_4 typeOwner
    else if str == "float" then .ok typeFloat typeOwner
    else
      match resolve typeFromName str with
      | some typeDesc => .ok typeDesc typeOwner
      | none => .fail .UnresolvedPrimitiveType typeOwner
  else if aNode.isObject then
    let key := Node.textOfRef (aNode.get "key")
    if key == "struct" then
      if typeOwner.isNone then .fail .MissingRequiredOwner typeOwner
      else
        let aName := aNode.get "name"
        if !Node.isTextRef aName then .fail .ShapeMismatch typeOwner
        else
          let structType : TypeDescriptor_Struct := ⟨0, Node.textOfRef aName, []⟩
          match h : aNode.get "members" with
          | none => .fail .ShapeMismatch typeOwner
          | some aMembers =>
            if aMembers.isObject then
              finishStruct (forEach (fun iter (st : SynthState) =>
                appendConverted st.1 iter.val.1 (convertType typeFromName st.2 iter.val.2))
                aMembers.objectItems.attach (structType, typeOwner))
            else if aMembers.isArray then
              finishStruct (forEach (fun aMember (st : SynthState) =>
                if !aMember.val.isArray then .error (.fail .ShapeMismatch st.2)
                else if aMember.val.arrayItems.length != 2 then
                  .error (.fail .ShapeMismatch st.2)
                else
                  match h1 : aMember.val.item 1 with
                  | none => .error (.fail .ShapeMismatch st.2)
                  | some aType =>
                    appendConverted st.1 (Node.textOfRef (aMember.val.item 0))
                      (convertType typeFromName st.2 aType))
                aMembers.arrayItems.attach (structType, typeOwner))
            else .fail .ShapeMismatch typeOwner
    else .fail .UnrecognizedTypeDeclaration typeOwner
  else .fail .UnrecognizedTypeDeclaration typeOwner
termination_by sizeOf aNode
decreasing_by
  · exact Nat.lt_trans (Node.sizeOf_lt_of_mem_objectItems iter.property)
      (Node.sizeOf_get_lt h)
  · exact Nat.lt_trans (Node.sizeOf_item_lt h1)
      (Nat.lt_trans (Node.sizeOf_lt_of_mem_arrayItems aMember.property)
        (Node.sizeOf_get_lt h))

/-- The function `convertTypeFrom` (lines 93-99): synthesis against a fresh owner, whose root
becomes the synthesized type.  An invalid node is neither text nor object
(line 87). -/
def convertTypeFrom (aNode : Option Node)
    (typeFromName : Option (String → Option TypeDescriptor)) :
    Except ConversionError TypeDescriptorOwner :=
  match aNode with
  | none => .error .UnrecognizedTypeDeclaration
  | some aNode =>
    match convertType typeFromName (some ⟨[], none⟩) aNode with
    | .ok type typeOwner => .ok ((typeOwner.getD ⟨[], none⟩).setRootType type)
    | .fail e _ => .error e

/-! ## Typed storage -/

/-- Modelled from the spec: the storage a `TypedPtr` addresses, as a tree.  `raw`
is storage that holds no constructed object (never constructed, or destructed).
An enum is stored as the unsigned integer of its declared width (`u8`, `u16` or
`u32`).  A `savedTypedPtr` is the pair (owner, owned value); a `switch` is the
16-bit id of the active state and the payload at the storage offset. -/
inductive Value where
  | raw
  | float (x : ℚ)
  | u8 (n : Nat)
  | u16 (n : Nat)
  | bool (b : Bool)
  | u32 (n : Nat)
  | s32 (i : Int)
  | string (s : String)
  | struct (members : List Value)
  | fixedArray (items : List Value)
  | array (items : List Value)
  | enumIndexedArray (items : List Value)
  | savedTypedPtr (typeOwner : Option TypeDescriptorOwner) (owned : Value)
  | typedArray (typeOwner : Option TypeDescriptorOwner) (items : List Value)
  | switch (id : Nat) (storage : Value)

namespace Value

/-- Member storages of struct storage. -/
def structMembers : Value → Option (List Value)
  | struct members => some members
  | _ => none

/-- Item storages of fixed-array storage. -/
def fixedArrayItems : Value → Option (List Value)
  | fixedArray items => some items
  | _ => none

/-- Modelled from the spec: the items of a `details::BaseArray` (`m_items`, with
`m_numItems` their number). -/
def arrayItems : Value → Option (List Value)
  | array items => some items
  | _ => none

/-- Slot storages of enum-indexed-array storage. -/
def enumIndexedItems : Value → Option (List Value)
  | enumIndexedArray items => some items
  | _ => none

/-- Active state id and payload of tagged-union storage. -/
def switchState : Value → Option (Nat × Value)
  | switch id storage => some (id, storage)
  | _ => none

end Value

/-- Result of `convertFrom`: either it returned, or a checked site stopped it; in
both cases with the target storage as it stands.  `undefined` marks a run that
read storage not holding a value of the descriptor's kind, or that released storage
still holding an object. -/
inductive Outcome where
  | ok (obj : Value)
  | fail (e : ConversionError) (obj : Value)
  | undefined

/-- How a loop over the slots of a storage ends early: a checked site stopped the
run (with the enclosing storage as it stands), or the run is undefined. -/
inductive Stop where
  | fail (e : ConversionError) (obj : Value)
  | undefined

/-- Write the result of converting slot `i` back into the enclosing storage
`wrap vals`; a failure inside the slot leaves the loop. -/
def storeItem (wrap : List Value → Value) (vals : List Value) (i : Nat) :
    Outcome → Except Stop (List Value)
  | .ok v => .ok (vals.set i v)
  | .fail e v => .error (.fail e (wrap (vals.set i v)))
  | .undefined => .error .undefined

/-- The outcome of a loop over the slots of the storage `wrap vals`. -/
def finishLoop (wrap : List Value → Value) : Except Stop (List Value) → Outcome
  | .ok vals => .ok (wrap vals)
  | .error (.fail e obj) => .fail e obj
  | .error .undefined => .undefined

/-- The outcome of converting the single sub-storage of `wrap v`. -/
def wrapOutcome (wrap : Value → Value) : Outcome → Outcome
  | .ok v => .ok (wrap v)
  | .fail e v => .fail e (wrap v)
  | .undefined => .undefined

/-- The loop of lines 158-160: `destruct()` on the items at indices
`newArrSize..oldArrSize-1`, whose storage no longer holds an object. -/
def destructItems (vals : List Value) (newArrSize oldArrSize : Nat) : List Value :=
  (indexRange newArrSize oldArrSize).foldl (fun vals i => vals.set i .raw) vals

/-- Whether storage holds no constructed object: it was never constructed, or has
been destructed. -/
def Value.isRaw : Value → Bool
  | .raw => true
  | _ => false

/-- Modelled from the spec: `BaseArray::realloc(newArrSize, itemSize)`
("reallocate"): the leading items are kept, added items are raw storage, and the
storage of the items from index `newArrSize` on is released.  Spec §5 ("Dynamic-array
resize must release exactly the destructed elements' resources before their storage is
reused, never double-free, never leak"): storage is released only when it no longer
holds an object; the result is `none` when an item to release has not been
destructed. -/
def realloc (vals : List Value) (newArrSize : Nat) : Option (List Value) :=
  if (vals.drop newArrSize).all Value.isRaw then
    some (vals.take newArrSize ++ List.replicate (newArrSize - vals.length) .raw)
  else none

/-- The loop of lines 162-164: `construct()` on the items at indices
`oldArrSize..newArrSize-1`.  `construct` is the default construction of
ply-reflect, a parameter of the embedding. -/
def constructItems (construct : TypeDescriptor → Value) (itemType : TypeDescriptor)
    (vals : List Value) (oldArrSize newArrSize : Nat) : List Value :=
  (indexRange oldArrSize newArrSize).foldl (fun vals i => vals.set i (construct itemType)) vals

/-- The search of lines 230-232 from index `i` on: the first state with the given
name, and its index. -/
def findStateFrom (stateName : String) : Nat → List State → Option (Nat × State)
  | _, [] => none
  | i, state :: rest =>
    if state.name == stateName then some (i, state)
    else findStateFrom stateName (i + 1) rest

/-- The search of lines 230-232: the first state with the given name, and its
index. -/
def findState (states : List State) (stateName : String) : Option (Nat × State) :=
  findStateFrom stateName 0 states

/-- Modelled from the spec: `TypeDescriptor_Switch::ensureStateIs` of ply-reflect
("if different from the currently active state, destroy the current payload and
default-construct the new one at the union's fixed storage offset").  The result
is the new state id and payload; `none` when the storage is not a union's. -/
def ensureStateIs (construct : TypeDescriptor → Value) (states : List State)
    (obj : Value) (stateID : Nat) : Option (Nat × Value) :=
  match obj.switchState with
  | none => none
  | some (id, storage) =>
    if id != stateID then
      match states[stateID]? with
      | none => none
      | some state => some (stateID, construct state.structType)
    else some (id, storage)

/-! ## Value conversion: `convertFrom` -/

/-- The function `convertFrom` (lines 101-245).  `construct` is the default construction of
ply-reflect (`TypedPtr::construct`, `TypedPtr::create`), a parameter of the
embedding; `typeFromName` is the caller-supplied resolver.  The node is valid: the
assertion of line 105 is checked where the source passes the result of a lookup
(`aNode["value"]`).  A member or slot at byte offset `size * k` is slot `k` of the
storage. -/
def convertFrom (construct : TypeDescriptor → Value)
    (typeFromName : Option (String → Option TypeDescriptor))
    (type : TypeDescriptor) (ptr : Value) (aNode : Node) : Outcome :=
  match type with
  | .struct _ _ members =>
    if !aNode.isObject then .fail .ShapeMismatch ptr
    else
      match ptr.structMembers with
      | none => .undefined
      | some vals =>
        finishLoop .struct (forEach (fun (km : Nat × Member) (vals : List Value) =>
          match h : aNode.get km.2.name with
          | none => .ok vals
          | some aMember =>
            match vals[km.1]? with
            | none => .error .undefined
            | some m =>
              storeItem .struct vals km.1
                (convertFrom construct typeFromName km.2.type m aMember))
          members.enum vals)
  | .plain .float _ =>
    if !aNode.isNumeric then .fail .ShapeMismatch ptr
    else .ok (.float aNode.numericFloat)
  | .plain .u8 _ =>
    if !aNode.isNumeric then .fail .ShapeMismatch ptr
    else .ok (.u8 (aNode.numericU 8))
  | .plain .u16 _ =>
    if !aNode.isNumeric then .fail .ShapeMismatch ptr
    else .ok (.u16 (aNode.numericU 16))
  | .plain .bool _ => .ok (.bool (aNode.textOf == "true"))
  | .plain .u32 _ =>
    if !aNode.isNumeric then .fail .ShapeMismatch ptr
    else .ok (.u32 (aNode.numericU 32))
  | .plain .s32 _ =>
    if !aNode.isNumeric then .fail .ShapeMismatch ptr
    else .ok (.s32 aNode.numericS32)
  | .fixedArray _ itemType numItems =>
    if !aNode.isArray then .fail .ShapeMismatch ptr
    else
      match ptr.fixedArrayItems with
      | none => .undefined
      | some vals =>
        finishLoop .fixedArray (forEach (fun (i : Nat) (vals : List Value) =>
          match h : aNode.arrayItems[i]? with
          | none => .error (.fail .ShapeMismatch (.fixedArray vals))
          | some aItem =>
            match vals[i]? with
            | none => .error .undefined
            | some elem =>
              storeItem .fixedArray vals i
                (convertFrom construct typeFromName itemType elem aItem))
          (indexRange 0 numItems) vals)
  | .plain .string _ =>
    if aNode.isText then .ok (.string aNode.textOf)
    else .ok ptr
  | .array _ itemType =>
    if !aNode.isArray then .fail .ShapeMismatch ptr
    else
      match ptr.arrayItems with
      | none => .undefined
      | some vals =>
        let oldArrSize := vals.length
        let newArrSize := aNode.arrayItems.length
        let vals := destructItems vals newArrSize oldArrSize
        match realloc vals newArrSize with
        | none => .undefined
        | some vals =>
          let vals := constructItems construct itemType vals oldArrSize newArrSize
          finishLoop .array (forEach (fun (i : Nat) (vals : List Value) =>
            match h : aNode.arrayItems[i]? with
            | none => .error (.fail .ShapeMismatch (.array vals))
            | some aItem =>
              match vals[i]? with
              | none => .error .undefined
              | some elem =>
                storeItem .array vals i
                  (convertFrom construct typeFromName itemType elem aItem))
            (indexRange 0 newArrSize) vals)
  | .enumIndexedArray _ itemType identifiers =>
    if !aNode.isObject then .fail .ShapeMismatch ptr
    else
      match ptr.enumIndexedItems with
      | none => .undefined
      | some vals =>
        finishLoop .enumIndexedArray (forEach
          (fun (identifier : Identifier) (vals : List Value) =>
            match h : aNode.get identifier.name with
            | none => .ok vals
            | some aMember =>
              match vals[identifier.value]? with
              | none => .error .undefined
              | some m =>
                storeItem .enumIndexedArray vals identifier.value
                  (convertFrom construct typeFromName itemType m aMember))
          identifiers vals)
  | .enum fixedSize identifiers =>
    if !aNode.isText then .fail .ShapeMismatch ptr
    else
      match identifiers.find? (fun identifier => identifier.name == aNode.textOf) with
      | none => .fail .UnknownEnumIdentifier ptr
      | some identifier =>
        if fixedSize == 1 then
          if identifier.value ≤ 255 then .ok (.u8 (identifier.value % 256))
          else .fail .EnumValueOutOfRange ptr
        else if fixedSize == 2 then
          if identifier.value ≤ 65535 then .ok (.u16 (identifier.value % 65536))
          else .fail .EnumValueOutOfRange ptr
        else if fixedSize == 4 then .ok (.u32 identifier.value)
        else .fail .UnsupportedEnumWidth ptr
  | .plain .savedTypedPtr _ =>
    if !aNode.isObject then .fail .ShapeMismatch ptr
    else
      match convertTypeFrom (aNode.get "type") typeFromName with
      | .error e => .fail e ptr
      | .ok targetTypeOwner =>
        match targetTypeOwner.rootType with
        | none => .undefined
        | some rootType =>
          let owned := construct rootType
          match h : aNode.get "value" with
          | none => .fail .ShapeMismatch (.savedTypedPtr (some targetTypeOwner) owned)
          | some aValue =>
            wrapOutcome (.savedTypedPtr (some targetTypeOwner))
              (convertFrom construct typeFromName rootType owned aValue)
  | .plain .typedArray _ =>
    if !aNode.isObject then .fail .ShapeMismatch ptr
    else
      match convertTypeFrom (aNode.get "type") typeFromName with
      | .error e => .fail e ptr
      | .ok itemTypeOwner =>
        match itemTypeOwner.rootType with
        | none => .undefined
        | some itemType =>
          let numItems := (Node.arrayItemsRef (aNode.get "data")).length
          let vals := List.replicate numItems (construct itemType)
          finishLoop (.typedArray (some itemTypeOwner))
            (forEach (fun (i : Nat) (vals : List Value) =>
              match h1 : (Node.arrayItemsRef (aNode.get "data"))[i]? with
              | none =>
                .error (.fail .ShapeMismatch (.typedArray (some itemTypeOwner) vals))
              | some aItem =>
                match vals[i]? with
                | none => .error .undefined
                | some item =>
                  storeItem (.typedArray (some itemTypeOwner)) vals i
                    (convertFrom construct typeFromName itemType item aItem))
              (indexRange 0 numItems) vals)
  | .switch _ _ states =>
    if !aNode.isObject then .fail .ShapeMismatch ptr
    else if aNode.objectItems.length != 1 then .fail .ShapeMismatch ptr
    else
      match h : aNode.objectItems.head? with
      | none => .fail .ShapeMismatch ptr
      | some iter =>
        match findState states iter.1 with
        | none => .fail .UnknownUnionState ptr
        | some (i, state) =>
          match ensureStateIs construct states ptr (i % 65536) with
          | none => .undefined
          | some (id, storage) =>
            wrapOutcome (.switch id)
              (convertFrom construct typeFromName state.structType storage iter.2)
  | .plain (.other _) _ => .fail .UnsupportedTargetType ptr
termination_by sizeOf aNode
decreasing_by
  · exact Node.sizeOf_get_lt h
  · exact Node.sizeOf_arrayItems_get_lt h
  · exact Node.sizeOf_arrayItems_get_lt h
  · exact Node.sizeOf_get_lt h
  · exact Node.sizeOf_get_lt h
  · exact Node.sizeOf_arrayItemsRef_get_lt h1
  · exact Node.sizeOf_lt_of_mem_objectItems (List.mem_of_mem_head? h)

/-- The entry point `import` of lines 247-252 (the name is reserved in Lean): fresh
storage for `typeDesc` is created (`TypedPtr::create`) and the root node converted
into it. -/
def import_ (construct : TypeDescriptor → Value)
    (typeFromName : Option (String → Option TypeDescriptor))
    (typeDesc : TypeDescriptor) (aRoot : Node) : Outcome :=
  convertFrom construct typeFromName typeDesc (construct typeDesc) aRoot

mutual
/-- Modelled from the spec: a default construction (`TypedPtr::construct` of
ply-reflect): zero scalars, empty arrays, every member default-constructed, a union
in its first state.  It is the instance of the parameter `construct` in the
examples. -/
def defaultConstruct : TypeDescriptor → Value
  | .plain .float _ => .float 0
  | .plain .u8 _ => .u8 0
  | .plain .u16 _ => .u16 0
  | .plain .bool _ => .bool false
  | .plain .u32 _ => .u32 0
  | .plain .s32 _ => .s32 0
  | .plain .string _ => .string ""
  | .plain .savedTypedPtr _ => .savedTypedPtr none .raw
  | .plain .typedArray _ => .typedArray none []
  | .plain (.other _) _ => .raw
  | .struct _ _ members => .struct (defaultMembers members)
  | .fixedArray _ itemType numItems => .fixedArray (List.replicate numItems (defaultConstruct itemType))
  | .array _ _ => .array []
  | .enumIndexedArray fixedSize itemType _ =>
    .enumIndexedArray (List.replicate (fixedSize / itemType.fixedSize) (defaultConstruct itemType))
  | .enum fixedSize _ => if fixedSize == 1 then .u8 0 else if fixedSize == 2 then .u16 0 else .u32 0
  | .switch _ _ states => .switch 0 (defaultState states)
/-- Default construction of each member of a struct. -/
def defaultMembers : List Member → List Value
  | [] => []
  | .mk _ _ t :: rest => defaultConstruct t :: defaultMembers rest
/-- Default construction of the first state of a union. -/
def defaultState : List State → Value
  | [] => .raw
  | .mk _ t :: _ => defaultConstruct t
end

/-! ## Layout predicates and example data -/

/-- The members are laid out back to back from byte `start` on: each offset is the
previous offset plus the previous member's size. -/
def offsetsFrom (start : Nat) : List Member → Prop
  | [] => True
  | m :: ms => m.offset = start ∧ offsetsFrom (start + m.type.fixedSize) ms

/-- Sum of the members' sizes. -/
def sizeSum : List Member → Nat
  | [] => 0
  | m :: ms => m.type.fixedSize + sizeSum ms

/-- Layout invariant of a struct under construction: members back to back from 0,
total size the sum of the members' sizes. -/
def WellLaidOut (s : TypeDescriptor_Struct) : Prop :=
  offsetsFrom 0 s.members ∧ s.fixedSize = sizeSum s.members

/-- The declaration `{"key": "struct", "name": "S", "members": {"e": {"key": "struct",
"name": "E", "members": {}}, "x": "float"}}`: a struct whose first member is an empty
struct. -/
def exampleEmptyMemberDecl : Node :=
  .object [("key", .text "struct"), ("name", .text "S"),
    ("members", .object [
      ("e", .object [("key", .text "struct"), ("name", .text "E"), ("members", .object [])]),
      ("x", .text "float")])]

/-- The declaration `{"key": "struct", "name": "P", "members": {"a": "u16", "b":
"float"}}`. -/
def examplePaddedDecl : Node :=
  .object [("key", .text "struct"), ("name", .text "P"),
    ("members", .object [("a", .text "u16"), ("b", .text "float")])]

/-- The declaration `{"key": "struct", "name": "M", "members": {"a": "u16", "b":
"u8"}}`. -/
def exampleMisalignedDecl : Node :=
  .object [("key", .text "struct"), ("name", .text "M"),
    ("members", .object [("a", .text "u16"), ("b", .text "u8")])]

/-- A resolver that knows the name "u8" only. -/
def exampleResolver : Option (String → Option TypeDescriptor) :=
  some (fun s => if s = "u8" then some (.plain .u8 1) else none)

/-- The members `x` and `y`, both `u16`, of the partial-update example. -/
def exampleMembers : List Member :=
  [Member.mk "x" 0 typeU16, Member.mk "y" 2 typeU16]

/-- The empty struct type of the union examples. -/
def exampleEmptyStruct : TypeDescriptor := .struct 0 "T" []

/-- The states of the union example: "A" with an empty payload struct, "B" with a
payload struct of one `u16` member `x`. -/
def exampleStates : List State :=
  [State.mk "A" exampleEmptyStruct, State.mk "B" (.struct 2 "B" [Member.mk "x" 0 typeU16])]

/-- A union descriptor's states: `n` states named "A", then a state named "B". -/
def manyStates (n : Nat) : List State :=
  List.replicate n (State.mk "A" exampleEmptyStruct) ++ [State.mk "B" exampleEmptyStruct]

/-- The enum of the example: identifiers Red = 0, Green = 1, Blue = 2. -/
def exampleColors : List Identifier :=
  [⟨"Red", 0⟩, ⟨"Green", 1⟩, ⟨"Blue", 2⟩]

/-- The array form of a member collection in the spec's words (§4.1): the ordered
entries (name, type-decl) written as an array of 2-element (name, type-decl) pairs. -/
def memberPairs (entries : List (String × Node)) : List Node :=
  entries.map (fun entry => Node.array [.text entry.1, entry.2])

/-- The struct declaration `S` with members `a: u16`, `b: float` in object form. -/
def exampleObjectFormDecl : Node :=
  .object [("key", .text "struct"), ("name", .text "S"),
    ("members", .object [("a", .text "u16"), ("b", .text "float")])]

/-- The struct declaration `S` with members `a: u16`, `b: float` in array form. -/
def exampleArrayFormDecl : Node :=
  .object [("key", .text "struct"), ("name", .text "S"),
    ("members", .array (memberPairs [("a", .text "u16"), ("b", .text "float")]))]

/-- A struct declaration in array form whose second element has 3 items. -/
def exampleBadPairDecl : Node :=
  .object [("key", .text "struct"), ("name", .text "S"),
    ("members", .array [.array [.text "a", .text "u16"],
      .array [.text "b", .text "float", .text "extra"]])]

/-- OwnedValue conversion in the spec's words (§4.2): synthesize a fresh, privately
owned type descriptor from "type", allocate storage for its root type, convert
"value" into it, and store the (owner, value) pair.  `none` when a step fails. -/
def ownedValueSpec (construct : TypeDescriptor → Value)
    (typeFromName : Option (String → Option TypeDescriptor)) (aType aValue : Node) :
    Option Value :=
  match convertTypeFrom (some aType) typeFromName with
  | .error _ => none
  | .ok typeOwner =>
    match typeOwner.rootType with
    | none => none
    | some rootType =>
      match import_ construct typeFromName rootType aValue with
      | .ok value => some (.savedTypedPtr (some typeOwner) value)
      | _ => none

/-- The declaration `{"key": "struct", "name": "Pt", "members": {"x": "float", "y":
"float"}}`. -/
def examplePtDecl : Node :=
  .object [("key", .text "struct"), ("name", .text "Pt"),
    ("members", .object [("x", .text "float"), ("y", .text "float")])]

/-- The synthesized descriptor of `Pt`: two float members at offsets 0 and 4, total
size 8. -/
def examplePtType : TypeDescriptor :=
  .struct 8 "Pt" [Member.mk "x" 0 typeFloat, Member.mk "y" 4 typeFloat]

/-- The document `{"type": Pt, "value": {"x": 1.5, "y": 2.5}}`. -/
def examplePtDocument : Node :=
  .object [("type", examplePtDecl),
    ("value", .object [("x", .number 1.5), ("y", .number 2.5)])]

/-- The document `{"type": "u16", "data": [1, 2, 3]}`. -/
def exampleTypedArrayDocument : Node :=
  .object [("type", .text "u16"), ("data", .array [.number 1, .number 2, .number 3])]

/-- A size rounded up to the next multiple of 4. -/
def roundUp4 (n : Nat) : Nat :=
  (n + 3) / 4 * 4

/-- The total size of a struct in the spec's words: the sum over the declared members
of the member's size rounded up to the next multiple of 4. -/
def paddedSize (declared : List (String × TypeDescriptor)) : Nat :=
  (declared.map (fun d => roundUp4 d.2.fixedSize)).sum

/-- The member list of a struct in the spec's words: the declared members in
declaration order, laid out from byte `offset` on, with one 2-byte member named
"padding" immediately after each declared member whose size is 2 modulo 4. -/
def paddedMembers : Nat → List (String × TypeDescriptor) → List Member
  | _, [] => []
  | offset, (name, type) :: rest =>
    if type.fixedSize % 4 = 2 then
      Member.mk name offset type :: Member.mk "padding" (offset + type.fixedSize) typeU16 ::
        paddedMembers (offset + type.fixedSize + 2) rest
    else
      Member.mk name offset type :: paddedMembers (offset + type.fixedSize) rest

/-- The types of the declared members: the calls `convertType(iter.value)` of lines 69
and 75 in declaration order, the importer's owner passed along, without the appends. -/
def synthesizeMembers (conv : Option TypeDescriptorOwner → Node → TypeOutcome) :
    Option TypeDescriptorOwner → List (String × Node) →
    Except TypeStop (List (String × TypeDescriptor) × Option TypeDescriptorOwner)
  | typeOwner, [] => .ok ([], typeOwner)
  | typeOwner, (name, decl) :: rest =>
    match conv typeOwner decl with
    | .fail e typeOwner => .error (.fail e typeOwner)
    | .ok type typeOwner =>
      match synthesizeMembers conv typeOwner rest with
      | .ok (declared, typeOwner) => .ok ((name, type) :: declared, typeOwner)
      | .error e => .error e

/-- The declaration `{"key": "struct", "name": "W", "members": {"a": "u16", "b":
"u16"}}`. -/
def exampleTwoU16Decl : Node :=
  .object [("key", .text "struct"), ("name", .text "W"),
    ("members", .object [("a", .text "u16"), ("b", .text "u16")])]

/-! ## Recursion depth: `convertType` and `convertFrom` with a bound on the depth of
the recursion, on descriptor graphs -/

mutual
/-- Depth of a document tree: the number of nodes on its longest path from the root
to a leaf. -/
def Node.depth : Node → Nat
  | .array items => Node.depthOfItems items + 1
  | .object items => Node.depthOfEntries items + 1
  | _ => 1
/-- The largest depth among the elements of an Array node. -/
def Node.depthOfItems : List Node → Nat
  | [] => 0
  | n :: rest => max n.depth (Node.depthOfItems rest)
/-- The largest depth among the entries of an Object node. -/
def Node.depthOfEntries : List (String × Node) → Nat
  | [] => 0
  | (_, n) :: rest => max n.depth (Node.depthOfEntries rest)
end

/-- What `convertFrom` reads of a descriptor `obj.type`: its type key and fields, the
descriptors it refers to (`member.type`, `itemType`, `state.structType`) being handles
of a type `D`.  A descriptor graph that refers to itself is a `view : D → TypeView D`
that leads back to a handle already visited. -/
inductive TypeView (D : Type) where
  | plain (typeKey : TypeKey)
  | struct (members : List (String × D))
  | fixedArray (itemType : D) (numItems : Nat)
  | array (itemType : D)
  | enumIndexedArray (itemType : D) (identifiers : List Identifier)
  | enum (fixedSize : Nat) (identifiers : List Identifier)
  | switch (states : List (String × D))

/-- The view of a descriptor tree. -/
def TypeDescriptor.view : TypeDescriptor → TypeView TypeDescriptor
  | .plain typeKey _ => .plain typeKey
  | .struct _ _ members => .struct (members.map (fun m => (m.name, m.type)))
  | .fixedArray _ itemType numItems => .fixedArray itemType numItems
  | .array _ itemType => .array itemType
  | .enumIndexedArray _ itemType identifiers => .enumIndexedArray itemType identifiers
  | .enum fixedSize identifiers => .enum fixedSize identifiers
  | .switch _ _ states => .switch (states.map (fun s => (s.name, s.structType)))

/-- A loop `for (x : xs) body` whose body makes calls of bounded depth: `none` when a
call exceeds the bound. -/
def forEachFuel {ι σ ε : Type} (body : ι → σ → Option (Except ε σ)) :
    List ι → σ → Option (Except ε σ)
  | [], s => some (.ok s)
  | i :: rest, s =>
    match body i s with
    | none => none
    | some (.ok s') => forEachFuel body rest s'
    | some (.error e) => some (.error e)

/-- The struct branch of `convertType` (lines 49-81) with calls of bounded depth. -/
def synthesizeStructFuel (conv : Option TypeDescriptorOwner → Node → Option TypeOutcome)
    (typeOwner : Option TypeDescriptorOwner) (aNode : Node) : Option TypeOutcome :=
  if typeOwner.isNone then some (.fail .MissingRequiredOwner typeOwner)
  else if !Node.isTextRef (aNode.get "name") then some (.fail .ShapeMismatch typeOwner)
  else
    match aNode.get "members" with
    | none => some (.fail .ShapeMismatch typeOwner)
    | some aMembers =>
      if aMembers.isObject then
        (forEachFuel (fun (iter : String × Node) (st : SynthState) =>
            (conv st.2 iter.2).map (appendConverted st.1 iter.1))
          aMembers.objectItems
          (⟨0, Node.textOfRef (aNode.get "name"), []⟩, typeOwner)).map finishStruct
      else if aMembers.isArray then
        (forEachFuel (fun (aMember : Node) (st : SynthState) =>
            if !aMember.isArray then some (.error (.fail .ShapeMismatch st.2))
            else if aMember.arrayItems.length != 2 then
              some (.error (.fail .ShapeMismatch st.2))
            else
              match aMember.item 1 with
              | none => some (.error (.fail .ShapeMismatch st.2))
              | some aType =>
                (conv st.2 aType).map
                  (appendConverted st.1 (Node.textOfRef (aMember.item 0))))
          aMembers.arrayItems
          (⟨0, Node.textOfRef (aNode.get "name"), []⟩, typeOwner)).map finishStruct
      else some (.fail .ShapeMismatch typeOwner)

/-- The method `convertType` (lines 20-90) with a bound on the depth of its recursion:
`none` when the recursion would go deeper than `fuel` calls. -/
def convertTypeFuel (typeFromName : Option (String → Option TypeDescriptor)) :
    Nat → Option TypeDescriptorOwner → Node → Option TypeOutcome
  | 0, _, _ => none
  | fuel + 1, typeOwner, aNode =>
    if aNode.isText then
      let str := aNode.textOf
      if str == "u16" then some (.ok typeU16 typeOwner)
      else if str == "u16_2" then some (.ok typeU16_2 typeOwner)
      else if str == "u16_3" then some (.ok typeU16_3 typeOwner)
      else if str == "u16_4" then some (.ok typeU16_4 typeOwner)
      else if str == "float" then some (.ok typeFloat typeOwner)
      else
        match resolve typeFromName str with
        | some typeDesc => some (.ok typeDesc typeOwner)
        | none => some (.fail .UnresolvedPrimitiveType typeOwner)
    else if aNode.isObject then
      if Node.textOfRef (aNode.get "key") == "struct" then
        synthesizeStructFuel (convertTypeFuel typeFromName fuel) typeOwner aNode
      else some (.fail .UnrecognizedTypeDeclaration typeOwner)
    else some (.fail .UnrecognizedTypeDeclaration typeOwner)

/-- The function `convertTypeFrom` (lines 93-99) with the bound `fuel` on the depth of the
recursion of `convertType`. -/
def convertTypeFromFuel (typeFromName : Option (String → Option TypeDescriptor))
    (fuel : Nat) (aNode : Option Node) :
    Option (Except ConversionError TypeDescriptorOwner) :=
  match aNode with
  | none => some (.error .UnrecognizedTypeDeclaration)
  | some aNode =>
    (convertTypeFuel typeFromName fuel (some ⟨[], none⟩) aNode).map (fun r =>
      match r with
      | .ok type typeOwner => .ok ((typeOwner.getD ⟨[], none⟩).setRootType type)
      | .fail e _ => .error e)

/-- The search of lines 230-232 over the states of a descriptor view. -/
def findStateViewFrom {D : Type} (stateName : String) : Nat → List (String × D) → Option (Nat × D)
  | _, [] => none
  | i, state :: rest =>
    if state.1 == stateName then some (i, state.2)
    else findStateViewFrom stateName (i + 1) rest

/-- Modelled from the spec: `TypeDescriptor_Switch::ensureStateIs` over the states of a
descriptor view. -/
def ensureStateIsView {D : Type} (construct : D → Value) (states : List (String × D))
    (obj : Value) (stateID : Nat) : Option (Nat × Value) :=
  match obj.switchState with
  | none => none
  | some (id, storage) =>
    if id != stateID then
      match states[stateID]? with
      | none => none
      | some state => some (stateID, construct state.2)
    else some (id, storage)

/-- Body of the positional loops with calls of bounded depth. -/
def itemBodyFuel {D : Type} (wrap : List Value → Value)
    (conv : D → Value → Node → Option Outcome)
    (itemType : D) (aNodeArr : List Node)
    (i : Nat) (vals : List Value) : Option (Except Stop (List Value)) :=
  match aNodeArr[i]? with
  | none => some (.error (.fail .ShapeMismatch (wrap vals)))
  | some aItem =>
    match vals[i]? with
    | none => some (.error .undefined)
    | some elem => (conv itemType elem aItem).map (storeItem wrap vals i)

/-- One call of `convertFrom` (lines 101-245) on a descriptor handle: the body of the
function, its recursive calls being `conv` and its calls of `convertTypeFrom` being
`convTypeFrom`, both of bounded depth.  `embed` is the handle of a descriptor
synthesized from the document. -/
def convertFromStep {D : Type} (view : D → TypeView D) (embed : TypeDescriptor → D)
    (construct : D → Value)
    (conv : D → Value → Node → Option Outcome)
    (convTypeFrom : Option Node → Option (Except ConversionError TypeDescriptorOwner))
    (type : D) (ptr : Value) (aNode : Node) : Option Outcome :=
  match view type with
  | .struct members =>
    if !aNode.isObject then some (.fail .ShapeMismatch ptr)
    else
      match ptr.structMembers with
      | none => some .undefined
      | some vals =>
        (forEachFuel (fun (km : Nat × (String × D)) (vals : List Value) =>
          match aNode.get km.2.1 with
          | none => some (.ok vals)
          | some aMember =>
            match vals[km.1]? with
            | none => some (.error .undefined)
            | some m => (conv km.2.2 m aMember).map (storeItem .struct vals km.1))
          members.enum vals).map (finishLoop .struct)
  | .plain .float =>
    if !aNode.isNumeric then some (.fail .ShapeMismatch ptr)
    else some (.ok (.float aNode.numericFloat))
  | .plain .u8 =>
    if !aNode.isNumeric then some (.fail .ShapeMismatch ptr)
    else some (.ok (.u8 (aNode.numericU 8)))
  | .plain .u16 =>
    if !aNode.isNumeric then some (.fail .ShapeMismatch ptr)
    else some (.ok (.u16 (aNode.numericU 16)))
  | .plain .bool => some (.ok (.bool (aNode.textOf == "true")))
  | .plain .u32 =>
    if !aNode.isNumeric then some (.fail .ShapeMismatch ptr)
    else some (.ok (.u32 (aNode.numericU 32)))
  | .plain .s32 =>
    if !aNode.isNumeric then some (.fail .ShapeMismatch ptr)
    else some (.ok (.s32 aNode.numericS32))
  | .fixedArray itemType numItems =>
    if !aNode.isArray then some (.fail .ShapeMismatch ptr)
    else
      match ptr.fixedArrayItems with
      | none => some .undefined
      | some vals =>
        (forEachFuel (itemBodyFuel .fixedArray conv itemType aNode.arrayItems)
          (indexRange 0 numItems) vals).map (finishLoop .fixedArray)
  | .plain .string =>
    if aNode.isText then some (.ok (.string aNode.textOf))
    else some (.ok ptr)
  | .array itemType =>
    if !aNode.isArray then some (.fail .ShapeMismatch ptr)
    else
      match ptr.arrayItems with
      | none => some .undefined
      | some vals =>
        let oldArrSize := vals.length
        let newArrSize := aNode.arrayItems.length
        let vals := destructItems vals newArrSize oldArrSize
        match realloc vals newArrSize with
        | none => some .undefined
        | some vals =>
          let vals := (indexRange oldArrSize newArrSize).foldl
            (fun vals i => vals.set i (construct itemType)) vals
          (forEachFuel (itemBodyFuel .array conv itemType aNode.arrayItems)
            (indexRange 0 newArrSize) vals).map (finishLoop .array)
  | .enumIndexedArray itemType identifiers =>
    if !aNode.isObject then some (.fail .ShapeMismatch ptr)
    else
      match ptr.enumIndexedItems with
      | none => some .undefined
      | some vals =>
        (forEachFuel (fun (identifier : Identifier) (vals : List Value) =>
          match aNode.get identifier.name with
          | none => some (.ok vals)
          | some aMember =>
            match vals[identifier.value]? with
            | none => some (.error .undefined)
            | some m =>
              (conv itemType m aMember).map
                (storeItem .enumIndexedArray vals identifier.value))
          identifiers vals).map (finishLoop .enumIndexedArray)
  | .enum fixedSize identifiers =>
    if !aNode.isText then some (.fail .ShapeMismatch ptr)
    else
      match identifiers.find? (fun identifier => identifier.name == aNode.textOf) with
      | none => some (.fail .UnknownEnumIdentifier ptr)
      | some identifier =>
        if fixedSize == 1 then
          if identifier.value ≤ 255 then some (.ok (.u8 (identifier.value % 256)))
          else some (.fail .EnumValueOutOfRange ptr)
        else if fixedSize == 2 then
          if identifier.value ≤ 65535 then some (.ok (.u16 (identifier.value % 65536)))
          else some (.fail .EnumValueOutOfRange ptr)
        else if fixedSize == 4 then some (.ok (.u32 identifier.value))
        else some (.fail .UnsupportedEnumWidth ptr)
  | .plain .savedTypedPtr =>
    if !aNode.isObject then some (.fail .ShapeMismatch ptr)
    else
      match convTypeFrom (aNode.get "type") with
      | none => none
      | some (.error e) => some (.fail e ptr)
      | some (.ok targetTypeOwner) =>
        match targetTypeOwner.rootType with
        | none => some .undefined
        | some rootType =>
          let owned := construct (embed rootType)
          match aNode.get "value" with
          | none => some (.fail .ShapeMismatch (.savedTypedPtr (some targetTypeOwner) owned))
          | some aValue =>
            (conv (embed rootType) owned aValue).map
              (wrapOutcome (.savedTypedPtr (some targetTypeOwner)))
  | .plain .typedArray =>
    if !aNode.isObject then some (.fail .ShapeMismatch ptr)
    else
      match convTypeFrom (aNode.get "type") with
      | none => none
      | some (.error e) => some (.fail e ptr)
      | some (.ok itemTypeOwner) =>
        match itemTypeOwner.rootType with
        | none => some .undefined
        | some itemType =>
          let numItems := (Node.arrayItemsRef (aNode.get "data")).length
          let vals := List.replicate numItems (construct (embed itemType))
          (forEachFuel
            (itemBodyFuel (.typedArray (some itemTypeOwner)) conv (embed itemType)
              (Node.arrayItemsRef (aNode.get "data")))
            (indexRange 0 numItems) vals).map
            (finishLoop (.typedArray (some itemTypeOwner)))
  | .switch states =>
    if !aNode.isObject then some (.fail .ShapeMismatch ptr)
    else if aNode.objectItems.length != 1 then some (.fail .ShapeMismatch ptr)
    else
      match aNode.objectItems.head? with
      | none => some (.fail .ShapeMismatch ptr)
      | some iter =>
        match findStateViewFrom iter.1 0 states with
        | none => some (.fail .UnknownUnionState ptr)
        | some (i, structType) =>
          match ensureStateIsView construct states ptr (i % 65536) with
          | none => some .undefined
          | some (id, storage) =>
            (conv structType storage iter.2).map (wrapOutcome (.switch id))
  | .plain (.other _) => some (.fail .UnsupportedTargetType ptr)

/-- The function `convertFrom` (lines 101-245) on descriptor handles, with a bound on the
depth of the recursion: `none` when the recursion would go deeper than `fuel` calls.
The calls of `convertType` count in the depth. -/
def convertFromFuel {D : Type} (view : D → TypeView D) (embed : TypeDescriptor → D)
    (construct : D → Value) (typeFromName : Option (String → Option TypeDescriptor)) :
    Nat → D → Value → Node → Option Outcome
  | 0, _, _, _ => none
  | fuel + 1, type, ptr, aNode =>
    convertFromStep view embed construct
      (convertFromFuel view embed construct typeFromName fuel)
      (convertTypeFromFuel typeFromName fuel) type ptr aNode

/-- A descriptor graph that refers to itself: handle 0 is a struct `Tree` with one
member `children`, handle 1 the dynamic array of `Tree`; every other handle is `u16`. -/
def exampleTreeView : Nat → TypeView Nat
  | 0 => .struct [("children", 1)]
  | 1 => .array 0
  | _ => .plain .u16

/-- Default construction for the handles of `exampleTreeView`. -/
def exampleTreeConstruct : Nat → Value
  | 0 => .struct [.array []]
  | 1 => .array []
  | _ => .u16 0

/-- The document `{"children": [{"children": []}, {}]}`. -/
def exampleTreeDocument : Node :=
  .object [("children", .array [.object [("children", .array [])], .object []])]

/-! ## The aliasing example -/

/-- The storage of a run that returned; `none` for a run that a checked site stopped
or that is undefined. -/
def Outcome.toOption : Outcome → Option Value
  | .ok v => some v
  | .fail _ _ => none
  | .undefined => none

/-- A sequence of steps, each of which may not succeed, run one after the other from a
start state; `none` as soon as a step does not succeed. -/
def runSteps {α σ : Type} (step : α → σ → Option σ) : List α → σ → Option σ
  | [], s => some s
  | a :: rest, s => (step a s).bind (runSteps step rest)

/-- What one conversion of an enclosing storage does to one of its slots: it converts
a node into the object the slot holds (`into`; the slot must hold one), it converts a
node into the object the slot holds or, when the slot holds none, into a freshly
constructed one (`fresh`), it releases the slot (`drop`), or it stops (`stop`). -/
inductive SlotOp where
  | into (a : Node)
  | fresh (a : Node)
  | drop
  | stop

/-- The effect of a slot operation on the content of a slot (`none`: the slot holds
nothing), `g` being the conversion at the slot's type and `c` a freshly constructed
object of that type; the outer `none` is a conversion that does not succeed. -/
def SlotOp.apply (g : Node → Value → Option Value) (c : Value) :
    SlotOp → Option Value → Option (Option Value)
  | .into a, some v => (g a v).map some
  | .into _, none => none
  | .fresh a, x => (g a (x.getD c)).map some
  | .drop, _ => some none
  | .stop, _ => none

/-- A sequence of slot operations applied to the content of a slot. -/
def runOps (g : Node → Value → Option Value) (c : Value) :
    List SlotOp → Option Value → Option (Option Value) :=
  runSteps (fun op x => op.apply g c x)

/-- What the slot theorems assume of the conversion `g` at a slot's type: on the
storages `W` and the nodes `N`, a conversion that succeeds keeps the storage in `W`,
its success does not depend on the storage, and a sequence of conversions that
succeeds can be repeated on its result, which it leaves unchanged. -/
structure SlotGood (g : Node → Value → Option Value) (W : Value → Prop) (N : Node → Prop) :
    Prop where
  pres : ∀ a v r, N a → W v → g a v = some r → W r
  succ : ∀ a v1 v2 r, N a → W v1 → W v2 → g a v1 = some r → ∃ r2, g a v2 = some r2
  band : ∀ as v r, (∀ a ∈ as, N a) → W v → runSteps g as v = some r → runSteps g as r = some r

/-- The nodes converted by a list of slot operations. -/
def SlotOp.nodes : List SlotOp → List Node
  | [] => []
  | .into a :: rest => a :: SlotOp.nodes rest
  | .fresh a :: rest => a :: SlotOp.nodes rest
  | .drop :: rest => SlotOp.nodes rest
  | .stop :: rest => SlotOp.nodes rest

/-- The operation converts into the object the slot holds or stops. -/
def SlotOp.isInto : SlotOp → Bool
  | .into _ => true
  | .stop => true
  | _ => false

/-- The operation is `fresh`, `drop` or `stop`. -/
def SlotOp.isFresh : SlotOp → Bool
  | .into _ => false
  | _ => true

/-- The operations that the conversions of a sequence of nodes, one after the other,
perform on slot `i`, `ops n i` being those of the conversion of the node `n`. -/
def seqOps (ops : Node → Nat → List SlotOp) (i : Nat) : List Node → List SlotOp
  | [] => []
  | n :: ns => ops n i ++ seqOps ops i ns

/-- The storage holds a value of the descriptor's type, as far as `convertFrom` reads
it: struct storage with one slot per member, each member holding a value of its type;
fixed-array storage of the declared number of items; dynamic-array and
enum-indexed-array storage whose items hold values of the item type, with a slot for
every identifier; union storage in one of its declared states, the payload holding a
value of that state's type.  Storage of a descriptor without sub-descriptors is not
read by `convertFrom` and is not constrained. -/
inductive StorageFor : TypeDescriptor → Value → Prop where
  | plain (typeKey : TypeKey) (fixedSize : Nat) (v : Value) :
      StorageFor (.plain typeKey fixedSize) v
  | enum (fixedSize : Nat) (identifiers : List Identifier) (v : Value) :
      StorageFor (.enum fixedSize identifiers) v
  | struct (fixedSize : Nat) (name : String) (members : List Member) (vals : List Value) :
      vals.length = members.length →
      (∀ (k : Nat) (m : Member) (v : Value), members[k]? = some m → vals[k]? = some v →
        StorageFor m.type v) →
      StorageFor (.struct fixedSize name members) (.struct vals)
  | fixedArray (fixedSize : Nat) (itemType : TypeDescriptor) (numItems : Nat)
      (vals : List Value) :
      vals.length = numItems →
      (∀ (i : Nat) (v : Value), vals[i]? = some v → StorageFor itemType v) →
      StorageFor (.fixedArray fixedSize itemType numItems) (.fixedArray vals)
  | array (fixedSize : Nat) (itemType : TypeDescriptor) (vals : List Value) :
      (∀ (i : Nat) (v : Value), vals[i]? = some v → StorageFor itemType v) →
      StorageFor (.array fixedSize itemType) (.array vals)
  | enumIndexedArray (fixedSize : Nat) (itemType : TypeDescriptor)
      (identifiers : List Identifier) (vals : List Value) :
      (∀ identifier ∈ identifiers, identifier.value < vals.length) →
      (∀ (i : Nat) (v : Value), vals[i]? = some v → StorageFor itemType v) →
      StorageFor (.enumIndexedArray fixedSize itemType identifiers) (.enumIndexedArray vals)
  | switch (fixedSize storageOffset : Nat) (states : List State) (id : Nat) (state : State)
      (payload : Value) :
      states[id]? = some state → StorageFor state.structType payload →
      StorageFor (.switch fixedSize storageOffset states) (.switch id payload)

/-- The default construction `construct` gives storage that holds a value of the type,
for the item type of every dynamic array and the payload type of every union state of
the descriptor, at any depth: the types that `convertFrom` constructs. -/
inductive Constructs (construct : TypeDescriptor → Value) : TypeDescriptor → Prop where
  | plain (typeKey : TypeKey) (fixedSize : Nat) : Constructs construct (.plain typeKey fixedSize)
  | enum (fixedSize : Nat) (identifiers : List Identifier) :
      Constructs construct (.enum fixedSize identifiers)
  | struct (fixedSize : Nat) (name : String) (members : List Member) :
      (∀ m ∈ members, Constructs construct m.type) →
      Constructs construct (.struct fixedSize name members)
  | fixedArray (fixedSize : Nat) (itemType : TypeDescriptor) (numItems : Nat) :
      Constructs construct itemType →
      Constructs construct (.fixedArray fixedSize itemType numItems)
  | array (fixedSize : Nat) (itemType : TypeDescriptor) :
      StorageFor itemType (construct itemType) → Constructs construct itemType →
      Constructs construct (.array fixedSize itemType)
  | enumIndexedArray (fixedSize : Nat) (itemType : TypeDescriptor)
      (identifiers : List Identifier) :
      Constructs construct itemType →
      Constructs construct (.enumIndexedArray fixedSize itemType identifiers)
  | switch (fixedSize storageOffset : Nat) (states : List State) :
      (∀ state ∈ states, StorageFor state.structType (construct state.structType)) →
      (∀ state ∈ states, Constructs construct state.structType) →
      Constructs construct (.switch fixedSize storageOffset states)

/-- No union state index is narrowed in the conversion of the node at the descriptor:
wherever the conversion reaches a union and the entry of the node names a declared
state, the index of the first state of that name is below 65536, the range of the 16-bit
state id of line 233; and the same holds of the conversions of the sub-nodes that the
conversion makes. -/
inductive NoNarrowing : TypeDescriptor → Node → Prop where
  | plain (typeKey : TypeKey) (fixedSize : Nat) (aNode : Node) :
      NoNarrowing (.plain typeKey fixedSize) aNode
  | enum (fixedSize : Nat) (identifiers : List Identifier) (aNode : Node) :
      NoNarrowing (.enum fixedSize identifiers) aNode
  | struct (fixedSize : Nat) (name : String) (members : List Member) (aNode : Node) :
      (∀ m ∈ members, ∀ aMember, aNode.get m.name = some aMember →
        NoNarrowing m.type aMember) →
      NoNarrowing (.struct fixedSize name members) aNode
  | fixedArray (fixedSize : Nat) (itemType : TypeDescriptor) (numItems : Nat) (aNode : Node) :
      (∀ (i : Nat) (aItem : Node), i < numItems → aNode.arrayItems[i]? = some aItem →
        NoNarrowing itemType aItem) →
      NoNarrowing (.fixedArray fixedSize itemType numItems) aNode
  | array (fixedSize : Nat) (itemType : TypeDescriptor) (aNode : Node) :
      (∀ (i : Nat) (aItem : Node), aNode.arrayItems[i]? = some aItem →
        NoNarrowing itemType aItem) →
      NoNarrowing (.array fixedSize itemType) aNode
  | enumIndexedArray (fixedSize : Nat) (itemType : TypeDescriptor)
      (identifiers : List Identifier) (aNode : Node) :
      (∀ identifier ∈ identifiers, ∀ aMember, aNode.get identifier.name = some aMember →
        NoNarrowing itemType aMember) →
      NoNarrowing (.enumIndexedArray fixedSize itemType identifiers) aNode
  | switch (fixedSize storageOffset : Nat) (states : List State) (aNode : Node) :
      (∀ (iter : String × Node) (i : Nat) (state : State),
        aNode.objectItems.head? = some iter → findState states iter.1 = some (i, state) →
        i < 65536) →
      (∀ (iter : String × Node) (i : Nat) (state : State),
        aNode.objectItems.head? = some iter → findState states iter.1 = some (i, state) →
        NoNarrowing state.structType iter.2) →
      NoNarrowing (.switch fixedSize storageOffset states) aNode

mutual
/-- In every EnumIndexedArray descriptor of the type (at any depth) the identifiers of
the enum have pairwise distinct values: no two identifiers index the same slot. -/
def TypeDescriptor.distinctSlots : TypeDescriptor → Bool
  | .plain _ _ => true
  | .struct _ _ members => distinctSlotsMembers members
  | .fixedArray _ itemType _ => itemType.distinctSlots
  | .array _ itemType => itemType.distinctSlots
  | .enumIndexedArray _ itemType identifiers =>
    decide ((identifiers.map (fun identifier => identifier.value)).Nodup) &&
      itemType.distinctSlots
  | .enum _ _ => true
  | .switch _ _ states => distinctSlotsStates states
/-- The property `distinctSlots` for the type of every member. -/
def distinctSlotsMembers : List Member → Bool
  | [] => true
  | .mk _ _ t :: rest => t.distinctSlots && distinctSlotsMembers rest
/-- The property `distinctSlots` for the payload type of every state. -/
def distinctSlotsStates : List State → Bool
  | [] => true
  | .mk _ t :: rest => t.distinctSlots && distinctSlotsStates rest
end

/-- The runs of `convertFrom` in which no state index is narrowed inside a slot that
two identifiers share.  The conversion of the node into the storage at the descriptor
is repeatable when either

* the storage holds a value of the descriptor's type, the default construction yields
  values of the types it constructs and no state index is narrowed (rule `typed`):
  identifiers may then share values, at any depth; a scalar or an enum always
  satisfies this rule; or
* the descriptor is a struct, a fixed array, a dynamic array, an enum-indexed array or
  a union, each conversion that lines 108 to 242 make into a member, an item, a slot
  or the payload is repeatable, and, for an enum-indexed array, no two identifiers
  that have an entry in the node have the same value (rules `struct` to `switch`):
  state indexes may then be narrowed.  The storage of a sub-conversion is the one the
  loop converts into: the prior member, item or slot, a constructed item for an index
  beyond the prior length of a dynamic array, and for a union the payload that
  `ensureStateIs` leaves. -/
inductive Repeatable (construct : TypeDescriptor → Value) :
    TypeDescriptor → Value → Node → Prop where
  | typed (type : TypeDescriptor) (ptr : Value) (aNode : Node) :
      Constructs construct type → StorageFor type ptr → NoNarrowing type aNode →
      Repeatable construct type ptr aNode
  | struct (fixedSize : Nat) (name : String) (members : List Member) (ptr : Value)
      (aNode : Node) :
      (∀ (vals : List Value) (k : Nat) (m : Member) (v : Value) (aMember : Node),
        ptr.structMembers = some vals → members[k]? = some m → vals[k]? = some v →
        aNode.get m.name = some aMember → Repeatable construct m.type v aMember) →
      Repeatable construct (.struct fixedSize name members) ptr aNode
  | fixedArray (fixedSize : Nat) (itemType : TypeDescriptor) (numItems : Nat) (ptr : Value)
      (aNode : Node) :
      (∀ (vals : List Value) (i : Nat) (v : Value) (aItem : Node),
        ptr.fixedArrayItems = some vals → i < numItems → vals[i]? = some v →
        aNode.arrayItems[i]? = some aItem → Repeatable construct itemType v aItem) →
      Repeatable construct (.fixedArray fixedSize itemType numItems) ptr aNode
  | array (fixedSize : Nat) (itemType : TypeDescriptor) (ptr : Value) (aNode : Node) :
      (∀ (vals : List Value) (i : Nat) (aItem : Node), ptr.arrayItems = some vals →
        aNode.arrayItems[i]? = some aItem →
        Repeatable construct itemType ((vals[i]?).getD (construct itemType)) aItem) →
      Repeatable construct (.array fixedSize itemType) ptr aNode
  | enumIndexedArray (fixedSize : Nat) (itemType : TypeDescriptor)
      (identifiers : List Identifier) (ptr : Value) (aNode : Node) :
      (∀ (j k : Nat) (first second : Identifier), j ≠ k → identifiers[j]? = some first →
        identifiers[k]? = some second → aNode.get first.name ≠ none →
        aNode.get second.name ≠ none → first.value ≠ second.value) →
      (∀ (vals : List Value), ptr.enumIndexedItems = some vals →
        ∀ identifier ∈ identifiers, ∀ (v : Value) (aMember : Node),
        vals[identifier.value]? = some v → aNode.get identifier.name = some aMember →
        Repeatable construct itemType v aMember) →
      Repeatable construct (.enumIndexedArray fixedSize itemType identifiers) ptr aNode
  | switch (fixedSize storageOffset : Nat) (states : List State) (ptr : Value)
      (aNode : Node) :
      (∀ (iter : String × Node) (i : Nat) (state : State) (id : Nat) (storage : Value),
        aNode.objectItems.head? = some iter → findState states iter.1 = some (i, state) →
        ensureStateIs construct states ptr (i % 65536) = some (id, storage) →
        Repeatable construct state.structType storage iter.2) →
      Repeatable construct (.switch fixedSize storageOffset states) ptr aNode

/-- The conversion of a node into storage of a type, as a step that may not succeed. -/
def convStep (construct : TypeDescriptor → Value)
    (typeFromName : Option (String → Option TypeDescriptor)) (type : TypeDescriptor) :
    Node → Value → Option Value :=
  fun aNode ptr => (convertFrom construct typeFromName type ptr aNode).toOption

/-- The conversion at the type of a slot; a slot without a type is never converted. -/
def slotConv (construct : TypeDescriptor → Value)
    (typeFromName : Option (String → Option TypeDescriptor)) :
    Option TypeDescriptor → Node → Value → Option Value
  | some type => convStep construct typeFromName type
  | none => fun _ _ => none

/-- The storages of the type of a slot. -/
def SlotStorage : Option TypeDescriptor → Value → Prop
  | some type => StorageFor type
  | none => fun _ => True

/-- The nodes whose conversion at the type of a slot narrows no state index. -/
def SlotNode : Option TypeDescriptor → Node → Prop
  | some type => NoNarrowing type
  | none => fun _ => True

/-- A freshly constructed object of the type of a slot. -/
def slotConstruct (construct : TypeDescriptor → Value) : Option TypeDescriptor → Value
  | some type => construct type
  | none => .raw

/-- The three properties proved of every descriptor: on storage of the type and nodes
that narrow no state index, a conversion that succeeds leaves storage of the type, its
success does not depend on the storage, and a sequence of conversions that succeeds can
be repeated on its result, which it leaves unchanged. -/
def GoodType (construct : TypeDescriptor → Value)
    (typeFromName : Option (String → Option TypeDescriptor)) (type : TypeDescriptor) : Prop :=
  Constructs construct type →
    SlotGood (convStep construct typeFromName type) (StorageFor type) (NoNarrowing type)

/-- The operations of the conversion of a node at a struct descriptor on slot `k`. -/
def structOps (members : List Member) (aNode : Node) (k : Nat) : List SlotOp :=
  if aNode.isObject then
    match members[k]? with
    | none => []
    | some m =>
      match aNode.get m.name with
      | none => []
      | some aMember => [.into aMember]
  else [.stop]

/-- The operations of the conversion of a node at a fixed-array descriptor of
`numItems` items on slot `i`. -/
def fixedArrayOps (numItems : Nat) (aNode : Node) (i : Nat) : List SlotOp :=
  if aNode.isArray then
    if i < numItems then
      match aNode.arrayItems[i]? with
      | some aItem => [.into aItem]
      | none => [.stop]
    else []
  else [.stop]

/-- The operations of the conversion of a node at a dynamic-array descriptor on slot
`i`: the slot is released when the node has no element `i`. -/
def arrayOps (aNode : Node) (i : Nat) : List SlotOp :=
  if aNode.isArray then
    match aNode.arrayItems[i]? with
    | some aItem => [.fresh aItem]
    | none => [.drop]
  else [.stop]

/-- The operations of the identifier loop on slot `i`, in the order of the
identifiers: one conversion for every identifier of value `i` that has an entry in the
node. -/
def identifierOps (aNode : Node) (i : Nat) : List Identifier → List SlotOp
  | [] => []
  | identifier :: rest =>
    (if identifier.value = i then
      match aNode.get identifier.name with
      | some aMember => [.into aMember]
      | none => []
    else []) ++ identifierOps aNode i rest

/-- The operations of the conversion of a node at an enum-indexed-array descriptor on
slot `i`. -/
def enumIndexedOps (identifiers : List Identifier) (aNode : Node) (i : Nat) : List SlotOp :=
  if aNode.isObject then identifierOps aNode i identifiers else [.stop]

/-- The entry that the conversion of a node at a union descriptor converts: the index
of the first state named by the one entry of the node, and the value of the entry;
`none` when the node is not an Object of exactly one entry or names no state. -/
def switchEntry (states : List State) (aNode : Node) : Option (Nat × Node) :=
  if aNode.isObject && aNode.objectItems.length == 1 then
    match aNode.objectItems.head? with
    | none => none
    | some iter => (findState states iter.1).map (fun found => (found.1, iter.2))
  else none

/-- The operations of the conversion of a node at a union descriptor on the payload of
state `i`, seen as a slot that holds an object while `i` is the active state: the
payload of the selected state is converted into, after construction when the state was
not active, and the payload of every other state is released. -/
def switchOps (states : List State) (aNode : Node) (i : Nat) : List SlotOp :=
  match switchEntry states aNode with
  | none => [.stop]
  | some (j, aValue) => if i = j then [.fresh aValue] else [.drop]

/-- The payload of state `i` of union storage: present while `i` is the active state. -/
def switchView (s : Nat × Value) (i : Nat) : Option Value :=
  if i = s.1 then some s.2 else none

/-! ## The loop bodies, with the recursive call as a parameter -/

/-- Body of the member loop over an object-form "members" (lines 68-70), the
recursive call abstracted as `conv`. -/
def objectMemberBody (conv : Option TypeDescriptorOwner → Node → TypeOutcome)
    (iter : String × Node) (st : SynthState) : Except TypeStop SynthState :=
  appendConverted st.1 iter.1 (conv st.2 iter.2)

/-- Body of the member loop over an array-form "members" (lines 72-76), the
recursive call abstracted as `conv`. -/
def arrayMemberBody (conv : Option TypeDescriptorOwner → Node → TypeOutcome)
    (aMember : Node) (st : SynthState) : Except TypeStop SynthState :=
  if !aMember.isArray then .error (.fail .ShapeMismatch st.2)
  else if aMember.arrayItems.length != 2 then .error (.fail .ShapeMismatch st.2)
  else
    match aMember.item 1 with
    | none => .error (.fail .ShapeMismatch st.2)
    | some aType =>
      appendConverted st.1 (Node.textOfRef (aMember.item 0)) (conv st.2 aType)

/-- The struct branch of `convertType` (lines 49-81), the recursive call
abstracted as `conv`. -/
def synthesizeStruct (conv : Option TypeDescriptorOwner → Node → TypeOutcome)
    (typeOwner : Option TypeDescriptorOwner) (aNode : Node) : TypeOutcome :=
  if typeOwner.isNone then .fail .MissingRequiredOwner typeOwner
  else if !Node.isTextRef (aNode.get "name") then .fail .ShapeMismatch typeOwner
  else
    match aNode.get "members" with
    | none => .fail .ShapeMismatch typeOwner
    | some aMembers =>
      if aMembers.isObject then
        finishStruct (forEach (objectMemberBody conv) aMembers.objectItems
          (⟨0, Node.textOfRef (aNode.get "name"), []⟩, typeOwner))
      else if aMembers.isArray then
        finishStruct (forEach (arrayMemberBody conv) aMembers.arrayItems
          (⟨0, Node.textOfRef (aNode.get "name"), []⟩, typeOwner))
      else .fail .ShapeMismatch typeOwner

/-- Body of the member loop of the Struct branch (lines 111-117), the recursive
call abstracted as `conv`. -/
def structBody (conv : TypeDescriptor → Value → Node → Outcome) (aNode : Node)
    (km : Nat × Member) (vals : List Value) : Except Stop (List Value) :=
  match aNode.get km.2.name with
  | none => .ok vals
  | some aMember =>
    match vals[km.1]? with
    | none => .error .undefined
    | some m => storeItem .struct vals km.1 (conv km.2.type m aMember)

/-- Body of the positional loops (lines 140-143, 165-168, 219-222) over the
storage `wrap vals`, the recursive call abstracted as `conv`. -/
def itemBody (wrap : List Value → Value) (conv : TypeDescriptor → Value → Node → Outcome)
    (itemType : TypeDescriptor) (aNodeArr : List Node)
    (i : Nat) (vals : List Value) : Except Stop (List Value) :=
  match aNodeArr[i]? with
  | none => .error (.fail .ShapeMismatch (wrap vals))
  | some aItem =>
    match vals[i]? with
    | none => .error .undefined
    | some elem => storeItem wrap vals i (conv itemType elem aItem)

/-- Body of the identifier loop of the EnumIndexedArray branch (lines 172-180). -/
def enumIndexedBody (conv : TypeDescriptor → Value → Node → Outcome) (aNode : Node)
    (itemType : TypeDescriptor) (identifier : Identifier) (vals : List Value) :
    Except Stop (List Value) :=
  match aNode.get identifier.name with
  | none => .ok vals
  | some aMember =>
    match vals[identifier.value]? with
    | none => .error .undefined
    | some m => storeItem .enumIndexedArray vals identifier.value (conv itemType m aMember)

/-! ## Unfolding lemmas -/

theorem forEach_map {α ι σ ε : Type} (g : α → ι) (body : ι → σ → Except ε σ)
    (l : List α) (s : σ) :
    forEach body (l.map g) s = forEach (fun x s => body (g x) s) l s := by
  induction l generalizing s with
  | nil => rfl
  | cons a l ih =>
    simp only [List.map_cons, forEach]
    cases body (g a) s with
    | ok s' => exact ih s'
    | error e => rfl

theorem forEach_attach {ι σ ε : Type} (body : ι → σ → Except ε σ) (l : List ι) (s : σ) :
    forEach (fun (x : {x // x ∈ l}) s => body x.val s) l.attach s = forEach body l s := by
  rw [← forEach_map (fun (x : {x // x ∈ l}) => x.val) body l.attach s, List.attach_map_subtype_val]

theorem convertType_text (f : Option (String → Option TypeDescriptor))
    (typeOwner : Option TypeDescriptorOwner) (str : String) :
    convertType f typeOwner (.text str) =
    if str == "u16" then .ok typeU16 typeOwner
    else if str == "u16_2" then .ok typeU16_2 typeOwner
    else if str == "u16_3" then .ok typeU16_3 typeOwner
    else if str == "u16_4" then .ok typeU16_4 typeOwner
    else if str == "float" then .ok typeFloat typeOwner
    else
      match resolve f str with
      | some typeDesc => .ok typeDesc typeOwner
      | none => .fail .UnresolvedPrimitiveType typeOwner := by
  rw [convertType]
  simp only [Node.isText, Node.textOf, ↓reduceIte]
  try rfl

theorem convertType_object (f : Option (String → Option TypeDescriptor))
    (typeOwner : Option TypeDescriptorOwner) (items : List (String × Node)) :
    convertType f typeOwner (.object items) =
    if Node.textOfRef ((Node.object items).get "key") == "struct" then
      synthesizeStruct (convertType f) typeOwner (.object items)
    else .fail .UnrecognizedTypeDeclaration typeOwner := by
  rw [convertType]
  unfold synthesizeStruct
  have ht : (Node.object items).isText = false := rfl
  have ho : (Node.object items).isObject = true := rfl
  simp only [ht, ho, Bool.false_eq_true, ↓reduceIte]
  cases hk : (Node.textOfRef ((Node.object items).get "key") == "struct")
  · simp
  · simp only [↓reduceIte]
    cases hown : typeOwner.isNone
    · simp only [Bool.false_eq_true, ↓reduceIte]
      cases hname : Node.isTextRef ((Node.object items).get "name")
      · simp
      · simp only [Bool.not_true, Bool.false_eq_true, ↓reduceIte]
        split
        · rename_i heq
          simp only [heq]
        · rename_i aMembers heq
          simp only [heq]
          cases hmo : aMembers.isObject
          · simp only [Bool.false_eq_true, ↓reduceIte]
            cases hma : aMembers.isArray
            · simp
            · simp only [↓reduceIte]
              rw [← forEach_attach (arrayMemberBody (convertType f))]
              congr 2
              funext aMember st
              unfold arrayMemberBody
              cases h1 : aMember.val.isArray
              · simp
              · simp only [Bool.not_true, Bool.false_eq_true, ↓reduceIte]
                cases h2 : (aMember.val.arrayItems.length != 2)
                · simp only [Bool.false_eq_true, ↓reduceIte]
                  split <;> rename_i heq <;> simp only [heq] <;> rfl
                · simp
          · simp only [↓reduceIte]
            rw [← forEach_attach (objectMemberBody (convertType f))]
            rfl
    · simp

theorem convertType_other (f : Option (String → Option TypeDescriptor))
    (typeOwner : Option TypeDescriptorOwner) (aNode : Node)
    (ht : aNode.isText = false) (ho : aNode.isObject = false) :
    convertType f typeOwner aNode = .fail .UnrecognizedTypeDeclaration typeOwner := by
  rw [convertType]
  simp [ht, ho]

theorem convertFrom_struct (c f n s members) (ptr : Value) (aNode : Node) :
    convertFrom c f (.struct n s members) ptr aNode =
    if !aNode.isObject then .fail .ShapeMismatch ptr
    else
      match ptr.structMembers with
      | none => .undefined
      | some vals =>
        finishLoop .struct (forEach (structBody (convertFrom c f) aNode) members.enum vals) := by
  rw [convertFrom]
  cases hobj : aNode.isObject
  · simp
  · cases hm : ptr.structMembers with
    | none => simp
    | some vals =>
      simp only [Bool.not_true, Bool.false_eq_true, ↓reduceIte]
      congr 2
      funext km vals
      unfold structBody
      split <;> rename_i heq <;> simp only [heq] <;> rfl

theorem convertFrom_fixedArray (c f n itemType numItems) (ptr : Value) (aNode : Node) :
    convertFrom c f (.fixedArray n itemType numItems) ptr aNode =
    if !aNode.isArray then .fail .ShapeMismatch ptr
    else
      match ptr.fixedArrayItems with
      | none => .undefined
      | some vals =>
        finishLoop .fixedArray
          (forEach (itemBody .fixedArray (convertFrom c f) itemType aNode.arrayItems)
            (indexRange 0 numItems) vals) := by
  rw [convertFrom]
  cases hobj : aNode.isArray
  · simp
  · cases hm : ptr.fixedArrayItems with
    | none => simp
    | some vals =>
      simp only [Bool.not_true, Bool.false_eq_true, ↓reduceIte]
      congr 2
      funext km vals
      unfold itemBody
      split <;> rename_i heq <;> simp only [heq] <;> rfl

theorem convertFrom_array_raw (c f n itemType) (ptr : Value) (aNode : Node) :
    convertFrom c f (.array n itemType) ptr aNode =
    if !aNode.isArray then .fail .ShapeMismatch ptr
    else
      match ptr.arrayItems with
      | none => .undefined
      | some vals =>
        match realloc (destructItems vals aNode.arrayItems.length vals.length)
            aNode.arrayItems.length with
        | none => .undefined
        | some vals1 =>
          finishLoop .array
            (forEach (itemBody .array (convertFrom c f) itemType aNode.arrayItems)
              (indexRange 0 aNode.arrayItems.length)
              (constructItems c itemType vals1 vals.length aNode.arrayItems.length)) := by
  rw [convertFrom]
  cases hobj : aNode.isArray
  · simp
  · cases hm : ptr.arrayItems with
    | none => simp
    | some vals =>
      simp only [Bool.not_true, Bool.false_eq_true, ↓reduceIte]
      cases hre : realloc (destructItems vals aNode.arrayItems.length vals.length)
          aNode.arrayItems.length with
      | none => rfl
      | some vals1 =>
        simp only []
        congr 2
        funext km vals
        unfold itemBody
        split <;> rename_i heq <;> simp only [heq] <;> rfl

theorem convertFrom_enumIndexedArray (c f n itemType identifiers) (ptr : Value) (aNode : Node) :
    convertFrom c f (.enumIndexedArray n itemType identifiers) ptr aNode =
    if !aNode.isObject then .fail .ShapeMismatch ptr
    else
      match ptr.enumIndexedItems with
      | none => .undefined
      | some vals =>
        finishLoop .enumIndexedArray
          (forEach (enumIndexedBody (convertFrom c f) aNode itemType) identifiers vals) := by
  rw [convertFrom]
  cases hobj : aNode.isObject
  · simp
  · cases hm : ptr.enumIndexedItems with
    | none => simp
    | some vals =>
      simp only [Bool.not_true, Bool.false_eq_true, ↓reduceIte]
      congr 2
      funext km vals
      unfold enumIndexedBody
      split <;> rename_i heq <;> simp only [heq] <;> rfl

theorem convertFrom_enum (c f fixedSize identifiers) (ptr : Value) (aNode : Node) :
    convertFrom c f (.enum fixedSize identifiers) ptr aNode =
    if !aNode.isText then .fail .ShapeMismatch ptr
    else
      match identifiers.find? (fun identifier => identifier.name == aNode.textOf) with
      | none => .fail .UnknownEnumIdentifier ptr
      | some identifier =>
        if fixedSize == 1 then
          if identifier.value ≤ 255 then .ok (.u8 (identifier.value % 256))
          else .fail .EnumValueOutOfRange ptr
        else if fixedSize == 2 then
          if identifier.value ≤ 65535 then .ok (.u16 (identifier.value % 65536))
          else .fail .EnumValueOutOfRange ptr
        else if fixedSize == 4 then .ok (.u32 identifier.value)
        else .fail .UnsupportedEnumWidth ptr := by
  rw [convertFrom]
  try rfl

theorem convertFrom_savedTypedPtr (c f n) (ptr : Value) (aNode : Node) :
    convertFrom c f (.plain .savedTypedPtr n) ptr aNode =
    if !aNode.isObject then .fail .ShapeMismatch ptr
    else
      match convertTypeFrom (aNode.get "type") f with
      | .error e => .fail e ptr
      | .ok targetTypeOwner =>
        match targetTypeOwner.rootType with
        | none => .undefined
        | some rootType =>
          match aNode.get "value" with
          | none => .fail .ShapeMismatch (.savedTypedPtr (some targetTypeOwner) (c rootType))
          | some aValue =>
            wrapOutcome (.savedTypedPtr (some targetTypeOwner))
              (convertFrom c f rootType (c rootType) aValue) := by
  rw [convertFrom]
  cases hobj : aNode.isObject
  · simp
  · simp only [Bool.not_true, Bool.false_eq_true, ↓reduceIte]
    cases hm : convertTypeFrom (aNode.get "type") f with
    | error e => simp
    | ok owner =>
      simp only []
      cases hr : owner.rootType with
      | none => simp
      | some rootType =>
        simp only []
        split <;> rename_i heq <;> simp only [heq]

theorem convertFrom_typedArray (c f n) (ptr : Value) (aNode : Node) :
    convertFrom c f (.plain .typedArray n) ptr aNode =
    if !aNode.isObject then .fail .ShapeMismatch ptr
    else
      match convertTypeFrom (aNode.get "type") f with
      | .error e => .fail e ptr
      | .ok itemTypeOwner =>
        match itemTypeOwner.rootType with
        | none => .undefined
        | some itemType =>
          finishLoop (.typedArray (some itemTypeOwner))
            (forEach (itemBody (.typedArray (some itemTypeOwner)) (convertFrom c f)
                itemType (Node.arrayItemsRef (aNode.get "data")))
              (indexRange 0 (Node.arrayItemsRef (aNode.get "data")).length)
              (List.replicate (Node.arrayItemsRef (aNode.get "data")).length (c itemType))) := by
  rw [convertFrom]
  cases hobj : aNode.isObject
  · simp
  · simp only [Bool.not_true, Bool.false_eq_true, ↓reduceIte]
    cases hm : convertTypeFrom (aNode.get "type") f with
    | error e => simp
    | ok owner =>
      simp only []
      cases hr : owner.rootType with
      | none => simp
      | some itemType =>
        simp only []
        congr 2
        funext km vals
        unfold itemBody
        split <;> rename_i heq <;> simp only [heq] <;> rfl

theorem convertFrom_switch (c f n off states) (ptr : Value) (aNode : Node) :
    convertFrom c f (.switch n off states) ptr aNode =
    if !aNode.isObject then .fail .ShapeMismatch ptr
    else if aNode.objectItems.length != 1 then .fail .ShapeMismatch ptr
    else
      match aNode.objectItems.head? with
      | none => .fail .ShapeMismatch ptr
      | some iter =>
        match findState states iter.1 with
        | none => .fail .UnknownUnionState ptr
        | some (i, state) =>
          match ensureStateIs c states ptr (i % 65536) with
          | none => .undefined
          | some (id, storage) =>
            wrapOutcome (.switch id) (convertFrom c f state.structType storage iter.2) := by
  rw [convertFrom]
  cases hobj : aNode.isObject
  · simp
  · simp only [Bool.not_true, Bool.false_eq_true, ↓reduceIte]
    split
    · rfl
    · split <;> rename_i heq <;> simp only [heq] <;> rfl

/-! ## Loop lemmas -/

theorem storeItem_ok {wrap : List Value → Value} {vals vals' : List Value} {i : Nat}
    {o : Outcome} (h : storeItem wrap vals i o = .ok vals') :
    ∃ v', o = .ok v' ∧ vals' = vals.set i v' := by
  cases o with
  | ok v => exact ⟨v, rfl, by simpa [storeItem] using h.symm⟩
  | fail e v => simp [storeItem] at h
  | undefined => simp [storeItem] at h

theorem structBody_ok {conv : TypeDescriptor → Value → Node → Outcome} {aNode : Node}
    {k : Nat} {m : Member} {vals vals' : List Value}
    (h : structBody conv aNode (k, m) vals = .ok vals') :
    (aNode.get m.name = none ∧ vals' = vals) ∨
    ∃ a v v', aNode.get m.name = some a ∧ vals[k]? = some v ∧ conv m.type v a = .ok v' ∧
      vals' = vals.set k v' := by
  unfold structBody at h
  cases hg : aNode.get m.name with
  | none =>
    simp only [hg] at h
    left
    exact ⟨rfl, by injection h with h; exact h.symm⟩
  | some a =>
    simp only [hg] at h
    right
    cases hv : vals[k]? with
    | none => simp [hv] at h
    | some v =>
      simp only [hv] at h
      obtain ⟨v', ho, hset⟩ := storeItem_ok h
      exact ⟨a, v, v', rfl, rfl, ho, hset⟩

theorem forEach_structBody_ok (conv : TypeDescriptor → Value → Node → Outcome) (aNode : Node) :
    ∀ (members : List Member) (j : Nat) (vals vals' : List Value),
    forEach (structBody conv aNode) (members.enumFrom j) vals = .ok vals' →
    vals'.length = vals.length ∧ (∀ i, i < j → vals'[i]? = vals[i]?) ∧
    ∀ k m, members[k]? = some m →
      (aNode.get m.name = none → vals'[j + k]? = vals[j + k]?) ∧
      (∀ a, aNode.get m.name = some a →
        ∃ v v', vals[j + k]? = some v ∧ conv m.type v a = .ok v' ∧ vals'[j + k]? = some v') := by
  intro members
  induction members with
  | nil =>
    intro j vals vals' h
    simp only [List.enumFrom_nil, forEach, Except.ok.injEq] at h
    subst h
    simp
  | cons m ms ih =>
    intro j vals vals' h
    simp only [List.enumFrom_cons, forEach] at h
    cases hb : structBody conv aNode (j, m) vals with
    | error e => simp [hb] at h
    | ok vals1 =>
      simp only [hb] at h
      obtain ⟨hlen, hlow, hrest⟩ := ih (j + 1) vals1 vals' h
      have hstep := structBody_ok hb
      have hlen1 : vals1.length = vals.length := by
        rcases hstep with ⟨_, rfl⟩ | ⟨a, v, v', _, _, _, rfl⟩
        · rfl
        · simp
      have hother : ∀ i, i ≠ j → vals1[i]? = vals[i]? := by
        intro i hi
        rcases hstep with ⟨_, rfl⟩ | ⟨a, v, v', _, _, _, rfl⟩
        · rfl
        · simp [List.getElem?_set, Ne.symm hi]
      refine ⟨by omega, ?_, ?_⟩
      · intro i hi
        rw [hlow i (by omega), hother i (by omega)]
      · intro k m' hk
        cases k with
        | zero =>
          simp only [List.getElem?_cons_zero, Option.some.injEq] at hk
          subst hk
          have hj : vals'[j]? = vals1[j]? := hlow j (by omega)
          simp only [Nat.add_zero]
          constructor
          · intro hnone
            rcases hstep with ⟨_, rfl⟩ | ⟨a, v, v', hsome, _, _, _⟩
            · exact hj
            · rw [hnone] at hsome; cases hsome
          · intro a ha
            rcases hstep with ⟨hnone, _⟩ | ⟨a', v, v', hsome, hv, hc, rfl⟩
            · rw [hnone] at ha; cases ha
            · rw [ha] at hsome
              cases hsome
              refine ⟨v, v', hv, hc, ?_⟩
              rw [hj]
              have hlt : j < vals.length := by
                by_contra hcon
                rw [List.getElem?_eq_none (by omega)] at hv
                cases hv
              simp [List.getElem?_set, hlt]
        | succ k =>
          simp only [List.getElem?_cons_succ] at hk
          obtain ⟨h1, h2⟩ := hrest k m' hk
          have hidx : j + 1 + k = j + (k + 1) := by omega
          rw [hidx] at h1 h2
          rw [hother (j + (k + 1)) (by omega)] at h1 h2
          exact ⟨h1, h2⟩

theorem forEach_structBody_exists (conv : TypeDescriptor → Value → Node → Outcome)
    (aNode : Node) :
    ∀ (members : List Member) (j : Nat) (vals : List Value),
    (∀ k m a, members[k]? = some m → aNode.get m.name = some a →
      ∃ v v', vals[j + k]? = some v ∧ conv m.type v a = .ok v') →
    ∃ vals', forEach (structBody conv aNode) (members.enumFrom j) vals = .ok vals' := by
  intro members
  induction members with
  | nil =>
    intro j vals _
    exact ⟨vals, rfl⟩
  | cons m ms ih =>
    intro j vals h
    simp only [List.enumFrom_cons, forEach]
    have hstep : ∃ vals1, structBody conv aNode (j, m) vals = .ok vals1 ∧
        ∀ i, i ≠ j → vals1[i]? = vals[i]? := by
      unfold structBody
      cases hg : aNode.get m.name with
      | none => exact ⟨vals, rfl, fun _ _ => rfl⟩
      | some a =>
        obtain ⟨v, v', hv, hc⟩ := h 0 m a (by simp) hg
        simp only [Nat.add_zero] at hv
        simp only [hv, hc, storeItem]
        refine ⟨vals.set j v', rfl, ?_⟩
        intro i hi
        simp [List.getElem?_set, Ne.symm hi]
    obtain ⟨vals1, hb, hother⟩ := hstep
    simp only [hb]
    apply ih (j + 1) vals1
    intro k m' a hk ha
    obtain ⟨v, v', hv, hc⟩ := h (k + 1) m' a (by simpa using hk) ha
    refine ⟨v, v', ?_, hc⟩
    have hidx : j + 1 + k = j + (k + 1) := by omega
    rw [hidx, hother _ (by omega)]
    exact hv

theorem forEach_append {ι σ ε : Type} (body : ι → σ → Except ε σ) (l₁ l₂ : List ι) (s : σ) :
    forEach body (l₁ ++ l₂) s =
      match forEach body l₁ s with
      | .ok s' => forEach body l₂ s'
      | .error e => .error e := by
  induction l₁ generalizing s with
  | nil => rfl
  | cons a l ih =>
    simp only [List.cons_append, forEach]
    cases body a s with
    | ok s' => exact ih s'
    | error e => rfl

theorem forEach_congr {ι σ ε : Type} (body body' : ι → σ → Except ε σ) (l : List ι)
    (h : ∀ x ∈ l, ∀ s, body x s = body' x s) (s : σ) :
    forEach body l s = forEach body' l s := by
  induction l generalizing s with
  | nil => rfl
  | cons a l ih =>
    simp only [forEach]
    rw [h a (List.mem_cons_self _ _) s]
    cases body' a s with
    | ok s' => exact ih (fun x hx => h x (List.mem_cons_of_mem _ hx)) s'
    | error e => rfl

theorem itemBody_ok {wrap : List Value → Value}
    {conv : TypeDescriptor → Value → Node → Outcome} {itemType : TypeDescriptor}
    {aNodeArr : List Node} {i : Nat} {vals vals' : List Value}
    (h : itemBody wrap conv itemType aNodeArr i vals = .ok vals') :
    ∃ a v v', aNodeArr[i]? = some a ∧ vals[i]? = some v ∧ conv itemType v a = .ok v' ∧
      vals' = vals.set i v' := by
  unfold itemBody at h
  cases hg : aNodeArr[i]? with
  | none => simp [hg] at h
  | some a =>
    simp only [hg] at h
    cases hv : vals[i]? with
    | none => simp [hv] at h
    | some v =>
      simp only [hv] at h
      obtain ⟨v', ho, hset⟩ := storeItem_ok h
      exact ⟨a, v, v', rfl, rfl, ho, hset⟩

theorem forEach_itemBody_ok (wrap : List Value → Value)
    (conv : TypeDescriptor → Value → Node → Outcome) (itemType : TypeDescriptor)
    (aNodeArr : List Node) :
    ∀ (n j : Nat) (vals vals' : List Value),
    forEach (itemBody wrap conv itemType aNodeArr) (List.range' j n) vals = .ok vals' →
    vals'.length = vals.length ∧ (∀ i, i < j → vals'[i]? = vals[i]?) ∧
    (∀ i, j + n ≤ i → vals'[i]? = vals[i]?) ∧
    ∀ i, j ≤ i → i < j + n →
      ∃ a v v', aNodeArr[i]? = some a ∧ vals[i]? = some v ∧ conv itemType v a = .ok v' ∧
        vals'[i]? = some v' := by
  intro n
  induction n with
  | zero =>
    intro j vals vals' h
    simp only [List.range'_zero, forEach, Except.ok.injEq] at h
    subst h
    refine ⟨rfl, fun _ _ => rfl, fun _ _ => rfl, ?_⟩
    intro i h1 h2
    omega
  | succ n ih =>
    intro j vals vals' h
    simp only [List.range'_succ, forEach] at h
    cases hb : itemBody wrap conv itemType aNodeArr j vals with
    | error e => simp [hb] at h
    | ok vals1 =>
      simp only [hb] at h
      obtain ⟨hlen, hlow, hhigh, hrest⟩ := ih (j + 1) vals1 vals' h
      obtain ⟨a, v, v', ha, hv, hc, hset⟩ := itemBody_ok hb
      subst hset
      have hlt : j < vals.length := by
        by_contra hcon
        rw [List.getElem?_eq_none (by omega)] at hv
        cases hv
      have hother : ∀ i, i ≠ j → (vals.set j v')[i]? = vals[i]? := by
        intro i hi
        simp [List.getElem?_set, Ne.symm hi]
      refine ⟨by simpa using hlen, ?_, ?_, ?_⟩
      · intro i hi
        rw [hlow i (by omega), hother i (by omega)]
      · intro i hi
        rw [hhigh i (by omega), hother i (by omega)]
      · intro i h1 h2
        by_cases hij : i = j
        · subst hij
          refine ⟨a, v, v', ha, hv, hc, ?_⟩
          rw [hlow i (by omega)]
          simp [List.getElem?_set, hlt]
        · obtain ⟨a', w, w', ha', hw, hc', hw'⟩ := hrest i (by omega) (by omega)
          rw [hother i hij] at hw
          exact ⟨a', w, w', ha', hw, hc', hw'⟩

theorem forEach_itemBody_exists (wrap : List Value → Value)
    (conv : TypeDescriptor → Value → Node → Outcome) (itemType : TypeDescriptor)
    (aNodeArr : List Node) :
    ∀ (n j : Nat) (vals : List Value),
    (∀ i, j ≤ i → i < j + n →
      ∃ a v v', aNodeArr[i]? = some a ∧ vals[i]? = some v ∧ conv itemType v a = .ok v') →
    ∃ vals', forEach (itemBody wrap conv itemType aNodeArr) (List.range' j n) vals
      = .ok vals' := by
  intro n
  induction n with
  | zero =>
    intro j vals _
    exact ⟨vals, rfl⟩
  | succ n ih =>
    intro j vals h
    simp only [List.range'_succ, forEach]
    obtain ⟨a, v, v', ha, hv, hc⟩ := h j (by omega) (by omega)
    have hb : itemBody wrap conv itemType aNodeArr j vals = .ok (vals.set j v') := by
      simp only [itemBody, ha, hv, hc, storeItem]
    simp only [hb]
    apply ih (j + 1)
    intro i h1 h2
    obtain ⟨a', w, w', ha', hw, hc'⟩ := h i (by omega) (by omega)
    refine ⟨a', w, w', ha', ?_, hc'⟩
    rw [← hw]
    exact List.getElem?_set_ne (by omega)

theorem indexRange_zero (n : Nat) : indexRange 0 n = List.range' 0 n := by
  simp [indexRange]

theorem getElem?_foldl_set (a : Value) :
    ∀ (cnt lo : Nat) (xs : List Value) (i : Nat),
    ((List.range' lo cnt).foldl (fun xs i => xs.set i a) xs)[i]? =
      if lo ≤ i ∧ i < lo + cnt ∧ i < xs.length then some a else xs[i]? := by
  intro cnt
  induction cnt with
  | zero =>
    intro lo xs i
    rw [if_neg (by omega)]
    rfl
  | succ cnt ih =>
    intro lo xs i
    simp only [List.range'_succ, List.foldl_cons]
    rw [ih (lo + 1) (xs.set lo a) i, List.length_set]
    by_cases h1 : lo = i
    · subst h1
      rw [if_neg (by omega)]
      by_cases h2 : lo < xs.length
      · rw [if_pos (by omega), List.getElem?_set_self h2]
      · rw [if_neg (by omega), List.getElem?_eq_none (by simp; omega),
          List.getElem?_eq_none (by omega)]
    · rw [List.getElem?_set_ne h1]
      by_cases h2 : lo + 1 ≤ i ∧ i < lo + 1 + cnt ∧ i < xs.length
      · rw [if_pos h2, if_pos (by omega)]
      · rw [if_neg h2, if_neg (by omega)]

theorem length_foldl_set (a : Value) :
    ∀ (l : List Nat) (xs : List Value),
    (l.foldl (fun xs i => xs.set i a) xs).length = xs.length := by
  intro l
  induction l with
  | nil => intro xs; rfl
  | cons i l ih => intro xs; simp only [List.foldl_cons]; rw [ih]; simp

theorem getElem?_destructItems (vals : List Value) (newArrSize i : Nat) :
    (destructItems vals newArrSize vals.length)[i]? =
      if newArrSize ≤ i ∧ i < vals.length then some .raw else vals[i]? := by
  unfold destructItems indexRange
  rw [getElem?_foldl_set]
  by_cases h : newArrSize ≤ i ∧ i < vals.length
  · have : newArrSize ≤ i ∧ i < newArrSize + (vals.length - newArrSize) ∧ i < vals.length := by
      omega
    simp [h, this]
  · have : ¬ (newArrSize ≤ i ∧ i < newArrSize + (vals.length - newArrSize) ∧ i < vals.length) := by
      omega
    simp [h, this]

theorem length_destructItems (vals : List Value) (newArrSize oldArrSize : Nat) :
    (destructItems vals newArrSize oldArrSize).length = vals.length := by
  unfold destructItems
  exact length_foldl_set _ _ _

theorem realloc_eq_some {vals vals1 : List Value} {n : Nat} (h : realloc vals n = some vals1) :
    vals1 = vals.take n ++ List.replicate (n - vals.length) .raw := by
  unfold realloc at h
  split at h
  · exact (Option.some.inj h).symm
  · cases h

theorem realloc_destructItems (vals : List Value) (n : Nat) :
    realloc (destructItems vals n vals.length) n
      = some (vals.take n ++ List.replicate (n - vals.length) .raw) := by
  have hall : ((destructItems vals n vals.length).drop n).all Value.isRaw = true := by
    rw [List.all_eq_true]
    intro x hx
    obtain ⟨j, hj, hget⟩ := List.getElem_of_mem hx
    have hsome : ((destructItems vals n vals.length).drop n)[j]? = some x := by
      rw [List.getElem?_eq_getElem hj, hget]
    rw [List.getElem?_drop, getElem?_destructItems] at hsome
    have hlt : n + j < vals.length := by
      simp only [List.length_drop, length_destructItems] at hj
      omega
    rw [if_pos ⟨by omega, hlt⟩] at hsome
    cases hsome
    rfl
  have htake : (destructItems vals n vals.length).take n = vals.take n := by
    apply List.ext_getElem?
    intro i
    rw [List.getElem?_take, List.getElem?_take, getElem?_destructItems]
    by_cases hi : i < n
    · rw [if_pos hi, if_pos hi, if_neg (by omega)]
    · rw [if_neg hi, if_neg hi]
  unfold realloc
  rw [if_pos hall, htake, length_destructItems]

theorem getElem?_constructItems (c : TypeDescriptor → Value) (itemType : TypeDescriptor)
    (xs : List Value) (oldArrSize newArrSize i : Nat) :
    (constructItems c itemType xs oldArrSize newArrSize)[i]? =
      if oldArrSize ≤ i ∧ i < newArrSize ∧ i < xs.length then some (c itemType) else xs[i]? := by
  unfold constructItems indexRange
  rw [getElem?_foldl_set]
  by_cases h : oldArrSize ≤ i ∧ i < newArrSize ∧ i < xs.length
  · have : oldArrSize ≤ i ∧ i < oldArrSize + (newArrSize - oldArrSize) ∧ i < xs.length := by
      omega
    simp [h, this]
  · have : ¬ (oldArrSize ≤ i ∧ i < oldArrSize + (newArrSize - oldArrSize) ∧ i < xs.length) := by
      omega
    simp [h, this]

theorem constructItems_realloc (c : TypeDescriptor → Value) (itemType : TypeDescriptor)
    (vals : List Value) (n : Nat) :
    constructItems c itemType (vals.take n ++ List.replicate (n - vals.length) .raw)
        vals.length n
      = vals.take n ++ List.replicate (n - vals.length) (c itemType) := by
  apply List.ext_getElem?
  intro i
  rw [getElem?_constructItems]
  have hlen : (vals.take n ++ List.replicate (n - vals.length) Value.raw).length = n := by
    simp only [List.length_append, List.length_take, List.length_replicate]
    omega
  rw [hlen]
  by_cases h1 : i < vals.length
  · rw [if_neg (by omega)]
    by_cases h2 : i < n
    · rw [List.getElem?_append_left (by simp; omega),
        List.getElem?_append_left (by simp; omega)]
    · rw [List.getElem?_eq_none (by omega), List.getElem?_eq_none (by simp; omega)]
  · by_cases h2 : i < n
    · rw [if_pos (by omega), List.getElem?_append_right (by simp; omega),
        List.getElem?_replicate]
      simp
      omega
    · rw [if_neg (by omega), List.getElem?_eq_none (by omega),
        List.getElem?_eq_none (by simp; omega)]

theorem convertFrom_array (c f n itemType) (ptr : Value) (aNode : Node) :
    convertFrom c f (.array n itemType) ptr aNode =
    if !aNode.isArray then .fail .ShapeMismatch ptr
    else
      match ptr.arrayItems with
      | none => .undefined
      | some vals =>
        finishLoop .array
          (forEach (itemBody .array (convertFrom c f) itemType aNode.arrayItems)
            (indexRange 0 aNode.arrayItems.length)
            (vals.take aNode.arrayItems.length
              ++ List.replicate (aNode.arrayItems.length - vals.length) (c itemType))) := by
  rw [convertFrom_array_raw]
  cases hobj : aNode.isArray
  · rfl
  · cases hm : ptr.arrayItems with
    | none => rfl
    | some vals =>
      simp only [realloc_destructItems, constructItems_realloc]

/-! ## Scalar branches -/

theorem convertFrom_float (c f n) (ptr : Value) (aNode : Node) :
    convertFrom c f (.plain .float n) ptr aNode =
    if !aNode.isNumeric then .fail .ShapeMismatch ptr else .ok (.float aNode.numericFloat) := by
  rw [convertFrom]

theorem convertFrom_u8 (c f n) (ptr : Value) (aNode : Node) :
    convertFrom c f (.plain .u8 n) ptr aNode =
    if !aNode.isNumeric then .fail .ShapeMismatch ptr else .ok (.u8 (aNode.numericU 8)) := by
  rw [convertFrom]

theorem convertFrom_u16 (c f n) (ptr : Value) (aNode : Node) :
    convertFrom c f (.plain .u16 n) ptr aNode =
    if !aNode.isNumeric then .fail .ShapeMismatch ptr else .ok (.u16 (aNode.numericU 16)) := by
  rw [convertFrom]

theorem convertFrom_bool (c f n) (ptr : Value) (aNode : Node) :
    convertFrom c f (.plain .bool n) ptr aNode = .ok (.bool (aNode.textOf == "true")) := by
  rw [convertFrom]

theorem convertFrom_u32 (c f n) (ptr : Value) (aNode : Node) :
    convertFrom c f (.plain .u32 n) ptr aNode =
    if !aNode.isNumeric then .fail .ShapeMismatch ptr else .ok (.u32 (aNode.numericU 32)) := by
  rw [convertFrom]

theorem convertFrom_s32 (c f n) (ptr : Value) (aNode : Node) :
    convertFrom c f (.plain .s32 n) ptr aNode =
    if !aNode.isNumeric then .fail .ShapeMismatch ptr else .ok (.s32 aNode.numericS32) := by
  rw [convertFrom]

theorem convertFrom_string (c f n) (ptr : Value) (aNode : Node) :
    convertFrom c f (.plain .string n) ptr aNode =
    if aNode.isText then .ok (.string aNode.textOf) else .ok ptr := by
  rw [convertFrom]

theorem convertFrom_other (c f name n) (ptr : Value) (aNode : Node) :
    convertFrom c f (.plain (.other name) n) ptr aNode = .fail .UnsupportedTargetType ptr := by
  rw [convertFrom]

/-! ## Resize, state search and layout lemmas -/

theorem length_constructItems (c : TypeDescriptor → Value) (itemType : TypeDescriptor)
    (xs : List Value) (oldArrSize newArrSize : Nat) :
    (constructItems c itemType xs oldArrSize newArrSize).length = xs.length := by
  unfold constructItems
  exact length_foldl_set _ _ _

theorem findStateFrom_first (stateName : String) :
    ∀ (states : List State) (j i : Nat) (state : State),
    states[i]? = some state → state.name = stateName →
    (∀ (k : Nat) (s : State), k < i → states[k]? = some s → s.name ≠ stateName) →
    findStateFrom stateName j states = some (j + i, state) := by
  intro states
  induction states with
  | nil => intro j i state hi; simp at hi
  | cons s rest ih =>
    intro j i state hi hname hfirst
    cases i with
    | zero =>
      simp only [List.getElem?_cons_zero, Option.some.injEq] at hi
      subst hi
      simp [findStateFrom, hname]
    | succ i =>
      have hs : s.name ≠ stateName := hfirst 0 s (by omega) (by simp)
      simp only [findStateFrom, beq_iff_eq, hs, ↓reduceIte]
      rw [ih (j + 1) i state (by simpa using hi) hname
        (fun k s' hk hs' => hfirst (k + 1) s' (by omega) (by simpa using hs'))]
      congr 2
      omega

theorem findState_manyStates (n : Nat) :
    findState (manyStates n) "B" = some (n, State.mk "B" exampleEmptyStruct) := by
  have h := findStateFrom_first "B" (manyStates n) 0 n (State.mk "B" exampleEmptyStruct)
    (by
      unfold manyStates
      rw [List.getElem?_append_right (by simp)]
      simp)
    rfl
    (by
      intro k s hk hs
      unfold manyStates at hs
      rw [List.getElem?_append_left (by simpa using hk),
        List.getElem?_replicate_of_lt hk] at hs
      cases hs
      decide)
  simpa [findState] using h

theorem convertFrom_manyStates (n : Nat) (hn : n % 65536 = 0) :
    convertFrom defaultConstruct none (.switch 8 2 (manyStates n)) (.switch 0 (.struct []))
      (.object [("B", .object [])]) = .ok (.switch 0 (.struct [])) := by
  rw [convertFrom_switch]
  simp only [Node.isObject, Node.objectItems, List.length_singleton, bne_self_eq_false,
    Bool.not_true, Bool.false_eq_true, ↓reduceIte, List.head?_cons, hn, findState_manyStates,
    ensureStateIs, Value.switchState, State.structType, exampleEmptyStruct]
  rw [convertFrom_struct]
  rfl

theorem offsetsFrom_append (name : String) (t : TypeDescriptor) :
    ∀ (ms : List Member) (start : Nat), offsetsFrom start ms →
    offsetsFrom start (ms ++ [Member.mk name (start + sizeSum ms) t]) := by
  intro ms
  induction ms with
  | nil => intro start _; simp [offsetsFrom, sizeSum, Member.offset]
  | cons m ms ih =>
    intro start h
    obtain ⟨h1, h2⟩ := h
    refine ⟨h1, ?_⟩
    have := ih (start + m.type.fixedSize) h2
    simpa [sizeSum, Nat.add_assoc] using this

theorem sizeSum_append (ms : List Member) (m : Member) :
    sizeSum (ms ++ [m]) = sizeSum ms + m.type.fixedSize := by
  induction ms with
  | nil => simp [sizeSum]
  | cons a ms ih => simp [sizeSum, ih, Nat.add_assoc]

theorem wellLaidOut_appendMember_raw (s : TypeDescriptor_Struct) (name : String)
    (t : TypeDescriptor) (h : WellLaidOut s) : WellLaidOut (s.appendMember name t) := by
  obtain ⟨h1, h2⟩ := h
  constructor
  · have := offsetsFrom_append name t s.members 0 h1
    simpa [TypeDescriptor_Struct.appendMember, h2] using this
  · simp [TypeDescriptor_Struct.appendMember, sizeSum_append, h2, Member.type]

theorem wellLaidOut_appendMember {s s' : TypeDescriptor_Struct} {name : String}
    {t : TypeDescriptor} (h : WellLaidOut s) (hs : appendMember s name t = .ok s') :
    WellLaidOut s' := by
  unfold appendMember at hs
  simp only at hs
  split at hs
  · split at hs
    · injection hs with hs
      subst hs
      exact wellLaidOut_appendMember_raw _ _ _ (wellLaidOut_appendMember_raw _ _ _ h)
    · cases hs
  · injection hs with hs
    subst hs
    exact wellLaidOut_appendMember_raw _ _ _ h

theorem wellLaidOut_appendConverted {s : TypeDescriptor_Struct} {name : String}
    {o : TypeOutcome} {st' : SynthState} (h : WellLaidOut s)
    (hs : appendConverted s name o = .ok st') : WellLaidOut st'.1 := by
  cases o with
  | ok t owner =>
    simp only [appendConverted] at hs
    cases ha : appendMember s name t with
    | ok s' =>
      simp only [ha] at hs
      injection hs with hs
      subst hs
      exact wellLaidOut_appendMember h ha
    | error e => simp [ha] at hs
  | fail e owner => simp [appendConverted] at hs

theorem forEach_invariant {ι σ ε : Type} (body : ι → σ → Except ε σ) (P : σ → Prop)
    (hbody : ∀ i s s', P s → body i s = .ok s' → P s') :
    ∀ (l : List ι) (s s' : σ), P s → forEach body l s = .ok s' → P s' := by
  intro l
  induction l with
  | nil =>
    intro s s' hP h
    simp only [forEach, Except.ok.injEq] at h
    exact h ▸ hP
  | cons a l ih =>
    intro s s' hP h
    simp only [forEach] at h
    cases hb : body a s with
    | ok s1 =>
      simp only [hb] at h
      exact ih s1 s' (hbody a s s1 hP hb) h
    | error e => simp [hb] at h

theorem offsetsFrom_getElem :
    ∀ (ms : List Member) (start : Nat), offsetsFrom start ms →
    (∀ m : Member, ms[0]? = some m → m.offset = start) ∧
    ∀ (k : Nat) (m m' : Member), ms[k]? = some m → ms[k + 1]? = some m' →
      m'.offset = m.offset + m.type.fixedSize := by
  intro ms
  induction ms with
  | nil => intro start _; simp
  | cons a ms ih =>
    intro start h
    obtain ⟨h1, h2⟩ := h
    obtain ⟨ih1, ih2⟩ := ih _ h2
    constructor
    · intro m hm
      simp only [List.getElem?_cons_zero, Option.some.injEq] at hm
      subst hm
      exact h1
    · intro k m m' hm hm'
      cases k with
      | zero =>
        simp only [List.getElem?_cons_zero, Option.some.injEq] at hm
        subst hm
        simp only [Nat.zero_add, List.getElem?_cons_succ] at hm'
        rw [ih1 m' hm', h1]
      | succ k =>
        simp only [List.getElem?_cons_succ] at hm hm'
        exact ih2 k m m' hm hm'

theorem synthesizeStruct_wellLaidOut (conv : Option TypeDescriptorOwner → Node → TypeOutcome)
    (typeOwner typeOwner' : Option TypeDescriptorOwner) (aNode : Node) (t : TypeDescriptor)
    (h : synthesizeStruct conv typeOwner aNode = .ok t typeOwner') :
    ∃ s : TypeDescriptor_Struct, t = s.toType ∧ WellLaidOut s := by
  have hinit : WellLaidOut ⟨0, Node.textOfRef (aNode.get "name"), []⟩ := ⟨trivial, rfl⟩
  have hfinish : ∀ r : Except TypeStop SynthState,
      (∀ st, r = .ok st → WellLaidOut st.1) → finishStruct r = .ok t typeOwner' →
      ∃ s : TypeDescriptor_Struct, t = s.toType ∧ WellLaidOut s := by
    intro r hr hf
    cases r with
    | ok st =>
      obtain ⟨s, o⟩ := st
      simp only [finishStruct, TypeOutcome.ok.injEq] at hf
      exact ⟨s, hf.1.symm, hr (s, o) rfl⟩
    | error o =>
      cases o
      simp [finishStruct] at hf
  unfold synthesizeStruct at h
  split at h
  · cases h
  · split at h
    · cases h
    · split at h
      · cases h
      · split at h
        · apply hfinish _ _ h
          intro st hst
          exact forEach_invariant (objectMemberBody conv) (fun st => WellLaidOut st.1)
            (fun i s s' hP hb => wellLaidOut_appendConverted hP hb) _ _ _ hinit hst
        · split at h
          · apply hfinish _ _ h
            intro st hst
            refine forEach_invariant (arrayMemberBody conv) (fun st => WellLaidOut st.1)
              ?_ _ _ _ hinit hst
            intro i s s' hP hb
            unfold arrayMemberBody at hb
            split at hb
            · cases hb
            · split at hb
              · cases hb
              · split at hb
                · cases hb
                · exact wellLaidOut_appendConverted hP hb
          · cases h


/-! ## Evaluated examples -/

theorem exampleEmptyMemberDecl_synthesis :
    convertType none (some ⟨[], none⟩) exampleEmptyMemberDecl =
      .ok (.struct 4 "S" [Member.mk "e" 0 (.struct 0 "E" []), Member.mk "x" 0 typeFloat])
        (some ⟨[.struct 0 "E" [],
          .struct 4 "S" [Member.mk "e" 0 (.struct 0 "E" []), Member.mk "x" 0 typeFloat]],
          none⟩) := by
  simp [exampleEmptyMemberDecl, convertType_object, convertType_text, synthesizeStruct,
    objectMemberBody, forEach, finishStruct, appendConverted, appendMember,
    TypeDescriptor_Struct.appendMember, TypeDescriptor_Struct.toType,
    TypeDescriptorOwner.adoptType, Node.get, Node.textOfRef, Node.textOf, Node.isTextRef,
    Node.isText, Node.isObject, Node.objectItems, TypeDescriptor.fixedSize, typeFloat]

theorem examplePaddedDecl_synthesis :
    convertType none (some ⟨[], none⟩) examplePaddedDecl =
      .ok (.struct 8 "P" [Member.mk "a" 0 typeU16, Member.mk "padding" 2 typeU16,
          Member.mk "b" 4 typeFloat])
        (some ⟨[.struct 8 "P" [Member.mk "a" 0 typeU16, Member.mk "padding" 2 typeU16,
          Member.mk "b" 4 typeFloat]], none⟩) := by
  simp [examplePaddedDecl, convertType_object, convertType_text, synthesizeStruct,
    objectMemberBody, forEach, finishStruct, appendConverted, appendMember,
    TypeDescriptor_Struct.appendMember, TypeDescriptor_Struct.toType,
    TypeDescriptorOwner.adoptType, Node.get, Node.textOfRef, Node.textOf, Node.isTextRef,
    Node.isText, Node.isObject, Node.objectItems, TypeDescriptor.fixedSize, typeFloat, typeU16]

theorem exampleMisalignedDecl_synthesis :
    convertType exampleResolver (some ⟨[], none⟩) exampleMisalignedDecl =
      .fail .AlignmentViolation (some ⟨[], none⟩) := by
  simp [exampleMisalignedDecl, exampleResolver, convertType_object, convertType_text,
    synthesizeStruct, objectMemberBody, forEach, finishStruct, appendConverted, appendMember,
    TypeDescriptor_Struct.appendMember, resolve,
    Node.get, Node.textOfRef, Node.textOf, Node.isTextRef,
    Node.isText, Node.isObject, Node.objectItems, TypeDescriptor.fixedSize, typeU16]

theorem exampleMembers_partial_update :
    convertFrom defaultConstruct none (.struct 4 "S" exampleMembers)
      (.struct [.u16 1, .u16 2]) (.object [("y", .number 7)])
      = .ok (.struct [.u16 1, .u16 7]) := by
  simp [exampleMembers, convertFrom_struct, convertFrom_u16, structBody, forEach, Node.get,
    List.enum, Member.name, Member.type, Node.isObject, Node.isNumeric, Value.structMembers,
    typeU16, storeItem, finishLoop]
  rfl

theorem roundHalfEven_intCast (n : Int) : Node.roundHalfEven (n : ℚ) = n := by
  unfold Node.roundHalfEven
  simp

/-- Every number with a significand of fewer than 24 binary digits is its own nearest
32-bit float. -/
theorem float32_exact (m e : Int) (hm : |m| < 2 ^ 24) :
    Node.float32 ((m : ℚ) * (2 : ℚ) ^ e) = (m : ℚ) * (2 : ℚ) ^ e := by
  have h2pos : ∀ k : Int, (0 : ℚ) < (2 : ℚ) ^ k := fun k => zpow_pos (by norm_num) k
  by_cases hm0 : m = 0
  · subst hm0
    unfold Node.float32
    simp [Node.roundHalfEven]
  have habs : |(m : ℚ) * (2 : ℚ) ^ e| = ((|m| : Int) : ℚ) * (2 : ℚ) ^ e := by
    rw [abs_mul, abs_of_pos (h2pos e), Int.cast_abs]
  have hapos : (0 : ℚ) < ((|m| : Int) : ℚ) * (2 : ℚ) ^ e := by
    apply mul_pos _ (h2pos e)
    exact_mod_cast abs_pos.2 hm0
  have hlt : ((|m| : Int) : ℚ) * (2 : ℚ) ^ e < ((2 : ℕ) : ℚ) ^ (24 + e) := by
    rw [Nat.cast_ofNat, zpow_add₀ (by norm_num : (2 : ℚ) ≠ 0)]
    apply mul_lt_mul_of_pos_right _ (h2pos e)
    calc ((|m| : Int) : ℚ) < ((2 ^ 24 : Int) : ℚ) := by exact_mod_cast hm
      _ = (2 : ℚ) ^ (24 : Int) := by norm_num
  have hlog : Int.log 2 (((|m| : Int) : ℚ) * (2 : ℚ) ^ e) < 24 + e :=
    (Int.lt_zpow_iff_log_lt (by norm_num) hapos).1 hlt
  obtain ⟨d, hd⟩ : ∃ d : ℕ, e = Int.log 2 (((|m| : Int) : ℚ) * (2 : ℚ) ^ e) - 23 + d :=
    ⟨(e - (Int.log 2 (((|m| : Int) : ℚ) * (2 : ℚ) ^ e) - 23)).toNat, by
      rw [Int.toNat_of_nonneg (by omega)]
      ring⟩
  have hquot : ((|m| : Int) : ℚ) * (2 : ℚ) ^ e /
      (2 : ℚ) ^ (Int.log 2 (((|m| : Int) : ℚ) * (2 : ℚ) ^ e) - 23)
      = ((|m| * 2 ^ d : Int) : ℚ) := by
    rw [div_eq_iff (ne_of_gt (h2pos _))]
    nth_rewrite 1 [hd]
    rw [zpow_add₀ (by norm_num : (2 : ℚ) ≠ 0)]
    push_cast
    rw [zpow_natCast]
    ring
  have hback : ((|m| * 2 ^ d : Int) : ℚ) *
      (2 : ℚ) ^ (Int.log 2 (((|m| : Int) : ℚ) * (2 : ℚ) ^ e) - 23)
      = ((|m| : Int) : ℚ) * (2 : ℚ) ^ e := by
    rw [← hquot, div_mul_cancel₀ _ (ne_of_gt (h2pos _))]
  unfold Node.float32
  simp only [habs, hquot, roundHalfEven_intCast, hback]
  split
  · rename_i hneg
    have hmneg : m < 0 := by
      by_contra hcon
      have : (0 : ℚ) ≤ (m : ℚ) * (2 : ℚ) ^ e :=
        mul_nonneg (by exact_mod_cast (not_lt.1 hcon)) (le_of_lt (h2pos e))
      exact absurd hneg (not_lt.2 this)
    rw [abs_of_neg hmneg]
    push_cast
    ring
  · rename_i hnonneg
    have hmpos : 0 ≤ m := by
      by_contra hcon
      have : (m : ℚ) * (2 : ℚ) ^ e < 0 :=
        mul_neg_of_neg_of_pos (by exact_mod_cast (not_le.1 hcon)) (h2pos e)
      exact hnonneg this
    rw [abs_of_nonneg hmpos]

theorem float32_examplePt : Node.float32 1.5 = 1.5 ∧ Node.float32 2.5 = 2.5 := by
  have h1 := float32_exact 3 (-1) (by norm_num)
  have h2 := float32_exact 5 (-1) (by norm_num)
  norm_num at h1 h2 ⊢
  exact ⟨h1, h2⟩

theorem enumIndexedBody_ok {conv : TypeDescriptor → Value → Node → Outcome} {aNode : Node}
    {itemType : TypeDescriptor} {identifier : Identifier} {vals vals' : List Value}
    (h : enumIndexedBody conv aNode itemType identifier vals = .ok vals') :
    (aNode.get identifier.name = none ∧ vals' = vals) ∨
    ∃ a v v', aNode.get identifier.name = some a ∧ vals[identifier.value]? = some v ∧
      conv itemType v a = .ok v' ∧ vals' = vals.set identifier.value v' := by
  unfold enumIndexedBody at h
  cases hg : aNode.get identifier.name with
  | none =>
    simp only [hg] at h
    left
    exact ⟨rfl, by injection h with h; exact h.symm⟩
  | some a =>
    simp only [hg] at h
    right
    cases hv : vals[identifier.value]? with
    | none => simp [hv] at h
    | some v =>
      simp only [hv] at h
      obtain ⟨v', ho, hset⟩ := storeItem_ok h
      exact ⟨a, v, v', rfl, rfl, ho, hset⟩

/-- Frame of the identifier loop: the length is kept, and a slot that is the value of
no identifier with an entry is left as it was. -/
theorem forEach_enumIndexedBody_frame (conv : TypeDescriptor → Value → Node → Outcome)
    (aNode : Node) (itemType : TypeDescriptor) :
    ∀ (identifiers : List Identifier) (vals vals' : List Value),
    forEach (enumIndexedBody conv aNode itemType) identifiers vals = .ok vals' →
    vals'.length = vals.length ∧
    ∀ i : Nat, (∀ identifier ∈ identifiers, aNode.get identifier.name ≠ none →
        identifier.value ≠ i) → vals'[i]? = vals[i]? := by
  intro identifiers
  induction identifiers with
  | nil =>
    intro vals vals' h
    simp only [forEach, Except.ok.injEq] at h
    subst h
    exact ⟨rfl, fun _ _ => rfl⟩
  | cons a l ih =>
    intro vals vals' h
    simp only [forEach] at h
    cases hb : enumIndexedBody conv aNode itemType a vals with
    | error e => simp [hb] at h
    | ok vals1 =>
      simp only [hb] at h
      obtain ⟨hlen, hframe⟩ := ih vals1 vals' h
      rcases enumIndexedBody_ok hb with ⟨_, rfl⟩ | ⟨e, v, v', hg, _, _, rfl⟩
      · exact ⟨hlen, fun i hi => hframe i (fun id hid => hi id (List.mem_cons_of_mem _ hid))⟩
      · refine ⟨by simpa using hlen, ?_⟩
        intro i hi
        rw [hframe i (fun id hid => hi id (List.mem_cons_of_mem _ hid))]
        have hne : a.value ≠ i := hi a (List.mem_cons_self _ _) (by simp [hg])
        exact List.getElem?_set_ne hne

theorem forEach_enumIndexedBody_step (conv : TypeDescriptor → Value → Node → Outcome)
    (aNode : Node) (itemType : TypeDescriptor) (identifiers : List Identifier)
    (vals vals' : List Value)
    (h : forEach (enumIndexedBody conv aNode itemType) identifiers vals = .ok vals')
    (k : Nat) (identifier : Identifier) (aMember : Node)
    (hk : identifiers[k]? = some identifier) (hg : aNode.get identifier.name = some aMember) :
    ∃ before prior converted,
      forEach (enumIndexedBody conv aNode itemType) (identifiers.take k) vals = .ok before ∧
      before[identifier.value]? = some prior ∧
      conv itemType prior aMember = .ok converted ∧
      forEach (enumIndexedBody conv aNode itemType) (identifiers.take (k + 1)) vals
        = .ok (before.set identifier.value converted) ∧
      forEach (enumIndexedBody conv aNode itemType) (identifiers.drop (k + 1))
        (before.set identifier.value converted) = .ok vals' := by
  have hklt : k < identifiers.length := by
    by_contra hcon
    rw [List.getElem?_eq_none (by omega)] at hk
    cases hk
  have hsplit : identifiers = identifiers.take k ++ identifier :: identifiers.drop (k + 1) := by
    have hget : identifiers[k] = identifier := by
      rw [List.getElem?_eq_getElem hklt] at hk
      exact Option.some.inj hk
    rw [← hget, ← List.drop_eq_getElem_cons hklt, List.take_append_drop]
  have htake : identifiers.take (k + 1) = identifiers.take k ++ [identifier] := by
    rw [List.take_succ, hk]
    rfl
  rw [hsplit, forEach_append] at h
  cases hb : forEach (enumIndexedBody conv aNode itemType) (identifiers.take k) vals with
  | error e => simp [hb] at h
  | ok before =>
    simp only [hb, forEach] at h
    cases hs : enumIndexedBody conv aNode itemType identifier before with
    | error e => simp [hs] at h
    | ok mid =>
      simp only [hs] at h
      rcases enumIndexedBody_ok hs with ⟨hnone, _⟩ | ⟨a, v, v', hsome, hv, hc, hset⟩
      · rw [hnone] at hg
        cases hg
      · rw [hg] at hsome
        cases hsome
        subst hset
        refine ⟨before, v, v', rfl, hv, hc, ?_, h⟩
        rw [htake, forEach_append, hb]
        simp only [forEach, hs]

theorem enumIndexedBody_congr (conv : TypeDescriptor → Value → Node → Outcome)
    (aNode aNode' : Node) (itemType : TypeDescriptor) (identifier : Identifier)
    (vals : List Value) (h : aNode.get identifier.name = aNode'.get identifier.name) :
    enumIndexedBody conv aNode itemType identifier vals
      = enumIndexedBody conv aNode' itemType identifier vals := by
  unfold enumIndexedBody
  rw [h]

theorem forEach_error_of_mem {ι σ ε : Type} (body : ι → σ → Except ε σ) (x : ι)
    (hx : ∀ s, ∃ e, body x s = .error e) :
    ∀ (l : List ι), x ∈ l → ∀ s, ∃ e, forEach body l s = .error e := by
  intro l
  induction l with
  | nil => intro h; simp at h
  | cons a l ih =>
    intro hmem s
    simp only [forEach]
    cases hb : body a s with
    | error e => exact ⟨e, rfl⟩
    | ok s' =>
      simp only []
      rcases List.mem_cons.1 hmem with h | h
      · subst h
        obtain ⟨e, he⟩ := hx s
        rw [he] at hb
        cases hb
      · exact ih h s'

theorem arrayMemberBody_pair (conv : Option TypeDescriptorOwner → Node → TypeOutcome)
    (entry : String × Node) (st : SynthState) :
    arrayMemberBody conv (Node.array [.text entry.1, entry.2]) st
      = objectMemberBody conv entry st := by
  simp [arrayMemberBody, objectMemberBody, Node.isArray, Node.arrayItems, Node.item,
    Node.textOfRef, Node.textOf]

theorem forEach_memberPairs (conv : Option TypeDescriptorOwner → Node → TypeOutcome)
    (entries : List (String × Node)) (st : SynthState) :
    forEach (arrayMemberBody conv) (memberPairs entries) st
      = forEach (objectMemberBody conv) entries st := by
  unfold memberPairs
  rw [forEach_map]
  apply forEach_congr
  intro entry _ s
  exact arrayMemberBody_pair conv entry s

theorem convertTypeFrom_rootType {aNode : Option Node}
    {typeFromName : Option (String → Option TypeDescriptor)} {typeOwner : TypeDescriptorOwner}
    (h : convertTypeFrom aNode typeFromName = .ok typeOwner) :
    ∃ rootType, typeOwner.rootType = some rootType := by
  unfold convertTypeFrom at h
  cases aNode with
  | none => simp at h
  | some aNode =>
    simp only at h
    cases hc : convertType typeFromName (some ⟨[], none⟩) aNode with
    | ok type owner =>
      simp only [hc, Except.ok.injEq] at h
      subst h
      exact ⟨type, rfl⟩
    | fail e owner => simp [hc] at h

/-! ## Further evaluated examples -/

theorem examplePtDecl_convertType :
    convertType none (some ⟨[], none⟩) examplePtDecl
      = .ok examplePtType (some ⟨[examplePtType], none⟩) := by
  simp [examplePtDecl, examplePtType, convertType_object, convertType_text, synthesizeStruct,
    objectMemberBody, forEach, finishStruct, appendConverted, appendMember,
    TypeDescriptor_Struct.appendMember, TypeDescriptor_Struct.toType,
    TypeDescriptorOwner.adoptType, Node.get, Node.textOfRef, Node.textOf, Node.isTextRef,
    Node.isText, Node.isObject, Node.objectItems, TypeDescriptor.fixedSize, typeFloat]

theorem convertTypeFrom_some (aNode : Node) (f : Option (String → Option TypeDescriptor)) :
    convertTypeFrom (some aNode) f =
      match convertType f (some ⟨[], none⟩) aNode with
      | .ok type typeOwner => .ok ((typeOwner.getD ⟨[], none⟩).setRootType type)
      | .fail e _ => .error e := rfl

theorem examplePtDecl_synthesis :
    convertTypeFrom (some examplePtDecl) none = .ok ⟨[examplePtType], some examplePtType⟩ := by
  rw [convertTypeFrom_some, examplePtDecl_convertType]
  simp [TypeDescriptorOwner.setRootType]

theorem examplePt_import :
    import_ defaultConstruct none examplePtType (.object [("x", .number 1.5), ("y", .number 2.5)])
      = .ok (.struct [.float 1.5, .float 2.5]) := by
  simp [import_, examplePtType, convertFrom_struct, convertFrom_float, structBody, forEach,
    Node.get, List.enum, Member.name, Member.type, Node.isObject, Node.isNumeric,
    Value.structMembers, typeFloat, storeItem, finishLoop, defaultConstruct, defaultMembers,
    Node.numericFloat, Node.numberOf, float32_examplePt.1, float32_examplePt.2]

theorem exampleU16_synthesis :
    convertTypeFrom (some (.text "u16")) none = .ok ⟨[], some typeU16⟩ := by
  simp [convertTypeFrom, convertType_text, TypeDescriptorOwner.setRootType]

theorem exampleTypedArray_import :
    convertFrom defaultConstruct none (.plain .typedArray 16) (.typedArray none [])
        exampleTypedArrayDocument
      = .ok (.typedArray (some ⟨[], some typeU16⟩) [.u16 1, .u16 2, .u16 3]) := by
  rw [convertFrom_typedArray]
  simp [exampleTypedArrayDocument, exampleU16_synthesis, convertFrom_u16, itemBody, forEach,
    indexRange, List.range', Node.get, Node.isObject, Node.isArray, Node.arrayItems,
    Node.arrayItemsRef, Node.isNumeric, typeU16, storeItem, finishLoop, defaultConstruct]
  refine ⟨?_, ?_, ?_⟩ <;> rfl

theorem exampleColors_import :
    convertFrom defaultConstruct none (.enumIndexedArray 6 typeU16 exampleColors)
        (.enumIndexedArray [.u16 7, .u16 8, .u16 9])
        (.object [("Blue", .number 5), ("Purple", .number 1), ("Red", .number 3)])
      = .ok (.enumIndexedArray [.u16 3, .u16 8, .u16 5]) := by
  rw [convertFrom_enumIndexedArray]
  simp [exampleColors, convertFrom_u16, enumIndexedBody, forEach, Node.get, Node.isObject,
    Node.isNumeric, Value.enumIndexedItems, typeU16, storeItem, finishLoop]
  refine ⟨?_, ?_⟩ <;> rfl

theorem exampleBadPairDecl_synthesis :
    convertType none (some ⟨[], none⟩) exampleBadPairDecl
      = .fail .ShapeMismatch (some ⟨[], none⟩) := by
  simp [exampleBadPairDecl, convertType_object, convertType_text, synthesizeStruct,
    arrayMemberBody, forEach, finishStruct, appendConverted, appendMember,
    TypeDescriptor_Struct.appendMember, Node.item, Node.arrayItems, Node.isArray,
    Node.get, Node.textOfRef, Node.textOf, Node.isTextRef,
    Node.isText, Node.isObject, Node.objectItems, TypeDescriptor.fixedSize, typeU16]

/-! ## Layout of a synthesized struct -/

theorem roundUp4_even (n : Nat) (h : n % 2 = 0) :
    roundUp4 n = if n % 4 = 2 then n + 2 else n := by
  unfold roundUp4
  split <;> omega

theorem appendMember_even (s : TypeDescriptor_Struct) (name : String) (t : TypeDescriptor)
    (hs : s.fixedSize % 4 = 0) (ht : t.fixedSize % 2 = 0) :
    appendMember s name t = .ok ⟨s.fixedSize + roundUp4 t.fixedSize, s.name,
      s.members ++ paddedMembers s.fixedSize [(name, t)]⟩ := by
  unfold appendMember
  simp only [TypeDescriptor_Struct.appendMember, paddedMembers, roundUp4_even _ ht]
  have hu : typeU16.fixedSize = 2 := rfl
  by_cases h2 : t.fixedSize % 4 = 2
  · have h1 : (s.fixedSize + t.fixedSize) % 4 = 2 := by omega
    simp [h1, h2, hu, Nat.add_assoc]
  · have h1 : (s.fixedSize + t.fixedSize) % 4 = 0 := by omega
    simp [h1, h2]

theorem paddedMembers_cons (offset : Nat) (name : String) (t : TypeDescriptor)
    (rest : List (String × TypeDescriptor)) (ht : t.fixedSize % 2 = 0) :
    paddedMembers offset ((name, t) :: rest)
      = paddedMembers offset [(name, t)] ++ paddedMembers (offset + roundUp4 t.fixedSize) rest := by
  simp only [paddedMembers, roundUp4_even _ ht]
  split <;> simp [Nat.add_assoc]

theorem paddedSize_mod (declared : List (String × TypeDescriptor)) :
    paddedSize declared % 4 = 0 := by
  induction declared with
  | nil => rfl
  | cons d rest ih =>
    have : paddedSize (d :: rest) = roundUp4 d.2.fixedSize + paddedSize rest := by
      simp [paddedSize]
    rw [this]
    unfold roundUp4
    omega

/-- The member loop over an object-form "members": when every member declaration
synthesizes and every synthesized type has an even size, the loop lays the members
out as `paddedMembers` from the current total size on. -/
theorem forEach_objectMemberBody_even (conv : Option TypeDescriptorOwner → Node → TypeOutcome) :
    ∀ (entries : List (String × Node)) (s : TypeDescriptor_Struct)
      (typeOwner typeOwner' : Option TypeDescriptorOwner)
      (declared : List (String × TypeDescriptor)),
    s.fixedSize % 4 = 0 →
    synthesizeMembers conv typeOwner entries = .ok (declared, typeOwner') →
    (∀ d ∈ declared, d.2.fixedSize % 2 = 0) →
    forEach (objectMemberBody conv) entries (s, typeOwner)
      = .ok (⟨s.fixedSize + paddedSize declared, s.name,
          s.members ++ paddedMembers s.fixedSize declared⟩, typeOwner') ∧
    declared.map (fun d => d.1) = entries.map (fun e => e.1) := by
  intro entries
  induction entries with
  | nil =>
    intro s typeOwner typeOwner' declared hs hsyn heven
    simp only [synthesizeMembers, Except.ok.injEq, Prod.mk.injEq] at hsyn
    obtain ⟨rfl, rfl⟩ := hsyn
    simp [forEach, paddedSize, paddedMembers]
  | cons entry rest ih =>
    intro s typeOwner typeOwner' declared hs hsyn heven
    obtain ⟨name, decl⟩ := entry
    simp only [synthesizeMembers] at hsyn
    cases hc : conv typeOwner decl with
    | fail e o => simp [hc] at hsyn
    | ok t o =>
      simp only [hc] at hsyn
      cases hr : synthesizeMembers conv o rest with
      | error e => simp [hr] at hsyn
      | ok p =>
        obtain ⟨declared1, o1⟩ := p
        simp only [hr, Except.ok.injEq, Prod.mk.injEq] at hsyn
        obtain ⟨rfl, rfl⟩ := hsyn
        have ht : t.fixedSize % 2 = 0 := heven (name, t) (List.mem_cons_self _ _)
        have hrest : ∀ d ∈ declared1, d.2.fixedSize % 2 = 0 :=
          fun d hd => heven d (List.mem_cons_of_mem _ hd)
        have hs1 : (s.fixedSize + roundUp4 t.fixedSize) % 4 = 0 := by
          unfold roundUp4
          omega
        obtain ⟨ih1, ih2⟩ := ih ⟨s.fixedSize + roundUp4 t.fixedSize, s.name,
          s.members ++ paddedMembers s.fixedSize [(name, t)]⟩ o o1 declared1 hs1 hr hrest
        constructor
        · simp only [forEach, objectMemberBody, hc, appendConverted,
            appendMember_even s name t hs ht]
          rw [ih1]
          rw [paddedMembers_cons _ name t declared1 ht, List.append_assoc]
          have : paddedSize ((name, t) :: declared1)
              = roundUp4 t.fixedSize + paddedSize declared1 := by
            simp [paddedSize]
          rw [this, Nat.add_assoc]
        · simp [ih2]

/-- One member appended from a total size that is a multiple of 4: when the type, if
synthesized, has an even size, the only failure is the failure of the member's own
synthesis, and the total stays a multiple of 4. -/
theorem appendConverted_even (s : TypeDescriptor_Struct) (name : String) (o : TypeOutcome)
    (hs : s.fixedSize % 4 = 0)
    (ho : ∀ t owner, o = .ok t owner → t.fixedSize % 2 = 0) :
    (∀ e, appendConverted s name o = .error e →
      ∃ err owner, o = .fail err owner ∧ e = .fail err owner) ∧
    (∀ st, appendConverted s name o = .ok st → st.1.fixedSize % 4 = 0) := by
  cases o with
  | fail err owner =>
    constructor
    · intro e h
      simp only [appendConverted, Except.error.injEq] at h
      exact ⟨err, owner, rfl, h.symm⟩
    · intro st h
      simp [appendConverted] at h
  | ok t owner =>
    have ht := ho t owner rfl
    simp only [appendConverted, appendMember_even s name t hs ht]
    constructor
    · intro e h
      cases h
    · intro st h
      simp only [Except.ok.injEq] at h
      subst h
      show (s.fixedSize + roundUp4 t.fixedSize) % 4 = 0
      unfold roundUp4
      omega

theorem forEach_members_even {ι : Type} (body : ι → SynthState → Except TypeStop SynthState)
    (P : ι → Prop) (Q : TypeStop → Prop)
    (hbody : ∀ i, P i → ∀ st : SynthState, st.1.fixedSize % 4 = 0 →
      (∀ e, body i st = .error e → Q e) ∧
      (∀ st', body i st = .ok st' → st'.1.fixedSize % 4 = 0)) :
    ∀ (l : List ι), (∀ i ∈ l, P i) → ∀ st : SynthState, st.1.fixedSize % 4 = 0 →
      (∀ e, forEach body l st = .error e → Q e) ∧
      (∀ st', forEach body l st = .ok st' → st'.1.fixedSize % 4 = 0) := by
  intro l
  induction l with
  | nil =>
    intro _ st hst
    constructor
    · intro e h
      cases h
    · intro st' h
      simp only [forEach, Except.ok.injEq] at h
      exact h ▸ hst
  | cons a l ih =>
    intro hP st hst
    obtain ⟨hb1, hb2⟩ := hbody a (hP a (List.mem_cons_self _ _)) st hst
    simp only [forEach]
    cases hb : body a st with
    | error e =>
      constructor
      · intro e' h
        simp only [Except.error.injEq] at h
        exact h ▸ hb1 e hb
      · intro st' h
        cases h
    | ok st1 =>
      exact ih (fun i hi => hP i (List.mem_cons_of_mem _ hi)) st1 (hb2 st1 hb)

theorem finishStruct_even (r : Except TypeStop SynthState)
    (hr : (∀ e, r = .error e → ∀ owner, e ≠ .fail .AlignmentViolation owner) ∧
      (∀ st, r = .ok st → st.1.fixedSize % 4 = 0)) :
    (∀ owner, finishStruct r ≠ .fail .AlignmentViolation owner) ∧
    (∀ t owner, finishStruct r = .ok t owner → t.fixedSize % 2 = 0) := by
  cases r with
  | error e =>
    cases e with
    | fail e o =>
      constructor
      · intro owner h
        simp only [finishStruct, TypeOutcome.fail.injEq] at h
        exact hr.1 _ rfl owner (by rw [h.1, h.2])
      · intro t owner h
        simp [finishStruct] at h
  | ok st =>
    obtain ⟨s, o⟩ := st
    constructor
    · intro owner h
      simp [finishStruct] at h
    · intro t owner h
      simp only [finishStruct, TypeOutcome.ok.injEq] at h
      have := hr.2 (s, o) rfl
      rw [← h.1]
      simp only [TypeDescriptor_Struct.toType, TypeDescriptor.fixedSize]
      simp only at this
      omega

/-- With a resolver that returns types of even size only, no synthesis fails with
AlignmentViolation and every synthesized type has an even size. -/
theorem convertType_even (f : Option (String → Option TypeDescriptor))
    (hres : ∀ name t, resolve f name = some t → t.fixedSize % 2 = 0) :
    ∀ (n : Nat) (aNode : Node), sizeOf aNode < n → ∀ typeOwner : Option TypeDescriptorOwner,
      (∀ owner, convertType f typeOwner aNode ≠ .fail .AlignmentViolation owner) ∧
      (∀ t owner, convertType f typeOwner aNode = .ok t owner → t.fixedSize % 2 = 0) := by
  intro n
  induction n with
  | zero => intro aNode h; omega
  | succ n ih =>
    intro aNode hn typeOwner
    have hfailS : ∀ e : ConversionError, e ≠ .AlignmentViolation →
        (∀ owner, TypeOutcome.fail e typeOwner ≠ .fail .AlignmentViolation owner) ∧
        (∀ t owner, TypeOutcome.fail e typeOwner = .ok t owner → t.fixedSize % 2 = 0) :=
      fun e he => ⟨fun _ h => he (by
        simp only [TypeOutcome.fail.injEq] at h
        exact h.1), fun _ _ h => (by cases h)⟩
    have hbody : ∀ (node : Node) (name : String), sizeOf node < n →
        ∀ st : SynthState, st.1.fixedSize % 4 = 0 →
        (∀ e, appendConverted st.1 name (convertType f st.2 node) = .error e →
          ∀ owner, e ≠ .fail .AlignmentViolation owner) ∧
        (∀ st', appendConverted st.1 name (convertType f st.2 node) = .ok st' →
          st'.1.fixedSize % 4 = 0) := by
      intro node name hlt st hst
      obtain ⟨ih1, ih2⟩ := ih node hlt st.2
      obtain ⟨h1, h2⟩ := appendConverted_even st.1 name _ hst ih2
      refine ⟨?_, h2⟩
      intro e he owner hcon
      obtain ⟨err, owner', ho, rfl⟩ := h1 e he
      simp only [TypeStop.fail.injEq] at hcon
      exact ih1 owner' (by rw [ho, hcon.1])
    have hstop : ∀ (e : ConversionError) (o : Option TypeDescriptorOwner),
        e ≠ .AlignmentViolation →
        (∀ e', (Except.error (TypeStop.fail e o) : Except TypeStop SynthState) = .error e' →
          ∀ owner, e' ≠ .fail .AlignmentViolation owner) ∧
        (∀ st', (Except.error (TypeStop.fail e o) : Except TypeStop SynthState) = .ok st' →
          st'.1.fixedSize % 4 = 0) := by
      intro e o he
      refine ⟨?_, fun _ h => (by cases h)⟩
      intro e' h owner hcon
      simp only [Except.error.injEq] at h
      rw [← h] at hcon
      simp only [TypeStop.fail.injEq] at hcon
      exact he hcon.1
    cases aNode with
    | text str =>
      rw [convertType_text]
      have hok : ∀ t : TypeDescriptor, t.fixedSize % 2 = 0 →
          (∀ owner, TypeOutcome.ok t typeOwner ≠ .fail .AlignmentViolation owner) ∧
          (∀ t' owner, TypeOutcome.ok t typeOwner = .ok t' owner → t'.fixedSize % 2 = 0) := by
        intro t ht
        refine ⟨fun _ h => (by cases h), fun t' owner h => ?_⟩
        simp only [TypeOutcome.ok.injEq] at h
        rw [← h.1]
        exact ht
      split
      · exact hok _ rfl
      · split
        · exact hok _ rfl
        · split
          · exact hok _ rfl
          · split
            · exact hok _ rfl
            · split
              · exact hok _ rfl
              · cases hr : resolve f str with
                | none => exact hfailS _ (by decide)
                | some t => exact hok t (hres str t hr)
    | object items =>
      rw [convertType_object]
      split
      · unfold synthesizeStruct
        split
        · exact hfailS _ (by decide)
        · split
          · exact hfailS _ (by decide)
          · split
            · exact hfailS _ (by decide)
            · rename_i aMembers hmem
              have hsub : sizeOf aMembers < n + 1 :=
                Nat.lt_trans (Node.sizeOf_get_lt hmem) hn
              split
              · apply finishStruct_even
                refine forEach_members_even (objectMemberBody (convertType f))
                  (fun entry => sizeOf entry.2 < n)
                  (fun e => ∀ owner, e ≠ .fail .AlignmentViolation owner)
                  ?_ aMembers.objectItems ?_ _ rfl
                · intro entry hentry st hst
                  exact hbody entry.2 entry.1 hentry st hst
                · intro entry hentry
                  have := Node.sizeOf_lt_of_mem_objectItems hentry
                  omega
              · split
                · apply finishStruct_even
                  refine forEach_members_even (arrayMemberBody (convertType f))
                    (fun aMember => sizeOf aMember < n)
                    (fun e => ∀ owner, e ≠ .fail .AlignmentViolation owner)
                    ?_ aMembers.arrayItems ?_ _ rfl
                  · intro aMember hlt st hst
                    unfold arrayMemberBody
                    split
                    · exact hstop _ _ (by decide)
                    · split
                      · exact hstop _ _ (by decide)
                      · split
                        · exact hstop _ _ (by decide)
                        · rename_i aType hitem
                          have := Node.sizeOf_item_lt hitem
                          exact hbody aType _ (by omega) st hst
                  · intro aMember hmem
                    have := Node.sizeOf_lt_of_mem_arrayItems hmem
                    omega
                · exact hfailS _ (by decide)
      · exact hfailS _ (by decide)
    | null => rw [convertType_other f typeOwner .null rfl rfl]; exact hfailS _ (by decide)
    | bool b => rw [convertType_other f typeOwner (.bool b) rfl rfl]; exact hfailS _ (by decide)
    | number x =>
      rw [convertType_other f typeOwner (.number x) rfl rfl]; exact hfailS _ (by decide)
    | array l => rw [convertType_other f typeOwner (.array l) rfl rfl]; exact hfailS _ (by decide)

theorem exampleTwoU16_members :
    synthesizeMembers (convertType none) (some ⟨[], none⟩) [("a", .text "u16"), ("b", .text "u16")]
      = .ok ([("a", typeU16), ("b", typeU16)], some ⟨[], none⟩) := by
  simp [synthesizeMembers, convertType_text]

/-! ## Recursion depth lemmas -/

theorem Node.depth_pos (aNode : Node) : 1 ≤ aNode.depth := by
  cases aNode <;> simp [Node.depth]

theorem Node.depthOfItems_le {v : Node} :
    ∀ {items : List Node}, v ∈ items → v.depth ≤ Node.depthOfItems items := by
  intro items
  induction items with
  | nil => intro h; simp at h
  | cons a l ih =>
    intro h
    simp only [Node.depthOfItems]
    rcases List.mem_cons.1 h with h | h
    · subst h
      exact le_max_left _ _
    · exact le_trans (ih h) (le_max_right _ _)

theorem Node.depthOfEntries_le {e : String × Node} :
    ∀ {items : List (String × Node)}, e ∈ items → e.2.depth ≤ Node.depthOfEntries items := by
  intro items
  induction items with
  | nil => intro h; simp at h
  | cons a l ih =>
    intro h
    obtain ⟨k, n⟩ := a
    simp only [Node.depthOfEntries]
    rcases List.mem_cons.1 h with h | h
    · subst h
      exact le_max_left _ _
    · exact le_trans (ih h) (le_max_right _ _)

theorem Node.depth_lt_of_mem_arrayItems {aNode v : Node} (h : v ∈ aNode.arrayItems) :
    v.depth < aNode.depth := by
  cases aNode with
  | array items =>
    simp only [Node.arrayItems] at h
    simp only [Node.depth]
    exact Nat.lt_succ_of_le (Node.depthOfItems_le h)
  | _ => simp [Node.arrayItems] at h

theorem Node.depth_lt_of_mem_objectItems {aNode : Node} {e : String × Node}
    (h : e ∈ aNode.objectItems) : e.2.depth < aNode.depth := by
  cases aNode with
  | object items =>
    simp only [Node.objectItems] at h
    simp only [Node.depth]
    exact Nat.lt_succ_of_le (Node.depthOfEntries_le h)
  | _ => simp [Node.objectItems] at h

theorem Node.depth_get_lt {aNode : Node} {key : String} {v : Node}
    (h : aNode.get key = some v) : v.depth < aNode.depth := by
  cases aNode with
  | object items =>
    simp only [Node.get, Option.map_eq_some'] at h
    obtain ⟨e, he, rfl⟩ := h
    have hmem : e ∈ (Node.object items).objectItems := List.mem_of_find?_eq_some he
    exact Node.depth_lt_of_mem_objectItems hmem
  | _ => simp [Node.get] at h

theorem Node.depth_lt_of_mem_arrayItemsRef {aNode v : Node} {key : String}
    (h : v ∈ Node.arrayItemsRef (aNode.get key)) : v.depth < aNode.depth := by
  cases hd : aNode.get key with
  | none => simp [hd, Node.arrayItemsRef] at h
  | some aData =>
    rw [hd] at h
    exact Nat.lt_trans (Node.depth_lt_of_mem_arrayItems h) (Node.depth_get_lt hd)

theorem Node.depth_arrayItems_get_lt {aNode : Node} {i : Nat} {v : Node}
    (h : aNode.arrayItems[i]? = some v) : v.depth < aNode.depth :=
  Node.depth_lt_of_mem_arrayItems (List.getElem?_mem h)

theorem Node.depth_item_lt {aNode : Node} {i : Nat} {v : Node}
    (h : aNode.item i = some v) : v.depth < aNode.depth := by
  cases aNode with
  | array items =>
    simp only [Node.item] at h
    have hmem : v ∈ (Node.array items).arrayItems := List.getElem?_mem h
    exact Node.depth_lt_of_mem_arrayItems hmem
  | _ => simp [Node.item] at h

theorem forEachFuel_eq_some {ι σ ε : Type} (bodyFuel : ι → σ → Option (Except ε σ))
    (body : ι → σ → Except ε σ) :
    ∀ (l : List ι), (∀ i ∈ l, ∀ s, bodyFuel i s = some (body i s)) →
    ∀ s, forEachFuel bodyFuel l s = some (forEach body l s) := by
  intro l
  induction l with
  | nil => intro _ s; rfl
  | cons a l ih =>
    intro h s
    simp only [forEachFuel, forEach, h a (List.mem_cons_self _ _) s]
    cases body a s with
    | ok s' => exact ih (fun i hi => h i (List.mem_cons_of_mem _ hi)) s'
    | error e => rfl

theorem forEachFuel_isSome {ι σ ε : Type} (bodyFuel : ι → σ → Option (Except ε σ)) :
    ∀ (l : List ι), (∀ i ∈ l, ∀ s, ∃ r, bodyFuel i s = some r) →
    ∀ s, ∃ r, forEachFuel bodyFuel l s = some r := by
  intro l
  induction l with
  | nil => intro _ s; exact ⟨_, rfl⟩
  | cons a l ih =>
    intro h s
    obtain ⟨r, hr⟩ := h a (List.mem_cons_self _ _) s
    simp only [forEachFuel, hr]
    cases r with
    | ok s' => exact ih (fun i hi => h i (List.mem_cons_of_mem _ hi)) s'
    | error e => exact ⟨_, rfl⟩

theorem forEachFuel_map {α ι σ ε : Type} (g : α → ι) (body : ι → σ → Option (Except ε σ))
    (l : List α) (s : σ) :
    forEachFuel body (l.map g) s = forEachFuel (fun x s => body (g x) s) l s := by
  induction l generalizing s with
  | nil => rfl
  | cons a l ih =>
    simp only [List.map_cons, forEachFuel]
    cases body (g a) s with
    | none => rfl
    | some r =>
      cases r with
      | ok s' => exact ih s'
      | error e => rfl

theorem synthesizeStructFuel_eq (convFuel : Option TypeDescriptorOwner → Node → Option TypeOutcome)
    (conv : Option TypeDescriptorOwner → Node → TypeOutcome)
    (typeOwner : Option TypeDescriptorOwner) (aNode : Node)
    (h : ∀ owner node, node.depth + 1 < aNode.depth → convFuel owner node = some (conv owner node)) :
    synthesizeStructFuel convFuel typeOwner aNode = some (synthesizeStruct conv typeOwner aNode) := by
  unfold synthesizeStructFuel synthesizeStruct
  split
  · rfl
  · split
    · rfl
    · cases hm : aNode.get "members" with
      | none => rfl
      | some aMembers =>
        simp only []
        have hsub := Node.depth_get_lt hm
        split
        · rw [forEachFuel_eq_some _ (objectMemberBody conv)]
          · rfl
          · intro entry hentry st
            have := Node.depth_lt_of_mem_objectItems hentry
            rw [h st.2 entry.2 (by omega)]
            rfl
        · split
          · rw [forEachFuel_eq_some _ (arrayMemberBody conv)]
            · rfl
            · intro aMember hmem st
              have := Node.depth_lt_of_mem_arrayItems hmem
              unfold arrayMemberBody
              split
              · rfl
              · split
                · rfl
                · cases hi : aMember.item 1 with
                  | none => rfl
                  | some aType =>
                    simp only []
                    have := Node.depth_item_lt hi
                    rw [h st.2 aType (by omega)]
                    rfl
          · rfl

/-- Enough fuel for the depth of the declaration node gives the result of
`convertType`. -/
theorem convertTypeFuel_eq (f : Option (String → Option TypeDescriptor)) :
    ∀ (fuel : Nat) (typeOwner : Option TypeDescriptorOwner) (aNode : Node),
    aNode.depth ≤ fuel → convertTypeFuel f fuel typeOwner aNode
      = some (convertType f typeOwner aNode) := by
  intro fuel
  induction fuel with
  | zero =>
    intro typeOwner aNode h
    have := Node.depth_pos aNode
    omega
  | succ fuel ih =>
    intro typeOwner aNode h
    cases aNode with
    | text str =>
      rw [convertType_text]
      simp only [convertTypeFuel, Node.isText, Node.textOf, ↓reduceIte]
      split
      · rfl
      · split
        · rfl
        · split
          · rfl
          · split
            · rfl
            · split
              · rfl
              · cases resolve f str <;> rfl
    | object items =>
      rw [convertType_object]
      simp only [convertTypeFuel, Node.isText, Node.isObject, Bool.false_eq_true, ↓reduceIte]
      split
      · exact synthesizeStructFuel_eq _ _ _ _ (fun owner node hn => ih owner node (by omega))
      · rfl
    | null =>
      rw [convertType_other f typeOwner .null rfl rfl]
      simp [convertTypeFuel, Node.isText, Node.isObject]
    | bool b =>
      rw [convertType_other f typeOwner (.bool b) rfl rfl]
      simp [convertTypeFuel, Node.isText, Node.isObject]
    | number x =>
      rw [convertType_other f typeOwner (.number x) rfl rfl]
      simp [convertTypeFuel, Node.isText, Node.isObject]
    | array l =>
      rw [convertType_other f typeOwner (.array l) rfl rfl]
      simp [convertTypeFuel, Node.isText, Node.isObject]

theorem convertTypeFromFuel_eq (f : Option (String → Option TypeDescriptor)) (fuel : Nat)
    (aNode : Option Node) (h : ∀ a, aNode = some a → a.depth ≤ fuel) :
    convertTypeFromFuel f fuel aNode = some (convertTypeFrom aNode f) := by
  cases aNode with
  | none => rfl
  | some a =>
    simp only [convertTypeFromFuel, convertTypeFuel_eq f fuel _ a (h a rfl), Option.map_some',
      convertTypeFrom_some]
    all_goals (cases convertType f (some ⟨[], none⟩) a <;> rfl)

theorem itemBodyFuel_eq (wrap : List Value → Value)
    (convFuel : TypeDescriptor → Value → Node → Option Outcome)
    (conv : TypeDescriptor → Value → Node → Outcome) (itemType : TypeDescriptor)
    (aNodeArr : List Node)
    (h : ∀ a ∈ aNodeArr, ∀ p, convFuel itemType p a = some (conv itemType p a))
    (i : Nat) (vals : List Value) :
    itemBodyFuel wrap convFuel itemType aNodeArr i vals
      = some (itemBody wrap conv itemType aNodeArr i vals) := by
  unfold itemBodyFuel itemBody
  cases ha : aNodeArr[i]? with
  | none => rfl
  | some aItem =>
    simp only []
    cases hv : vals[i]? with
    | none => rfl
    | some elem =>
      simp only []
      rw [h aItem (List.getElem?_mem ha) elem]
      rfl

theorem itemBodyFuel_isSome {D : Type} (wrap : List Value → Value)
    (convFuel : D → Value → Node → Option Outcome) (itemType : D) (aNodeArr : List Node)
    (h : ∀ a ∈ aNodeArr, ∀ p, ∃ r, convFuel itemType p a = some r)
    (i : Nat) (vals : List Value) :
    ∃ r, itemBodyFuel wrap convFuel itemType aNodeArr i vals = some r := by
  unfold itemBodyFuel
  cases ha : aNodeArr[i]? with
  | none => exact ⟨_, rfl⟩
  | some aItem =>
    simp only []
    cases hv : vals[i]? with
    | none => exact ⟨_, rfl⟩
    | some elem =>
      simp only []
      obtain ⟨r, hr⟩ := h aItem (List.getElem?_mem ha) elem
      rw [hr]
      exact ⟨_, rfl⟩

theorem findStateViewFrom_map (stateName : String) :
    ∀ (states : List State) (i : Nat),
    findStateViewFrom stateName i (states.map (fun s => (s.name, s.structType)))
      = (findStateFrom stateName i states).map (fun r => (r.1, r.2.structType)) := by
  intro states
  induction states with
  | nil => intro i; rfl
  | cons s rest ih =>
    intro i
    simp only [List.map_cons, findStateViewFrom, findStateFrom]
    split
    · rfl
    · exact ih (i + 1)

theorem ensureStateIsView_map (c : TypeDescriptor → Value) (states : List State)
    (obj : Value) (stateID : Nat) :
    ensureStateIsView c (states.map (fun s => (s.name, s.structType))) obj stateID
      = ensureStateIs c states obj stateID := by
  unfold ensureStateIsView ensureStateIs
  cases obj.switchState with
  | none => rfl
  | some p =>
    simp only []
    split
    · rw [List.getElem?_map]
      cases states[stateID]? <;> rfl
    · rfl

/-- One call of `convertFrom` on a descriptor tree: when the calls it makes, all on
nodes of smaller depth, return the results of `convertFrom`, so does the call. -/
theorem convertFromStep_eq (c : TypeDescriptor → Value)
    (f : Option (String → Option TypeDescriptor))
    (convFuel : TypeDescriptor → Value → Node → Option Outcome)
    (convTypeFrom : Option Node → Option (Except ConversionError TypeDescriptorOwner))
    (type : TypeDescriptor) (ptr : Value) (aNode : Node)
    (hconv : ∀ t p a, a.depth < aNode.depth → convFuel t p a = some (convertFrom c f t p a))
    (htype : convTypeFrom (aNode.get "type") = some (convertTypeFrom (aNode.get "type") f)) :
    convertFromStep TypeDescriptor.view id c convFuel convTypeFrom type ptr aNode
      = some (convertFrom c f type ptr aNode) := by
  cases type with
  | plain typeKey n =>
    cases typeKey with
    | float =>
      rw [convertFrom_float]
      simp only [convertFromStep, TypeDescriptor.view]
      split <;> rfl
    | u8 =>
      rw [convertFrom_u8]
      simp only [convertFromStep, TypeDescriptor.view]
      split <;> rfl
    | u16 =>
      rw [convertFrom_u16]
      simp only [convertFromStep, TypeDescriptor.view]
      split <;> rfl
    | bool =>
      rw [convertFrom_bool]
      rfl
    | u32 =>
      rw [convertFrom_u32]
      simp only [convertFromStep, TypeDescriptor.view]
      split <;> rfl
    | s32 =>
      rw [convertFrom_s32]
      simp only [convertFromStep, TypeDescriptor.view]
      split <;> rfl
    | string =>
      rw [convertFrom_string]
      simp only [convertFromStep, TypeDescriptor.view]
      split <;> rfl
    | other name =>
      rw [convertFrom_other]
      rfl
    | savedTypedPtr =>
      rw [convertFrom_savedTypedPtr]
      simp only [convertFromStep, TypeDescriptor.view, htype, id]
      cases hobj : aNode.isObject
      · rfl
      · simp only [Bool.not_true, Bool.false_eq_true, ↓reduceIte]
        cases convertTypeFrom (aNode.get "type") f with
        | error e => rfl
        | ok owner =>
          simp only []
          cases owner.rootType with
          | none => rfl
          | some rootType =>
            simp only []
            cases hv : aNode.get "value" with
            | none => rfl
            | some aValue =>
              simp only []
              rw [hconv _ _ _ (Node.depth_get_lt hv)]
              rfl
    | typedArray =>
      rw [convertFrom_typedArray]
      simp only [convertFromStep, TypeDescriptor.view, htype, id]
      cases hobj : aNode.isObject
      · rfl
      · simp only [Bool.not_true, Bool.false_eq_true, ↓reduceIte]
        cases convertTypeFrom (aNode.get "type") f with
        | error e => rfl
        | ok owner =>
          simp only []
          cases owner.rootType with
          | none => rfl
          | some itemType =>
            simp only []
            rw [forEachFuel_eq_some _
              (itemBody (.typedArray (some owner)) (convertFrom c f) itemType
                (Node.arrayItemsRef (aNode.get "data")))]
            · rfl
            · intro i _ s
              apply itemBodyFuel_eq
              intro a hmem p
              exact hconv _ _ _ (Node.depth_lt_of_mem_arrayItemsRef hmem)
  | struct n s members =>
    rw [convertFrom_struct]
    simp only [convertFromStep, TypeDescriptor.view]
    cases hobj : aNode.isObject
    · rfl
    · simp only [Bool.not_true, Bool.false_eq_true, ↓reduceIte]
      cases ptr.structMembers with
      | none => rfl
      | some vals =>
        simp only [List.enum_map, forEachFuel_map]
        rw [forEachFuel_eq_some _ (structBody (convertFrom c f) aNode)]
        · rfl
        · intro km _ vals
          unfold structBody
          simp only [Prod.map_snd, Prod.map_fst, id]
          cases hg : aNode.get km.2.name with
          | none => rfl
          | some aMember =>
            simp only []
            cases vals[km.1]? with
            | none => rfl
            | some m =>
              simp only []
              rw [hconv _ _ _ (Node.depth_get_lt hg)]
              rfl
  | fixedArray n itemType numItems =>
    rw [convertFrom_fixedArray]
    simp only [convertFromStep, TypeDescriptor.view]
    cases hobj : aNode.isArray
    · rfl
    · simp only [Bool.not_true, Bool.false_eq_true, ↓reduceIte]
      cases ptr.fixedArrayItems with
      | none => rfl
      | some vals =>
        simp only []
        rw [forEachFuel_eq_some _
          (itemBody .fixedArray (convertFrom c f) itemType aNode.arrayItems)]
        · rfl
        · intro i _ s
          apply itemBodyFuel_eq
          intro a hmem p
          exact hconv _ _ _ (Node.depth_lt_of_mem_arrayItems hmem)
  | array n itemType =>
    rw [convertFrom_array_raw]
    simp only [convertFromStep, TypeDescriptor.view]
    cases hobj : aNode.isArray
    · rfl
    · simp only [Bool.not_true, Bool.false_eq_true, ↓reduceIte]
      cases ptr.arrayItems with
      | none => rfl
      | some vals =>
        simp only []
        cases realloc (destructItems vals aNode.arrayItems.length vals.length)
            aNode.arrayItems.length with
        | none => rfl
        | some vals1 =>
          simp only []
          rw [forEachFuel_eq_some _
            (itemBody .array (convertFrom c f) itemType aNode.arrayItems)]
          · rfl
          · intro i _ s
            apply itemBodyFuel_eq
            intro a hmem p
            exact hconv _ _ _ (Node.depth_lt_of_mem_arrayItems hmem)
  | enumIndexedArray n itemType identifiers =>
    rw [convertFrom_enumIndexedArray]
    simp only [convertFromStep, TypeDescriptor.view]
    cases hobj : aNode.isObject
    · rfl
    · simp only [Bool.not_true, Bool.false_eq_true, ↓reduceIte]
      cases ptr.enumIndexedItems with
      | none => rfl
      | some vals =>
        simp only []
        rw [forEachFuel_eq_some _ (enumIndexedBody (convertFrom c f) aNode itemType)]
        · rfl
        · intro identifier _ vals
          unfold enumIndexedBody
          cases hg : aNode.get identifier.name with
          | none => rfl
          | some aMember =>
            simp only []
            cases vals[identifier.value]? with
            | none => rfl
            | some m =>
              simp only []
              rw [hconv _ _ _ (Node.depth_get_lt hg)]
              rfl
  | enum fixedSize identifiers =>
    rw [convertFrom_enum]
    simp only [convertFromStep, TypeDescriptor.view]
    split
    · rfl
    · cases identifiers.find? (fun identifier => identifier.name == aNode.textOf) with
      | none => rfl
      | some identifier =>
        simp only []
        split
        · split <;> rfl
        · split
          · split <;> rfl
          · split <;> rfl
  | switch n off states =>
    rw [convertFrom_switch]
    simp only [convertFromStep, TypeDescriptor.view, findStateViewFrom_map,
      ensureStateIsView_map]
    cases hobj : aNode.isObject
    · rfl
    · simp only [Bool.not_true, Bool.false_eq_true, ↓reduceIte]
      split
      · rfl
      · cases hh : aNode.objectItems.head? with
        | none => rfl
        | some iter =>
          simp only [findState]
          cases findStateFrom iter.1 0 states with
          | none => rfl
          | some r =>
            obtain ⟨i, state⟩ := r
            simp only [Option.map_some']
            cases ensureStateIs c states ptr (i % 65536) with
            | none => rfl
            | some q =>
              obtain ⟨id', storage⟩ := q
              simp only []
              rw [hconv _ _ _ (Node.depth_lt_of_mem_objectItems (List.mem_of_mem_head? hh))]
              rfl

/-- Enough fuel for the depth of the document gives the result of `convertFrom`. -/
theorem convertFromFuel_eq (c : TypeDescriptor → Value)
    (f : Option (String → Option TypeDescriptor)) :
    ∀ (fuel : Nat) (type : TypeDescriptor) (ptr : Value) (aNode : Node),
    aNode.depth ≤ fuel →
    convertFromFuel TypeDescriptor.view id c f fuel type ptr aNode
      = some (convertFrom c f type ptr aNode) := by
  intro fuel
  induction fuel with
  | zero =>
    intro type ptr aNode h
    have := Node.depth_pos aNode
    omega
  | succ fuel ih =>
    intro type ptr aNode h
    simp only [convertFromFuel]
    apply convertFromStep_eq
    · intro t p a ha
      exact ih t p a (by omega)
    · apply convertTypeFromFuel_eq
      intro a ha
      have := Node.depth_get_lt ha
      omega

/-- One call of `convertFrom` on a descriptor handle returns when the calls it makes,
all on nodes of smaller depth, return. -/
theorem convertFromStep_isSome {D : Type} (view : D → TypeView D) (embed : TypeDescriptor → D)
    (construct : D → Value)
    (convFuel : D → Value → Node → Option Outcome)
    (convTypeFrom : Option Node → Option (Except ConversionError TypeDescriptorOwner))
    (type : D) (ptr : Value) (aNode : Node)
    (hconv : ∀ t p a, a.depth < aNode.depth → ∃ r, convFuel t p a = some r)
    (htype : ∃ r, convTypeFrom (aNode.get "type") = some r) :
    ∃ r, convertFromStep view embed construct convFuel convTypeFrom type ptr aNode = some r := by
  have hmap : ∀ {α β : Type} (o : Option α) (g : α → β), (∃ r, o = some r) →
      ∃ r, o.map g = some r := by
    intro α β o g h
    obtain ⟨r, rfl⟩ := h
    exact ⟨_, rfl⟩
  have hitems : ∀ (wrap : List Value → Value) (itemType : D) (l : List Nat) (vals : List Value),
      ∃ r, (forEachFuel (itemBodyFuel wrap convFuel itemType aNode.arrayItems) l vals).map
        (finishLoop wrap) = some r := by
    intro wrap itemType l vals
    apply hmap
    apply forEachFuel_isSome
    intro i _ s
    apply itemBodyFuel_isSome
    intro a hmem p
    exact hconv _ _ _ (Node.depth_lt_of_mem_arrayItems hmem)
  unfold convertFromStep
  cases view type with
  | plain typeKey =>
    cases typeKey with
    | float => simp only []; split <;> exact ⟨_, rfl⟩
    | u8 => simp only []; split <;> exact ⟨_, rfl⟩
    | u16 => simp only []; split <;> exact ⟨_, rfl⟩
    | bool => exact ⟨_, rfl⟩
    | u32 => simp only []; split <;> exact ⟨_, rfl⟩
    | s32 => simp only []; split <;> exact ⟨_, rfl⟩
    | string => simp only []; split <;> exact ⟨_, rfl⟩
    | other name => exact ⟨_, rfl⟩
    | savedTypedPtr =>
      simp only []
      split
      · exact ⟨_, rfl⟩
      · obtain ⟨r, hr⟩ := htype
        rw [hr]
        cases r with
        | error e => exact ⟨_, rfl⟩
        | ok owner =>
          simp only []
          cases owner.rootType with
          | none => exact ⟨_, rfl⟩
          | some rootType =>
            simp only []
            cases hv : aNode.get "value" with
            | none => exact ⟨_, rfl⟩
            | some aValue => exact hmap _ _ (hconv _ _ _ (Node.depth_get_lt hv))
    | typedArray =>
      simp only []
      split
      · exact ⟨_, rfl⟩
      · obtain ⟨r, hr⟩ := htype
        rw [hr]
        cases r with
        | error e => exact ⟨_, rfl⟩
        | ok owner =>
          simp only []
          cases owner.rootType with
          | none => exact ⟨_, rfl⟩
          | some itemType =>
            simp only []
            apply hmap
            apply forEachFuel_isSome
            intro i _ s
            apply itemBodyFuel_isSome
            intro a hmem p
            exact hconv _ _ _ (Node.depth_lt_of_mem_arrayItemsRef hmem)
  | struct members =>
    simp only []
    split
    · exact ⟨_, rfl⟩
    · cases ptr.structMembers with
      | none => exact ⟨_, rfl⟩
      | some vals =>
        simp only []
        apply hmap
        apply forEachFuel_isSome
        intro km _ vals
        cases hg : aNode.get km.2.1 with
        | none => exact ⟨_, rfl⟩
        | some aMember =>
          simp only []
          cases vals[km.1]? with
          | none => exact ⟨_, rfl⟩
          | some m => exact hmap _ _ (hconv _ _ _ (Node.depth_get_lt hg))
  | fixedArray itemType numItems =>
    simp only []
    split
    · exact ⟨_, rfl⟩
    · cases ptr.fixedArrayItems with
      | none => exact ⟨_, rfl⟩
      | some vals => exact hitems _ _ _ _
  | array itemType =>
    simp only []
    split
    · exact ⟨_, rfl⟩
    · cases ptr.arrayItems with
      | none => exact ⟨_, rfl⟩
      | some vals =>
        simp only []
        cases realloc (destructItems vals aNode.arrayItems.length vals.length)
            aNode.arrayItems.length with
        | none => exact ⟨_, rfl⟩
        | some vals1 => exact hitems _ _ _ _
  | enumIndexedArray itemType identifiers =>
    simp only []
    split
    · exact ⟨_, rfl⟩
    · cases ptr.enumIndexedItems with
      | none => exact ⟨_, rfl⟩
      | some vals =>
        simp only []
        apply hmap
        apply forEachFuel_isSome
        intro identifier _ vals
        cases hg : aNode.get identifier.name with
        | none => exact ⟨_, rfl⟩
        | some aMember =>
          simp only []
          cases vals[identifier.value]? with
          | none => exact ⟨_, rfl⟩
          | some m => exact hmap _ _ (hconv _ _ _ (Node.depth_get_lt hg))
  | enum fixedSize identifiers =>
    simp only []
    split
    · exact ⟨_, rfl⟩
    · cases identifiers.find? (fun identifier => identifier.name == aNode.textOf) with
      | none => exact ⟨_, rfl⟩
      | some identifier =>
        simp only []
        split
        · split <;> exact ⟨_, rfl⟩
        · split
          · split <;> exact ⟨_, rfl⟩
          · split <;> exact ⟨_, rfl⟩
  | switch states =>
    simp only []
    split
    · exact ⟨_, rfl⟩
    · split
      · exact ⟨_, rfl⟩
      · cases hh : aNode.objectItems.head? with
        | none => exact ⟨_, rfl⟩
        | some iter =>
          simp only []
          cases findStateViewFrom iter.1 0 states with
          | none => exact ⟨_, rfl⟩
          | some r =>
            obtain ⟨i, structType⟩ := r
            simp only []
            cases ensureStateIsView construct states ptr (i % 65536) with
            | none => exact ⟨_, rfl⟩
            | some q =>
              obtain ⟨id', storage⟩ := q
              exact hmap _ _ (hconv _ _ _
                (Node.depth_lt_of_mem_objectItems (List.mem_of_mem_head? hh)))

/-- For every descriptor graph, enough fuel for the depth of the document makes
`convertFrom` return. -/
theorem convertFromFuel_isSome {D : Type} (view : D → TypeView D) (embed : TypeDescriptor → D)
    (construct : D → Value) (f : Option (String → Option TypeDescriptor)) :
    ∀ (fuel : Nat) (type : D) (ptr : Value) (aNode : Node),
    aNode.depth ≤ fuel →
    ∃ r, convertFromFuel view embed construct f fuel type ptr aNode = some r := by
  intro fuel
  induction fuel with
  | zero =>
    intro type ptr aNode h
    have := Node.depth_pos aNode
    omega
  | succ fuel ih =>
    intro type ptr aNode h
    simp only [convertFromFuel]
    apply convertFromStep_isSome
    · intro t p a ha
      exact ih t p a (by omega)
    · refine ⟨_, convertTypeFromFuel_eq f fuel _ ?_⟩
      intro a ha
      have := Node.depth_get_lt ha
      omega

theorem exampleTree_depth : exampleTreeDocument.depth = 4 := by
  simp [exampleTreeDocument, Node.depth, Node.depthOfEntries, Node.depthOfItems]

theorem exampleTree_import :
    convertFromFuel exampleTreeView (fun _ => 2) exampleTreeConstruct none 4 0
        (.struct [.array []]) exampleTreeDocument
      = some (.ok (.struct [.array [.struct [.array []], .struct [.array []]]])) := by
  simp [convertFromFuel, convertFromStep, exampleTreeView, exampleTreeConstruct,
    exampleTreeDocument, forEachFuel, itemBodyFuel, Node.get, Node.isObject, Node.isArray,
    Node.arrayItems, Value.structMembers, Value.arrayItems, List.enum, storeItem, finishLoop,
    indexRange, List.range', destructItems, realloc, Value.isRaw]

/-! ## Outcomes of loops, and the aliasing example -/

theorem finishLoop_ok {wrap : List Value → Value} {r : Except Stop (List Value)} {s' : Value}
    (h : finishLoop wrap r = .ok s') : ∃ vals', r = .ok vals' ∧ s' = wrap vals' := by
  cases r with
  | ok vals' =>
    simp only [finishLoop, Outcome.ok.injEq] at h
    exact ⟨vals', rfl, h.symm⟩
  | error e => cases e <;> simp [finishLoop] at h

theorem wrapOutcome_ok {wrap : Value → Value} {o : Outcome} {s' : Value}
    (h : wrapOutcome wrap o = .ok s') : ∃ v, o = .ok v ∧ s' = wrap v := by
  cases o with
  | ok v =>
    simp only [wrapOutcome, Outcome.ok.injEq] at h
    exact ⟨v, rfl, h.symm⟩
  | fail e v => simp [wrapOutcome] at h
  | undefined => simp [wrapOutcome] at h

theorem Outcome.toOption_eq_some {o : Outcome} {v : Value} :
    o.toOption = some v ↔ o = .ok v := by
  cases o <;> simp [Outcome.toOption]

theorem runSteps_append {α σ : Type} (step : α → σ → Option σ) (l₁ l₂ : List α) (s : σ) :
    runSteps step (l₁ ++ l₂) s = (runSteps step l₁ s).bind (runSteps step l₂) := by
  induction l₁ generalizing s with
  | nil => rfl
  | cons a l ih =>
    simp only [List.cons_append, runSteps]
    cases step a s with
    | none => rfl
    | some s1 => exact ih s1

theorem runOps_append (g : Node → Value → Option Value) (c : Value) (l₁ l₂ : List SlotOp)
    (x : Option Value) :
    runOps g c (l₁ ++ l₂) x = (runOps g c l₁ x).bind (runOps g c l₂) :=
  runSteps_append _ l₁ l₂ x

theorem runOps_nil (g : Node → Value → Option Value) (c : Value) (x : Option Value) :
    runOps g c [] x = some x := rfl

theorem runOps_cons (g : Node → Value → Option Value) (c : Value) (op : SlotOp)
    (ops : List SlotOp) (x : Option Value) :
    runOps g c (op :: ops) x = (op.apply g c x).bind (runOps g c ops) := rfl

theorem runSteps_pres {g : Node → Value → Option Value} {W : Value → Prop} {N : Node → Prop}
    (hg : SlotGood g W N) :
    ∀ (as : List Node) (v r : Value), (∀ a ∈ as, N a) → W v → runSteps g as v = some r → W r := by
  intro as
  induction as with
  | nil =>
    intro v r _ hw h
    simp only [runSteps, Option.some.injEq] at h
    exact h ▸ hw
  | cons a as ih =>
    intro v r hN hw h
    simp only [runSteps] at h
    cases hga : g a v with
    | none => simp [hga] at h
    | some v1 =>
      simp only [hga, Option.some_bind] at h
      exact ih v1 r (fun b hb => hN b (List.mem_cons_of_mem _ hb))
        (hg.pres a v v1 (hN a (List.mem_cons_self _ _)) hw hga) h

theorem runSteps_succ {g : Node → Value → Option Value} {W : Value → Prop} {N : Node → Prop}
    (hg : SlotGood g W N) :
    ∀ (as : List Node) (v1 v2 r : Value), (∀ a ∈ as, N a) → W v1 → W v2 →
      runSteps g as v1 = some r → ∃ r2, runSteps g as v2 = some r2 := by
  intro as
  induction as with
  | nil => intro v1 v2 r _ _ _ _; exact ⟨v2, rfl⟩
  | cons a as ih =>
    intro v1 v2 r hN hw1 hw2 h
    simp only [runSteps] at h ⊢
    have hNa := hN a (List.mem_cons_self _ _)
    cases hga : g a v1 with
    | none => simp [hga] at h
    | some u1 =>
      simp only [hga, Option.some_bind] at h
      obtain ⟨u2, hu2⟩ := hg.succ a v1 v2 u1 hNa hw1 hw2 hga
      simp only [hu2, Option.some_bind]
      exact ih u1 u2 r (fun b hb => hN b (List.mem_cons_of_mem _ hb))
        (hg.pres a v1 u1 hNa hw1 hga) (hg.pres a v2 u2 hNa hw2 hu2) h

theorem SlotOp.mem_nodes {a : Node} :
    ∀ {ops : List SlotOp}, a ∈ SlotOp.nodes ops → SlotOp.into a ∈ ops ∨ SlotOp.fresh a ∈ ops := by
  intro ops
  induction ops with
  | nil => intro h; simp [SlotOp.nodes] at h
  | cons op ops ih =>
    intro h
    cases op with
    | into b =>
      simp only [SlotOp.nodes, List.mem_cons] at h
      rcases h with h | h
      · subst h; exact Or.inl (List.mem_cons_self _ _)
      · rcases ih h with h | h
        · exact Or.inl (List.mem_cons_of_mem _ h)
        · exact Or.inr (List.mem_cons_of_mem _ h)
    | fresh b =>
      simp only [SlotOp.nodes, List.mem_cons] at h
      rcases h with h | h
      · subst h; exact Or.inr (List.mem_cons_self _ _)
      · rcases ih h with h | h
        · exact Or.inl (List.mem_cons_of_mem _ h)
        · exact Or.inr (List.mem_cons_of_mem _ h)
    | drop =>
      simp only [SlotOp.nodes] at h
      rcases ih h with h | h
      · exact Or.inl (List.mem_cons_of_mem _ h)
      · exact Or.inr (List.mem_cons_of_mem _ h)
    | stop =>
      simp only [SlotOp.nodes] at h
      rcases ih h with h | h
      · exact Or.inl (List.mem_cons_of_mem _ h)
      · exact Or.inr (List.mem_cons_of_mem _ h)

theorem runOps_stop (g : Node → Value → Option Value) (c : Value) :
    ∀ (ops : List SlotOp) (x y : Option Value), runOps g c ops x = some y → SlotOp.stop ∉ ops := by
  intro ops
  induction ops with
  | nil => intro x y _ h; simp at h
  | cons op ops ih =>
    intro x y h hmem
    rw [runOps_cons] at h
    cases hop : op.apply g c x with
    | none => simp [hop] at h
    | some x1 =>
      simp only [hop, Option.some_bind] at h
      rcases List.mem_cons.1 hmem with h1 | h1
      · subst h1
        cases x <;> simp [SlotOp.apply] at hop
      · exact ih x1 y h h1

/-- Closed form of a sequence of `into` operations on a slot that holds an object. -/
theorem runOps_into_some (g : Node → Value → Option Value) (c : Value) :
    ∀ (ops : List SlotOp) (v : Value), (∀ op ∈ ops, op.isInto = true) → SlotOp.stop ∉ ops →
      runOps g c ops (some v) = (runSteps g (SlotOp.nodes ops) v).map some := by
  intro ops
  induction ops with
  | nil => intro v _ _; rfl
  | cons op ops ih =>
    intro v hall hstop
    have hall' : ∀ op ∈ ops, op.isInto = true := fun o ho => hall o (List.mem_cons_of_mem _ ho)
    have hstop' : SlotOp.stop ∉ ops := fun h => hstop (List.mem_cons_of_mem _ h)
    cases op with
    | into a =>
      rw [runOps_cons]
      simp only [SlotOp.apply, SlotOp.nodes, runSteps]
      cases g a v with
      | none => rfl
      | some v1 =>
        simp only [Option.map_some', Option.some_bind]
        exact ih v1 hall' hstop'
    | fresh a => simpa [SlotOp.isInto] using hall _ (List.mem_cons_self _ _)
    | drop => simpa [SlotOp.isInto] using hall _ (List.mem_cons_self _ _)
    | stop => exact absurd (List.mem_cons_self _ _) hstop

/-- A sequence of `into` operations on a slot that holds nothing succeeds only when it
is empty. -/
theorem runOps_into_none (g : Node → Value → Option Value) (c : Value)
    (ops : List SlotOp) (y : Option Value) (hall : ∀ op ∈ ops, op.isInto = true)
    (h : runOps g c ops none = some y) : ops = [] := by
  cases ops with
  | nil => rfl
  | cons op ops =>
    rw [runOps_cons] at h
    cases op with
    | into a => simp [SlotOp.apply] at h
    | fresh a => simpa [SlotOp.isInto] using hall _ (List.mem_cons_self _ _)
    | drop => simpa [SlotOp.isInto] using hall _ (List.mem_cons_self _ _)
    | stop => simp [SlotOp.apply] at h

/-- Slot theorem for slots that are converted into: a sequence of operations that
succeeds can be repeated on its result and leaves it unchanged. -/
theorem slotInto_idem {g : Node → Value → Option Value} {W : Value → Prop} {N : Node → Prop}
    (hg : SlotGood g W N) (c : Value) (ops : List SlotOp)
    (hall : ∀ op ∈ ops, op.isInto = true) (hN : ∀ a, SlotOp.into a ∈ ops → N a)
    (x y : Option Value) (hx : ∀ v, x = some v → W v)
    (h : runOps g c ops x = some y) : runOps g c ops y = some y := by
  have hstop := runOps_stop g c ops x y h
  have hnodes : ∀ a ∈ SlotOp.nodes ops, N a := by
    intro a ha
    rcases SlotOp.mem_nodes ha with h1 | h1
    · exact hN a h1
    · simpa [SlotOp.isInto] using hall _ h1
  cases x with
  | none =>
    have := runOps_into_none g c ops y hall h
    subst this
    simp only [runOps_nil, Option.some.injEq] at h
    subst h
    rfl
  | some v =>
    rw [runOps_into_some g c ops v hall hstop] at h
    cases hr : runSteps g (SlotOp.nodes ops) v with
    | none => simp [hr] at h
    | some r =>
      simp only [hr, Option.map_some', Option.some.injEq] at h
      subst h
      rw [runOps_into_some g c ops r hall hstop,
        hg.band _ v r hnodes (hx v rfl) hr]
      rfl

/-- Slot theorem for slots that are converted into: the content stays in `W`. -/
theorem slotInto_pres {g : Node → Value → Option Value} {W : Value → Prop} {N : Node → Prop}
    (hg : SlotGood g W N) (c : Value) (ops : List SlotOp)
    (hall : ∀ op ∈ ops, op.isInto = true) (hN : ∀ a, SlotOp.into a ∈ ops → N a)
    (x y : Option Value) (hx : ∀ v, x = some v → W v)
    (h : runOps g c ops x = some y) : (∀ v, y = some v → W v) ∧ (y.isSome = x.isSome) := by
  have hstop := runOps_stop g c ops x y h
  have hnodes : ∀ a ∈ SlotOp.nodes ops, N a := by
    intro a ha
    rcases SlotOp.mem_nodes ha with h1 | h1
    · exact hN a h1
    · simpa [SlotOp.isInto] using hall _ h1
  cases x with
  | none =>
    have := runOps_into_none g c ops y hall h
    subst this
    simp only [runOps_nil, Option.some.injEq] at h
    subst h
    exact ⟨hx, rfl⟩
  | some v =>
    rw [runOps_into_some g c ops v hall hstop] at h
    cases hr : runSteps g (SlotOp.nodes ops) v with
    | none => simp [hr] at h
    | some r =>
      simp only [hr, Option.map_some', Option.some.injEq] at h
      subst h
      refine ⟨?_, rfl⟩
      intro v' hv'
      cases hv'
      exact runSteps_pres hg _ v r hnodes (hx v rfl) hr

/-- Slot theorem for slots that are converted into: success does not depend on the
content. -/
theorem slotInto_succ {g : Node → Value → Option Value} {W : Value → Prop} {N : Node → Prop}
    (hg : SlotGood g W N) (c : Value) (ops : List SlotOp)
    (hall : ∀ op ∈ ops, op.isInto = true) (hN : ∀ a, SlotOp.into a ∈ ops → N a)
    (x1 x2 y1 : Option Value) (hx1 : ∀ v, x1 = some v → W v) (hx2 : ∀ v, x2 = some v → W v)
    (hsame : x1.isSome = true → x2.isSome = true)
    (h : runOps g c ops x1 = some y1) : ∃ y2, runOps g c ops x2 = some y2 := by
  have hstop := runOps_stop g c ops x1 y1 h
  have hnodes : ∀ a ∈ SlotOp.nodes ops, N a := by
    intro a ha
    rcases SlotOp.mem_nodes ha with h1 | h1
    · exact hN a h1
    · simpa [SlotOp.isInto] using hall _ h1
  cases x1 with
  | none =>
    have := runOps_into_none g c ops y1 hall h
    subst this
    exact ⟨x2, rfl⟩
  | some v1 =>
    cases x2 with
    | none => simp at hsame
    | some v2 =>
      rw [runOps_into_some g c ops v1 hall hstop] at h
      cases hr : runSteps g (SlotOp.nodes ops) v1 with
      | none => simp [hr] at h
      | some r =>
        obtain ⟨r2, hr2⟩ := runSteps_succ hg _ v1 v2 r hnodes (hx1 v1 rfl) (hx2 v2 rfl) hr
        exact ⟨some r2, by rw [runOps_into_some g c ops v2 hall hstop, hr2]; rfl⟩

theorem SlotOp.apply_fresh_pres {g : Node → Value → Option Value} {W : Value → Prop}
    {N : Node → Prop} (hg : SlotGood g W N) (c : Value) (hc : W c) (op : SlotOp)
    (hop : op.isFresh = true) (hN : ∀ a, op = SlotOp.fresh a → N a)
    (x y : Option Value) (hx : ∀ v, x = some v → W v)
    (h : op.apply g c x = some y) : ∀ v, y = some v → W v := by
  cases op with
  | into a => simp [SlotOp.isFresh] at hop
  | fresh a =>
    simp only [SlotOp.apply, Option.map_eq_some'] at h
    obtain ⟨r, hr, rfl⟩ := h
    intro v hv
    cases hv
    refine hg.pres a _ _ (hN a rfl) ?_ hr
    cases x with
    | none => exact hc
    | some v0 => exact hx v0 rfl
  | drop =>
    simp only [SlotOp.apply, Option.some.injEq] at h
    subst h
    intro v hv
    cases hv
  | stop => simp [SlotOp.apply] at h

theorem SlotOp.apply_fresh_succ {g : Node → Value → Option Value} {W : Value → Prop}
    {N : Node → Prop} (hg : SlotGood g W N) (c : Value) (hc : W c) (op : SlotOp)
    (hop : op.isFresh = true) (hN : ∀ a, op = SlotOp.fresh a → N a)
    (x1 x2 y1 : Option Value) (hx1 : ∀ v, x1 = some v → W v) (hx2 : ∀ v, x2 = some v → W v)
    (h : op.apply g c x1 = some y1) : ∃ y2, op.apply g c x2 = some y2 := by
  cases op with
  | into a => simp [SlotOp.isFresh] at hop
  | fresh a =>
    simp only [SlotOp.apply, Option.map_eq_some'] at h ⊢
    obtain ⟨r, hr, rfl⟩ := h
    have hw1 : W (x1.getD c) := by
      cases x1 with
      | none => exact hc
      | some v0 => exact hx1 v0 rfl
    have hw2 : W (x2.getD c) := by
      cases x2 with
      | none => exact hc
      | some v0 => exact hx2 v0 rfl
    obtain ⟨r2, hr2⟩ := hg.succ a _ _ r (hN a rfl) hw1 hw2 hr
    exact ⟨some r2, r2, hr2, rfl⟩
  | drop => exact ⟨none, rfl⟩
  | stop => simp [SlotOp.apply] at h

/-- Slot theorem for slots that are constructed and released: the content stays in
`W`. -/
theorem slotFresh_pres {g : Node → Value → Option Value} {W : Value → Prop} {N : Node → Prop}
    (hg : SlotGood g W N) (c : Value) (hc : W c) :
    ∀ (ops : List SlotOp), (∀ op ∈ ops, op.isFresh = true) → (∀ a, SlotOp.fresh a ∈ ops → N a) →
    ∀ (x y : Option Value), (∀ v, x = some v → W v) →
    runOps g c ops x = some y → ∀ v, y = some v → W v := by
  intro ops
  induction ops with
  | nil =>
    intro _ _ x y hx h
    simp only [runOps_nil, Option.some.injEq] at h
    subst h
    exact hx
  | cons op ops ih =>
    intro hall hN x y hx h
    rw [runOps_cons] at h
    cases hop : op.apply g c x with
    | none => simp [hop] at h
    | some x1 =>
      simp only [hop, Option.some_bind] at h
      exact ih (fun o ho => hall o (List.mem_cons_of_mem _ ho))
        (fun a ha => hN a (List.mem_cons_of_mem _ ha)) x1 y
        (SlotOp.apply_fresh_pres hg c hc op (hall op (List.mem_cons_self _ _))
          (fun a ha => hN a (ha ▸ List.mem_cons_self _ _)) x x1 hx hop) h

/-- Slot theorem for slots that are constructed and released: success does not depend
on the content. -/
theorem slotFresh_succ {g : Node → Value → Option Value} {W : Value → Prop} {N : Node → Prop}
    (hg : SlotGood g W N) (c : Value) (hc : W c) :
    ∀ (ops : List SlotOp), (∀ op ∈ ops, op.isFresh = true) → (∀ a, SlotOp.fresh a ∈ ops → N a) →
    ∀ (x1 x2 y1 : Option Value), (∀ v, x1 = some v → W v) → (∀ v, x2 = some v → W v) →
    runOps g c ops x1 = some y1 → ∃ y2, runOps g c ops x2 = some y2 := by
  intro ops
  induction ops with
  | nil => intro _ _ x1 x2 y1 _ _ _; exact ⟨x2, rfl⟩
  | cons op ops ih =>
    intro hall hN x1 x2 y1 hx1 hx2 h
    rw [runOps_cons] at h ⊢
    have hopf := hall op (List.mem_cons_self _ _)
    have hopN : ∀ a, op = SlotOp.fresh a → N a := fun a ha => hN a (ha ▸ List.mem_cons_self _ _)
    cases hop : op.apply g c x1 with
    | none => simp [hop] at h
    | some u1 =>
      simp only [hop, Option.some_bind] at h
      obtain ⟨u2, hu2⟩ := SlotOp.apply_fresh_succ hg c hc op hopf hopN x1 x2 u1 hx1 hx2 hop
      simp only [hu2, Option.some_bind]
      exact ih (fun o ho => hall o (List.mem_cons_of_mem _ ho))
        (fun a ha => hN a (List.mem_cons_of_mem _ ha)) u1 u2 y1
        (SlotOp.apply_fresh_pres hg c hc op hopf hopN x1 u1 hx1 hop)
        (SlotOp.apply_fresh_pres hg c hc op hopf hopN x2 u2 hx2 hu2) h

/-- A sequence that releases the slot at some point gives a result that does not
depend on the content it starts from. -/
theorem slotFresh_const {g : Node → Value → Option Value} {W : Value → Prop} {N : Node → Prop}
    (hg : SlotGood g W N) (c : Value) (hc : W c) :
    ∀ (ops : List SlotOp), (∀ op ∈ ops, op.isFresh = true) → (∀ a, SlotOp.fresh a ∈ ops → N a) →
    SlotOp.drop ∈ ops →
    ∀ (x1 x2 y : Option Value), (∀ v, x1 = some v → W v) → (∀ v, x2 = some v → W v) →
    runOps g c ops x1 = some y → runOps g c ops x2 = some y := by
  intro ops
  induction ops with
  | nil => intro _ _ hd; simp at hd
  | cons op ops ih =>
    intro hall hN hd x1 x2 y hx1 hx2 h
    rw [runOps_cons] at h ⊢
    have hopf := hall op (List.mem_cons_self _ _)
    have hopN : ∀ a, op = SlotOp.fresh a → N a := fun a ha => hN a (ha ▸ List.mem_cons_self _ _)
    have hall' : ∀ o ∈ ops, o.isFresh = true := fun o ho => hall o (List.mem_cons_of_mem _ ho)
    have hN' : ∀ a, SlotOp.fresh a ∈ ops → N a := fun a ha => hN a (List.mem_cons_of_mem _ ha)
    cases hop : op.apply g c x1 with
    | none => simp [hop] at h
    | some u1 =>
      simp only [hop, Option.some_bind] at h
      by_cases hdrop : SlotOp.drop ∈ ops
      · obtain ⟨u2, hu2⟩ := SlotOp.apply_fresh_succ hg c hc op hopf hopN x1 x2 u1 hx1 hx2 hop
        simp only [hu2, Option.some_bind]
        exact ih hall' hN' hdrop u1 u2 y
          (SlotOp.apply_fresh_pres hg c hc op hopf hopN x1 u1 hx1 hop)
          (SlotOp.apply_fresh_pres hg c hc op hopf hopN x2 u2 hx2 hu2) h
      · have hopd : op = SlotOp.drop := by
          rcases List.mem_cons.1 hd with h1 | h1
          · exact h1.symm
          · exact absurd h1 hdrop
        subst hopd
        simp only [SlotOp.apply, Option.some.injEq] at hop
        subst hop
        simp only [SlotOp.apply, Option.some_bind]
        exact h

/-- Closed form of a non-empty sequence of `fresh` operations. -/
theorem runOps_fresh (g : Node → Value → Option Value) (c : Value) :
    ∀ (ops : List SlotOp) (x : Option Value), (∀ op ∈ ops, op.isFresh = true) →
      SlotOp.drop ∉ ops → SlotOp.stop ∉ ops → ops ≠ [] →
      runOps g c ops x = (runSteps g (SlotOp.nodes ops) (x.getD c)).map some := by
  intro ops
  induction ops with
  | nil => intro x _ _ _ hne; exact absurd rfl hne
  | cons op ops ih =>
    intro x hall hdrop hstop _
    have hall' : ∀ o ∈ ops, o.isFresh = true := fun o ho => hall o (List.mem_cons_of_mem _ ho)
    have hdrop' : SlotOp.drop ∉ ops := fun h => hdrop (List.mem_cons_of_mem _ h)
    have hstop' : SlotOp.stop ∉ ops := fun h => hstop (List.mem_cons_of_mem _ h)
    cases op with
    | into a => simpa [SlotOp.isFresh] using hall _ (List.mem_cons_self _ _)
    | fresh a =>
      rw [runOps_cons]
      simp only [SlotOp.apply, SlotOp.nodes, runSteps]
      cases hga : g a (x.getD c) with
      | none => rfl
      | some v1 =>
        simp only [Option.map_some', Option.some_bind]
        cases ops with
        | nil => rfl
        | cons op2 ops2 =>
          rw [ih (some v1) hall' hdrop' hstop' (List.cons_ne_nil _ _)]
          rfl
    | drop => exact absurd (List.mem_cons_self _ _) hdrop
    | stop => exact absurd (List.mem_cons_self _ _) hstop

/-- Slot theorem for slots that are constructed and released: a sequence of
operations that succeeds can be repeated on its result and leaves it unchanged. -/
theorem slotFresh_idem {g : Node → Value → Option Value} {W : Value → Prop} {N : Node → Prop}
    (hg : SlotGood g W N) (c : Value) (hc : W c) (ops : List SlotOp)
    (hall : ∀ op ∈ ops, op.isFresh = true) (hN : ∀ a, SlotOp.fresh a ∈ ops → N a)
    (x y : Option Value) (hx : ∀ v, x = some v → W v)
    (h : runOps g c ops x = some y) : runOps g c ops y = some y := by
  have hy := slotFresh_pres hg c hc ops hall hN x y hx h
  by_cases hdrop : SlotOp.drop ∈ ops
  · exact slotFresh_const hg c hc ops hall hN hdrop x y y hx hy h
  · have hstop := runOps_stop g c ops x y h
    cases hops : ops with
    | nil =>
      subst hops
      rfl
    | cons op ops2 =>
      have hne : ops ≠ [] := by rw [hops]; exact List.cons_ne_nil _ _
      rw [← hops]
      have hnodes : ∀ a ∈ SlotOp.nodes ops, N a := by
        intro a ha
        rcases SlotOp.mem_nodes ha with h1 | h1
        · simpa [SlotOp.isFresh] using hall _ h1
        · exact hN a h1
      rw [runOps_fresh g c ops x hall hdrop hstop hne] at h
      cases hr : runSteps g (SlotOp.nodes ops) (x.getD c) with
      | none => simp [hr] at h
      | some r =>
        simp only [hr, Option.map_some', Option.some.injEq] at h
        subst h
        have hw : W (x.getD c) := by
          cases x with
          | none => exact hc
          | some v0 => exact hx v0 rfl
        rw [runOps_fresh g c ops (some r) hall hdrop hstop hne]
        simp only [Option.getD_some]
        rw [hg.band _ _ r hnodes hw hr]
        rfl

theorem mem_seqOps {ops : Node → Nat → List SlotOp} {i : Nat} {op : SlotOp} :
    ∀ {ns : List Node}, op ∈ seqOps ops i ns → ∃ n ∈ ns, op ∈ ops n i := by
  intro ns
  induction ns with
  | nil => intro h; simp [seqOps] at h
  | cons n ns ih =>
    intro h
    simp only [seqOps, List.mem_append] at h
    rcases h with h | h
    · exact ⟨n, List.mem_cons_self _ _, h⟩
    · obtain ⟨m, hm, hop⟩ := ih h
      exact ⟨m, List.mem_cons_of_mem _ hm, hop⟩

/-- A run of conversions over a storage with slots, seen slot by slot. -/
theorem seq_sound {S : Type} (view : S → Nat → Option Value) (Valid : S → Prop)
    (F : Node → S → Option S) (g : Nat → Node → Value → Option Value) (c : Nat → Value)
    (ops : Node → Nat → List SlotOp) :
    ∀ (ns : List Node),
    (∀ n ∈ ns, ∀ s s', Valid s → F n s = some s' →
      Valid s' ∧ ∀ i, runOps (g i) (c i) (ops n i) (view s i) = some (view s' i)) →
    ∀ s s', Valid s → runSteps F ns s = some s' →
      Valid s' ∧ ∀ i, runOps (g i) (c i) (seqOps ops i ns) (view s i) = some (view s' i) := by
  intro ns
  induction ns with
  | nil =>
    intro _ s s' hs h
    simp only [runSteps, Option.some.injEq] at h
    subst h
    exact ⟨hs, fun i => rfl⟩
  | cons n ns ih =>
    intro hsound s s' hs h
    simp only [runSteps] at h
    cases hF : F n s with
    | none => simp [hF] at h
    | some s1 =>
      simp only [hF, Option.some_bind] at h
      obtain ⟨hs1, hslots1⟩ := hsound n (List.mem_cons_self _ _) s s1 hs hF
      obtain ⟨hs', hslots⟩ := ih (fun m hm => hsound m (List.mem_cons_of_mem _ hm)) s1 s' hs1 h
      refine ⟨hs', fun i => ?_⟩
      simp only [seqOps, runOps_append, hslots1 i, Option.some_bind, hslots i]

/-- A run of conversions over a storage with slots succeeds when it succeeds slot by
slot. -/
theorem seq_succ {S : Type} (view : S → Nat → Option Value) (Valid : S → Prop)
    (F : Node → S → Option S) (g : Nat → Node → Value → Option Value) (c : Nat → Value)
    (ops : Node → Nat → List SlotOp) :
    ∀ (ns : List Node),
    (∀ n ∈ ns, ∀ s s', Valid s → F n s = some s' →
      Valid s' ∧ ∀ i, runOps (g i) (c i) (ops n i) (view s i) = some (view s' i)) →
    (∀ n ∈ ns, ∀ s, Valid s → (∀ i, ∃ y, runOps (g i) (c i) (ops n i) (view s i) = some y) →
      ∃ s', F n s = some s') →
    ∀ s, Valid s → (∀ i, ∃ y, runOps (g i) (c i) (seqOps ops i ns) (view s i) = some y) →
      ∃ s', runSteps F ns s = some s' := by
  intro ns
  induction ns with
  | nil => intro _ _ s _ _; exact ⟨s, rfl⟩
  | cons n ns ih =>
    intro hsound hsucc s hs hslots
    have hfirst : ∀ i, ∃ y, runOps (g i) (c i) (ops n i) (view s i) = some y := by
      intro i
      obtain ⟨y, hy⟩ := hslots i
      simp only [seqOps, runOps_append] at hy
      cases h1 : runOps (g i) (c i) (ops n i) (view s i) with
      | none => simp [h1] at hy
      | some y1 => exact ⟨y1, rfl⟩
    obtain ⟨s1, hF⟩ := hsucc n (List.mem_cons_self _ _) s hs hfirst
    obtain ⟨hs1, hslots1⟩ := hsound n (List.mem_cons_self _ _) s s1 hs hF
    have hrest : ∀ i, ∃ y, runOps (g i) (c i) (seqOps ops i ns) (view s1 i) = some y := by
      intro i
      obtain ⟨y, hy⟩ := hslots i
      simp only [seqOps, runOps_append, hslots1 i, Option.some_bind] at hy
      exact ⟨y, hy⟩
    obtain ⟨s', hs'⟩ := ih (fun m hm => hsound m (List.mem_cons_of_mem _ hm))
      (fun m hm => hsucc m (List.mem_cons_of_mem _ hm)) s1 hs1 hrest
    exact ⟨s', by simp only [runSteps, hF, Option.some_bind, hs']⟩

/-- A run of conversions over a storage with slots can be repeated on its result,
which it leaves unchanged, when that holds of every slot. -/
theorem seq_idem {S : Type} (view : S → Nat → Option Value)
    (hview : ∀ s s', (∀ i, view s i = view s' i) → s = s') (Valid : S → Prop)
    (F : Node → S → Option S) (g : Nat → Node → Value → Option Value) (c : Nat → Value)
    (ops : Node → Nat → List SlotOp) (ns : List Node)
    (hsound : ∀ n ∈ ns, ∀ s s', Valid s → F n s = some s' →
      Valid s' ∧ ∀ i, runOps (g i) (c i) (ops n i) (view s i) = some (view s' i))
    (hsucc : ∀ n ∈ ns, ∀ s, Valid s →
      (∀ i, ∃ y, runOps (g i) (c i) (ops n i) (view s i) = some y) → ∃ s', F n s = some s')
    (hslot : ∀ i s y, Valid s → runOps (g i) (c i) (seqOps ops i ns) (view s i) = some y →
      runOps (g i) (c i) (seqOps ops i ns) y = some y)
    (s s' : S) (hs : Valid s) (h : runSteps F ns s = some s') :
    runSteps F ns s' = some s' := by
  obtain ⟨hs', hslots⟩ := seq_sound view Valid F g c ops ns hsound s s' hs h
  have hagain : ∀ i, runOps (g i) (c i) (seqOps ops i ns) (view s' i) = some (view s' i) :=
    fun i => hslot i s _ hs (hslots i)
  obtain ⟨s'', hs''⟩ := seq_succ view Valid F g c ops ns hsound hsucc s' hs'
    (fun i => ⟨_, hagain i⟩)
  obtain ⟨_, hslots''⟩ := seq_sound view Valid F g c ops ns hsound s' s'' hs' hs''
  have heq : s'' = s' := by
    apply hview
    intro i
    have h1 := hslots'' i
    rw [hagain i] at h1
    exact (Option.some.inj h1).symm
  rw [hs'', heq]

/-- Runs over a wrapped state: when every conversion of wrapped storage returns
wrapped storage, a run over the wrapped storage is the run over the state. -/
theorem runSteps_wrap {S : Type} (wrap : S → Value) (unwrap : Value → Option S)
    (hun : ∀ s, unwrap (wrap s) = some s)
    (g : Node → Value → Option Value)
    (hres : ∀ n s r, g n (wrap s) = some r → ∃ s', r = wrap s') :
    ∀ (ns : List Node) (s : S),
      runSteps g ns (wrap s)
        = (runSteps (fun n s => (g n (wrap s)).bind unwrap) ns s).map wrap := by
  intro ns
  induction ns with
  | nil => intro s; rfl
  | cons n ns ih =>
    intro s
    simp only [runSteps]
    cases hg : g n (wrap s) with
    | none => rfl
    | some r =>
      obtain ⟨s1, rfl⟩ := hres n s r hg
      simp only [Option.some_bind, hun]
      exact ih s1

theorem slotGood_none :
    SlotGood (fun (_ : Node) (_ : Value) => (none : Option Value)) (fun _ => True)
      (fun _ => True) where
  pres := fun a v r _ _ h => by cases h
  succ := fun a v1 v2 r _ _ _ h => by cases h
  band := fun as v r _ _ h => by
    cases as with
    | nil => simp only [runSteps, Option.some.injEq] at h; subst h; rfl
    | cons a as => simp [runSteps] at h

theorem slotGood_of (c : TypeDescriptor → Value) (f : Option (String → Option TypeDescriptor))
    (slotT : Option TypeDescriptor)
    (h : ∀ T, slotT = some T → SlotGood (convStep c f T) (StorageFor T) (NoNarrowing T)) :
    SlotGood (slotConv c f slotT) (SlotStorage slotT) (SlotNode slotT) := by
  cases slotT with
  | none => exact slotGood_none
  | some T => exact h T rfl

/-- The three properties of a descriptor whose storage has slots that are converted
into, from the properties of the slot types. -/
theorem container_good_into {S : Type} (wrap : S → Value) (unwrap : Value → Option S)
    (hun : ∀ s, unwrap (wrap s) = some s)
    (view : S → Nat → Option Value)
    (hview : ∀ s s', (∀ i, view s i = view s' i) → s = s')
    (Shape : S → Prop)
    (G : Node → Value → Option Value) (W : Value → Prop) (N : Node → Prop)
    (g : Nat → Node → Value → Option Value) (Wslot : Nat → Value → Prop)
    (Nslot : Nat → Node → Prop) (ops : Node → Nat → List SlotOp)
    (hW : ∀ v, W v ↔ ∃ s, v = wrap s ∧ Shape s ∧ ∀ i v', view s i = some v' → Wslot i v')
    (hres : ∀ n s r, G n (wrap s) = some r → ∃ s', r = wrap s')
    (hgood : ∀ i, SlotGood (g i) (Wslot i) (Nslot i))
    (hinto : ∀ n i, ∀ op ∈ ops n i, op.isInto = true)
    (hN : ∀ n i a, N n → SlotOp.into a ∈ ops n i → Nslot i a)
    (hpresent : ∀ n i s, Shape s → ops n i ≠ [] → ops n i ≠ [SlotOp.stop] →
      (view s i).isSome = true)
    (hsound : ∀ n s s', N n → Shape s → G n (wrap s) = some (wrap s') →
      Shape s' ∧ ∀ i, runOps (g i) .raw (ops n i) (view s i) = some (view s' i))
    (hsucc : ∀ n s, N n → Shape s →
      (∀ i, ∃ y, runOps (g i) .raw (ops n i) (view s i) = some y) →
      ∃ s', G n (wrap s) = some (wrap s')) :
    SlotGood G W N := by
  -- validity of a state: its shape and the storage of its slots
  have hslotpres : ∀ n s s', N n → Shape s → (∀ i v', view s i = some v' → Wslot i v') →
      G n (wrap s) = some (wrap s') →
      Shape s' ∧ (∀ i v', view s' i = some v' → Wslot i v') ∧
        ∀ i, runOps (g i) .raw (ops n i) (view s i) = some (view s' i) := by
    intro n s s' hn hsh hws hG
    obtain ⟨hsh', hslots⟩ := hsound n s s' hn hsh hG
    refine ⟨hsh', ?_, hslots⟩
    intro i v' hv'
    exact (slotInto_pres (hgood i) .raw (ops n i) (hinto n i) (fun a ha => hN n i a hn ha)
      (view s i) (view s' i) (hws i) (hslots i)).1 v' hv'
  refine ⟨?_, ?_, ?_⟩
  · intro a v r hn hw hG
    obtain ⟨s, rfl, hsh, hws⟩ := (hW v).1 hw
    obtain ⟨s', rfl⟩ := hres a s r hG
    obtain ⟨hsh', hws', _⟩ := hslotpres a s s' hn hsh hws hG
    exact (hW _).2 ⟨s', rfl, hsh', hws'⟩
  · intro a v1 v2 r hn hw1 hw2 hG
    obtain ⟨s1, rfl, hsh1, hws1⟩ := (hW v1).1 hw1
    obtain ⟨s2, rfl, hsh2, hws2⟩ := (hW v2).1 hw2
    obtain ⟨s1', rfl⟩ := hres a s1 r hG
    obtain ⟨_, hslots⟩ := hsound a s1 s1' hn hsh1 hG
    have hall : ∀ i, ∃ y, runOps (g i) .raw (ops a i) (view s2 i) = some y := by
      intro i
      by_cases hnil : ops a i = []
      · rw [hnil]
        exact ⟨_, rfl⟩
      · have hns : ops a i ≠ [SlotOp.stop] := by
          intro hst
          have := hslots i
          rw [hst] at this
          simp [runOps_cons, SlotOp.apply] at this
        exact slotInto_succ (hgood i) .raw (ops a i) (hinto a i)
          (fun b hb => hN a i b hn hb) (view s1 i) (view s2 i) (view s1' i) (hws1 i) (hws2 i)
          (fun _ => hpresent a i s2 hsh2 hnil hns) (hslots i)
    obtain ⟨s2', hs2'⟩ := hsucc a s2 hn hsh2 hall
    exact ⟨_, hs2'⟩
  · intro as v r hn hw hrun
    obtain ⟨s, rfl, hsh, hws⟩ := (hW v).1 hw
    rw [runSteps_wrap wrap unwrap hun G hres as s] at hrun
    cases hF : runSteps (fun n s => (G n (wrap s)).bind unwrap) as s with
    | none => simp [hF] at hrun
    | some s' =>
      simp only [hF, Option.map_some', Option.some.injEq] at hrun
      subst hrun
      have hFG : ∀ n s s', (G n (wrap s)).bind unwrap = some s' → G n (wrap s) = some (wrap s') := by
        intro n s s' h
        cases hG : G n (wrap s) with
        | none => simp [hG] at h
        | some r =>
          obtain ⟨s'', rfl⟩ := hres n s r hG
          simp only [hG, Option.some_bind, hun, Option.some.injEq] at h
          rw [h]
      have hidem := seq_idem view hview
        (fun s => Shape s ∧ ∀ i v', view s i = some v' → Wslot i v')
        (fun n s => (G n (wrap s)).bind unwrap) g (fun _ => Value.raw) ops as
        (fun n hmem s s' hv hF1 => by
          obtain ⟨h1, h2, h3⟩ := hslotpres n s s' (hn n hmem) hv.1 hv.2 (hFG n s s' hF1)
          exact ⟨⟨h1, h2⟩, h3⟩)
        (fun n hmem s hv hsl => by
          obtain ⟨s', hs'⟩ := hsucc n s (hn n hmem) hv.1 hsl
          exact ⟨s', by simp only [hs', Option.some_bind, hun]⟩)
        (fun i s y hv hrun1 =>
          slotInto_idem (hgood i) .raw (seqOps ops i as)
            (fun op hop => by
              obtain ⟨n, _, hop'⟩ := mem_seqOps hop
              exact hinto n i op hop')
            (fun a ha => by
              obtain ⟨n, hmem, hop'⟩ := mem_seqOps ha
              exact hN n i a (hn n hmem) hop')
            (view s i) y (hv.2 i) hrun1)
        s s' ⟨hsh, hws⟩ hF
      rw [runSteps_wrap wrap unwrap hun G hres as s', hidem]
      rfl

/-- The three properties of a descriptor whose storage has slots that are constructed
and released, from the properties of the slot types. -/
theorem container_good_fresh {S : Type} (wrap : S → Value) (unwrap : Value → Option S)
    (hun : ∀ s, unwrap (wrap s) = some s)
    (view : S → Nat → Option Value)
    (hview : ∀ s s', (∀ i, view s i = view s' i) → s = s')
    (Shape : S → Prop)
    (G : Node → Value → Option Value) (W : Value → Prop) (N : Node → Prop)
    (g : Nat → Node → Value → Option Value) (c : Nat → Value) (Wslot : Nat → Value → Prop)
    (Nslot : Nat → Node → Prop) (ops : Node → Nat → List SlotOp)
    (hW : ∀ v, W v ↔ ∃ s, v = wrap s ∧ Shape s ∧ ∀ i v', view s i = some v' → Wslot i v')
    (hres : ∀ n s r, G n (wrap s) = some r → ∃ s', r = wrap s')
    (hgood : ∀ i, SlotGood (g i) (Wslot i) (Nslot i))
    (hc : ∀ i, Wslot i (c i))
    (hfresh : ∀ n i, ∀ op ∈ ops n i, op.isFresh = true)
    (hN : ∀ n i a, N n → SlotOp.fresh a ∈ ops n i → Nslot i a)
    (hsound : ∀ n s s', N n → Shape s → G n (wrap s) = some (wrap s') →
      Shape s' ∧ ∀ i, runOps (g i) (c i) (ops n i) (view s i) = some (view s' i))
    (hsucc : ∀ n s, N n → Shape s →
      (∀ i, ∃ y, runOps (g i) (c i) (ops n i) (view s i) = some y) →
      ∃ s', G n (wrap s) = some (wrap s')) :
    SlotGood G W N := by
  have hslotpres : ∀ n s s', N n → Shape s → (∀ i v', view s i = some v' → Wslot i v') →
      G n (wrap s) = some (wrap s') →
      Shape s' ∧ (∀ i v', view s' i = some v' → Wslot i v') ∧
        ∀ i, runOps (g i) (c i) (ops n i) (view s i) = some (view s' i) := by
    intro n s s' hn hsh hws hG
    obtain ⟨hsh', hslots⟩ := hsound n s s' hn hsh hG
    refine ⟨hsh', ?_, hslots⟩
    intro i v' hv'
    exact slotFresh_pres (hgood i) (c i) (hc i) (ops n i) (hfresh n i)
      (fun a ha => hN n i a hn ha) (view s i) (view s' i) (hws i) (hslots i) v' hv'
  refine ⟨?_, ?_, ?_⟩
  · intro a v r hn hw hG
    obtain ⟨s, rfl, hsh, hws⟩ := (hW v).1 hw
    obtain ⟨s', rfl⟩ := hres a s r hG
    obtain ⟨hsh', hws', _⟩ := hslotpres a s s' hn hsh hws hG
    exact (hW _).2 ⟨s', rfl, hsh', hws'⟩
  · intro a v1 v2 r hn hw1 hw2 hG
    obtain ⟨s1, rfl, hsh1, hws1⟩ := (hW v1).1 hw1
    obtain ⟨s2, rfl, hsh2, hws2⟩ := (hW v2).1 hw2
    obtain ⟨s1', rfl⟩ := hres a s1 r hG
    obtain ⟨_, hslots⟩ := hsound a s1 s1' hn hsh1 hG
    have hall : ∀ i, ∃ y, runOps (g i) (c i) (ops a i) (view s2 i) = some y := by
      intro i
      exact slotFresh_succ (hgood i) (c i) (hc i) (ops a i) (hfresh a i)
        (fun b hb => hN a i b hn hb) (view s1 i) (view s2 i) (view s1' i) (hws1 i) (hws2 i)
        (hslots i)
    obtain ⟨s2', hs2'⟩ := hsucc a s2 hn hsh2 hall
    exact ⟨_, hs2'⟩
  · intro as v r hn hw hrun
    obtain ⟨s, rfl, hsh, hws⟩ := (hW v).1 hw
    rw [runSteps_wrap wrap unwrap hun G hres as s] at hrun
    cases hF : runSteps (fun n s => (G n (wrap s)).bind unwrap) as s with
    | none => simp [hF] at hrun
    | some s' =>
      simp only [hF, Option.map_some', Option.some.injEq] at hrun
      subst hrun
      have hFG : ∀ n s s', (G n (wrap s)).bind unwrap = some s' → G n (wrap s) = some (wrap s') := by
        intro n s s' h
        cases hG : G n (wrap s) with
        | none => simp [hG] at h
        | some r =>
          obtain ⟨s'', rfl⟩ := hres n s r hG
          simp only [hG, Option.some_bind, hun, Option.some.injEq] at h
          rw [h]
      have hidem := seq_idem view hview
        (fun s => Shape s ∧ ∀ i v', view s i = some v' → Wslot i v')
        (fun n s => (G n (wrap s)).bind unwrap) g c ops as
        (fun n hmem s s' hv hF1 => by
          obtain ⟨h1, h2, h3⟩ := hslotpres n s s' (hn n hmem) hv.1 hv.2 (hFG n s s' hF1)
          exact ⟨⟨h1, h2⟩, h3⟩)
        (fun n hmem s hv hsl => by
          obtain ⟨s', hs'⟩ := hsucc n s (hn n hmem) hv.1 hsl
          exact ⟨s', by simp only [hs', Option.some_bind, hun]⟩)
        (fun i s y hv hrun1 =>
          slotFresh_idem (hgood i) (c i) (hc i) (seqOps ops i as)
            (fun op hop => by
              obtain ⟨n, _, hop'⟩ := mem_seqOps hop
              exact hfresh n i op hop')
            (fun a ha => by
              obtain ⟨n, hmem, hop'⟩ := mem_seqOps ha
              exact hN n i a (hn n hmem) hop')
            (view s i) y (hv.2 i) hrun1)
        s s' ⟨hsh, hws⟩ hF
      rw [runSteps_wrap wrap unwrap hun G hres as s', hidem]
      rfl

theorem storageFor_struct_iff (fixedSize : Nat) (name : String) (members : List Member)
    (v : Value) :
    StorageFor (.struct fixedSize name members) v ↔
      ∃ vals : List Value, v = .struct vals ∧ vals.length = members.length ∧
        ∀ (i : Nat) (v' : Value), vals[i]? = some v' →
          SlotStorage ((members[i]?).map Member.type) v' := by
  constructor
  · intro h
    cases h with
    | struct _ _ _ vals hlen hall =>
      refine ⟨vals, rfl, hlen, ?_⟩
      intro i v' hv'
      have hi : i < members.length := by
        by_contra hcon
        rw [List.getElem?_eq_none (by omega)] at hv'
        cases hv'
      rw [List.getElem?_eq_getElem hi]
      exact hall i _ v' (List.getElem?_eq_getElem hi) hv'
  · rintro ⟨vals, rfl, hlen, hall⟩
    refine StorageFor.struct _ _ _ _ hlen ?_
    intro k m v hm hv
    have := hall k v hv
    rw [hm] at this
    exact this

theorem convStep_struct_ok (c : TypeDescriptor → Value)
    (f : Option (String → Option TypeDescriptor)) (fixedSize : Nat) (name : String)
    (members : List Member) (aNode : Node) (vals : List Value) (r : Value) :
    convStep c f (.struct fixedSize name members) aNode (.struct vals) = some r ↔
      aNode.isObject = true ∧ ∃ vals', r = .struct vals' ∧
        forEach (structBody (convertFrom c f) aNode) members.enum vals = .ok vals' := by
  unfold convStep
  rw [Outcome.toOption_eq_some, convertFrom_struct]
  cases hobj : aNode.isObject
  · simp
  · simp only [Bool.not_true, Bool.false_eq_true, ↓reduceIte, Value.structMembers, true_and]
    constructor
    · intro h
      obtain ⟨vals', hl, rfl⟩ := finishLoop_ok h
      exact ⟨vals', rfl, hl⟩
    · rintro ⟨vals', rfl, hl⟩
      rw [hl]
      rfl

theorem good_struct (c : TypeDescriptor → Value) (f : Option (String → Option TypeDescriptor))
    (fixedSize : Nat) (name : String) (members : List Member)
    (ih : ∀ m ∈ members, GoodType c f m.type) :
    GoodType c f (.struct fixedSize name members) := by
  intro hcons
  have hcm : ∀ m ∈ members, Constructs c m.type := by
    cases hcons with
    | struct _ _ _ h => exact h
  refine container_good_into Value.struct Value.structMembers (fun s => rfl)
    (fun (vals : List Value) i => vals[i]?) (fun s s' h => List.ext_getElem? h)
    (fun vals => vals.length = members.length)
    _ _ _
    (fun k => slotConv c f ((members[k]?).map Member.type))
    (fun k => SlotStorage ((members[k]?).map Member.type))
    (fun k => SlotNode ((members[k]?).map Member.type))
    (structOps members)
    (storageFor_struct_iff fixedSize name members) ?_ ?_ ?_ ?_ ?_ ?_ ?_
  · -- results are struct storage
    intro n s r h
    obtain ⟨_, vals', rfl, _⟩ := (convStep_struct_ok c f fixedSize name members n s r).1 h
    exact ⟨vals', rfl⟩
  · -- the slot types are good
    intro k
    apply slotGood_of
    intro T hT
    simp only [Option.map_eq_some'] at hT
    obtain ⟨m, hm, rfl⟩ := hT
    exact ih m (List.getElem?_mem hm) (hcm m (List.getElem?_mem hm))
  · -- the operations
    intro n k op hop
    unfold structOps at hop
    split at hop
    · split at hop
      · simp at hop
      · split at hop
        · simp at hop
        · simp only [List.mem_singleton] at hop
          subst hop
          rfl
    · simp only [List.mem_singleton] at hop
      subst hop
      rfl
  · -- the nodes
    intro n k a hn hop
    unfold structOps at hop
    split at hop
    · split at hop
      · simp at hop
      · rename_i m hm
        split at hop
        · simp at hop
        · rename_i aMember hg
          simp only [List.mem_singleton, SlotOp.into.injEq] at hop
          subst hop
          rw [hm]
          cases hn with
          | struct _ _ _ _ h => exact h m (List.getElem?_mem hm) a hg
    · simp at hop
  · -- a slot that is converted into exists
    intro n k s hsh hne hns
    unfold structOps at hne hns
    split at hne
    · split at hne
      · exact absurd rfl hne
      · rename_i m hm
        have hk : k < members.length := by
          by_contra hcon
          rw [List.getElem?_eq_none (by omega)] at hm
          cases hm
        show (s[k]?).isSome = true
        rw [List.getElem?_eq_getElem (by omega)]
        rfl
    · rename_i hobj
      simp only [hobj] at hns
      exact absurd rfl hns
  · -- soundness
    intro n s s' hn hsh h
    obtain ⟨hobj, vals', hr, hl⟩ := (convStep_struct_ok c f fixedSize name members n s _).1 h
    cases hr
    rw [List.enum] at hl
    obtain ⟨hlen, _, hchar⟩ := forEach_structBody_ok (convertFrom c f) n members 0 s s' hl
    refine ⟨hlen.trans hsh, ?_⟩
    intro k
    show runOps _ _ (structOps members n k) s[k]? = some s'[k]?
    unfold structOps
    simp only [hobj, ↓reduceIte]
    cases hm : members[k]? with
    | none =>
      have hk : members.length ≤ k := by
        by_contra hcon
        rw [List.getElem?_eq_getElem (by omega)] at hm
        cases hm
      simp only [runOps_nil]
      rw [List.getElem?_eq_none (by omega), List.getElem?_eq_none (by omega)]
    | some m =>
      simp only []
      obtain ⟨habs, hpre⟩ := hchar k m hm
      simp only [Nat.zero_add] at habs hpre
      cases hg : n.get m.name with
      | none =>
        simp only [runOps_nil]
        rw [habs hg]
      | some a =>
        simp only []
        obtain ⟨v, v', hv, hc, hv'⟩ := hpre a hg
        rw [hv, hv', runOps_cons]
        simp only [SlotOp.apply, slotConv, Option.map_some', convStep, hc, Outcome.toOption,
          Option.some_bind, runOps_nil]
  · -- success
    intro n s hn hsh hall
    have hobj : n.isObject = true := by
      by_contra hcon
      obtain ⟨y, hy⟩ := hall 0
      unfold structOps at hy
      simp only [hcon, Bool.false_eq_true, ↓reduceIte, runOps_cons, SlotOp.apply,
        Option.none_bind] at hy
      cases hy
    obtain ⟨vals', hl⟩ := forEach_structBody_exists (convertFrom c f) n members 0 s (by
      intro k m a hm hg
      obtain ⟨y, hy⟩ := hall k
      unfold structOps at hy
      simp only [hobj, ↓reduceIte, hm, hg, runOps_cons, Nat.zero_add] at hy ⊢
      cases hv : s[k]? with
      | none => simp [hv, SlotOp.apply] at hy
      | some v =>
        simp only [hv, SlotOp.apply, slotConv, Option.map_some', convStep] at hy
        cases hc : convertFrom c f m.type v a with
        | ok v' => exact ⟨v, v', rfl, hc⟩
        | fail e v' => simp [hc, Outcome.toOption] at hy
        | undefined => simp [hc, Outcome.toOption] at hy)
    refine ⟨vals', (convStep_struct_ok c f fixedSize name members n s _).2 ⟨hobj, vals', rfl, ?_⟩⟩
    rw [List.enum]
    exact hl

theorem storageFor_fixedArray_iff (fixedSize : Nat) (itemType : TypeDescriptor)
    (numItems : Nat) (v : Value) :
    StorageFor (.fixedArray fixedSize itemType numItems) v ↔
      ∃ vals : List Value, v = .fixedArray vals ∧ vals.length = numItems ∧
        ∀ (i : Nat) (v' : Value), vals[i]? = some v' → SlotStorage (some itemType) v' := by
  constructor
  · intro h
    cases h with
    | fixedArray _ _ _ vals hlen hall => exact ⟨vals, rfl, hlen, hall⟩
  · rintro ⟨vals, rfl, hlen, hall⟩
    exact StorageFor.fixedArray _ _ _ _ hlen hall

theorem storageFor_array_iff (fixedSize : Nat) (itemType : TypeDescriptor) (v : Value) :
    StorageFor (.array fixedSize itemType) v ↔
      ∃ vals : List Value, v = .array vals ∧ True ∧
        ∀ (i : Nat) (v' : Value), vals[i]? = some v' → SlotStorage (some itemType) v' := by
  constructor
  · intro h
    cases h with
    | array _ _ vals hall => exact ⟨vals, rfl, trivial, hall⟩
  · rintro ⟨vals, rfl, _, hall⟩
    exact StorageFor.array _ _ _ hall

theorem convStep_fixedArray_ok (c : TypeDescriptor → Value)
    (f : Option (String → Option TypeDescriptor)) (fixedSize : Nat) (itemType : TypeDescriptor)
    (numItems : Nat) (aNode : Node) (vals : List Value) (r : Value) :
    convStep c f (.fixedArray fixedSize itemType numItems) aNode (.fixedArray vals) = some r ↔
      aNode.isArray = true ∧ ∃ vals', r = .fixedArray vals' ∧
        forEach (itemBody .fixedArray (convertFrom c f) itemType aNode.arrayItems)
          (List.range' 0 numItems) vals = .ok vals' := by
  unfold convStep
  rw [Outcome.toOption_eq_some, convertFrom_fixedArray]
  cases hobj : aNode.isArray
  · simp
  · simp only [Bool.not_true, Bool.false_eq_true, ↓reduceIte, Value.fixedArrayItems, true_and,
      indexRange_zero]
    constructor
    · intro h
      obtain ⟨vals', hl, rfl⟩ := finishLoop_ok h
      exact ⟨vals', rfl, hl⟩
    · rintro ⟨vals', rfl, hl⟩
      rw [hl]
      rfl

theorem convStep_array_ok (c : TypeDescriptor → Value)
    (f : Option (String → Option TypeDescriptor)) (fixedSize : Nat) (itemType : TypeDescriptor)
    (aNode : Node) (vals : List Value) (r : Value) :
    convStep c f (.array fixedSize itemType) aNode (.array vals) = some r ↔
      aNode.isArray = true ∧ ∃ vals', r = .array vals' ∧
        forEach (itemBody .array (convertFrom c f) itemType aNode.arrayItems)
          (List.range' 0 aNode.arrayItems.length)
          (vals.take aNode.arrayItems.length
            ++ List.replicate (aNode.arrayItems.length - vals.length) (c itemType))
          = .ok vals' := by
  unfold convStep
  rw [Outcome.toOption_eq_some, convertFrom_array]
  cases hobj : aNode.isArray
  · simp
  · simp only [Bool.not_true, Bool.false_eq_true, ↓reduceIte, Value.arrayItems, true_and,
      indexRange_zero]
    constructor
    · intro h
      obtain ⟨vals', hl, rfl⟩ := finishLoop_ok h
      exact ⟨vals', rfl, hl⟩
    · rintro ⟨vals', rfl, hl⟩
      rw [hl]
      rfl

theorem getElem?_resized (vals : List Value) (n i : Nat) (fresh : Value) (hi : i < n) :
    (vals.take n ++ List.replicate (n - vals.length) fresh)[i]? = some (vals[i]?.getD fresh) := by
  by_cases h2 : i < vals.length
  · rw [List.getElem?_append_left (by simp; omega), List.getElem?_take, if_pos hi,
      List.getElem?_eq_getElem h2]
    rfl
  · rw [List.getElem?_append_right (by simp; omega), List.getElem?_replicate,
      List.getElem?_eq_none (by omega)]
    simp
    omega

theorem good_fixedArray (c : TypeDescriptor → Value)
    (f : Option (String → Option TypeDescriptor))
    (fixedSize : Nat) (itemType : TypeDescriptor) (numItems : Nat)
    (ih : GoodType c f itemType) :
    GoodType c f (.fixedArray fixedSize itemType numItems) := by
  intro hcons
  have hci : Constructs c itemType := by
    cases hcons with
    | fixedArray _ _ _ h => exact h
  refine container_good_into Value.fixedArray Value.fixedArrayItems (fun s => rfl)
    (fun (vals : List Value) i => vals[i]?) (fun s s' h => List.ext_getElem? h)
    (fun vals => vals.length = numItems)
    _ _ _
    (fun _ => slotConv c f (some itemType))
    (fun _ => SlotStorage (some itemType))
    (fun _ => SlotNode (some itemType))
    (fixedArrayOps numItems)
    (storageFor_fixedArray_iff fixedSize itemType numItems) ?_ ?_ ?_ ?_ ?_ ?_ ?_
  · intro n s r h
    obtain ⟨_, vals', rfl, _⟩ := (convStep_fixedArray_ok c f fixedSize itemType numItems n s r).1 h
    exact ⟨vals', rfl⟩
  · intro _
    exact ih hci
  · intro n i op hop
    unfold fixedArrayOps at hop
    split at hop
    · split at hop
      · split at hop
        · simp only [List.mem_singleton] at hop
          subst hop
          rfl
        · simp only [List.mem_singleton] at hop
          subst hop
          rfl
      · simp at hop
    · simp only [List.mem_singleton] at hop
      subst hop
      rfl
  · intro n i a hn hop
    unfold fixedArrayOps at hop
    split at hop
    · split at hop
      · rename_i hi
        split at hop
        · rename_i aItem hg
          simp only [List.mem_singleton, SlotOp.into.injEq] at hop
          subst hop
          cases hn with
          | fixedArray _ _ _ _ h => exact h i a hi hg
        · simp at hop
      · simp at hop
    · simp at hop
  · intro n i s hsh hne hns
    show (s[i]?).isSome = true
    unfold fixedArrayOps at hne hns
    split at hne
    · split at hne
      · rename_i hi
        rw [List.getElem?_eq_getElem (by omega)]
        rfl
      · exact absurd rfl hne
    · rename_i hobj
      simp only [hobj] at hns
      exact absurd rfl hns
  · intro n s s' hn hsh h
    obtain ⟨hobj, vals', hr, hl⟩ :=
      (convStep_fixedArray_ok c f fixedSize itemType numItems n s _).1 h
    cases hr
    obtain ⟨hlen, _, hframe, hchar⟩ :=
      forEach_itemBody_ok _ (convertFrom c f) itemType n.arrayItems numItems 0 s s' hl
    refine ⟨hlen.trans hsh, ?_⟩
    intro i
    show runOps _ _ (fixedArrayOps numItems n i) s[i]? = some s'[i]?
    unfold fixedArrayOps
    simp only [hobj, ↓reduceIte]
    by_cases hi : i < numItems
    · obtain ⟨a, v, v', ha, hv, hc, hv'⟩ := hchar i (by omega) (by omega)
      simp only [hi, ↓reduceIte, ha, hv, hv', runOps_cons, SlotOp.apply, slotConv, convStep, hc,
        Outcome.toOption, Option.map_some', Option.some_bind, runOps_nil]
    · simp only [hi, ↓reduceIte, runOps_nil]
      rw [hframe i (by omega)]
  · intro n s hn hsh hall
    have hobj : n.isArray = true := by
      by_contra hcon
      obtain ⟨y, hy⟩ := hall 0
      unfold fixedArrayOps at hy
      simp only [hcon, Bool.false_eq_true, ↓reduceIte, runOps_cons, SlotOp.apply,
        Option.none_bind] at hy
      cases hy
    obtain ⟨vals', hl⟩ := forEach_itemBody_exists .fixedArray (convertFrom c f) itemType
      n.arrayItems numItems 0 s (by
      intro i _ hi
      have hi' : i < numItems := by omega
      obtain ⟨y, hy⟩ := hall i
      unfold fixedArrayOps at hy
      simp only [hobj, ↓reduceIte, hi', runOps_cons] at hy
      cases ha : n.arrayItems[i]? with
      | none => simp [ha, runOps_cons, SlotOp.apply] at hy
      | some a =>
        simp only [ha] at hy
        cases hv : s[i]? with
        | none => simp [hv, runOps_cons, SlotOp.apply] at hy
        | some v =>
          simp only [hv, runOps_cons, SlotOp.apply, slotConv, convStep] at hy
          cases hc : convertFrom c f itemType v a with
          | ok v' => exact ⟨a, v, v', rfl, rfl, hc⟩
          | fail e v' => simp [hc, Outcome.toOption] at hy
          | undefined => simp [hc, Outcome.toOption] at hy)
    exact ⟨vals', (convStep_fixedArray_ok c f fixedSize itemType numItems n s _).2
      ⟨hobj, vals', rfl, hl⟩⟩

theorem good_array (c : TypeDescriptor → Value) (f : Option (String → Option TypeDescriptor))
    (fixedSize : Nat) (itemType : TypeDescriptor)
    (ih : GoodType c f itemType) :
    GoodType c f (.array fixedSize itemType) := by
  intro hcons
  have hci : StorageFor itemType (c itemType) ∧ Constructs c itemType := by
    cases hcons with
    | array _ _ h1 h2 => exact ⟨h1, h2⟩
  refine container_good_fresh Value.array Value.arrayItems (fun s => rfl)
    (fun (vals : List Value) i => vals[i]?) (fun s s' h => List.ext_getElem? h)
    (fun _ => True)
    _ _ _
    (fun _ => slotConv c f (some itemType))
    (fun _ => c itemType)
    (fun _ => SlotStorage (some itemType))
    (fun _ => SlotNode (some itemType))
    arrayOps
    (storageFor_array_iff fixedSize itemType) ?_ ?_ ?_ ?_ ?_ ?_ ?_
  · intro n s r h
    obtain ⟨_, vals', rfl, _⟩ := (convStep_array_ok c f fixedSize itemType n s r).1 h
    exact ⟨vals', rfl⟩
  · intro _
    exact ih hci.2
  · intro _
    exact hci.1
  · intro n i op hop
    unfold arrayOps at hop
    split at hop
    · split at hop
      · simp only [List.mem_singleton] at hop
        subst hop
        rfl
      · simp only [List.mem_singleton] at hop
        subst hop
        rfl
    · simp only [List.mem_singleton] at hop
      subst hop
      rfl
  · intro n i a hn hop
    unfold arrayOps at hop
    split at hop
    · split at hop
      · rename_i aItem hg
        simp only [List.mem_singleton, SlotOp.fresh.injEq] at hop
        subst hop
        cases hn with
        | array _ _ _ h => exact h i a hg
      · simp at hop
    · simp at hop
  · intro n s s' hn _ h
    obtain ⟨hobj, vals', hr, hl⟩ := (convStep_array_ok c f fixedSize itemType n s _).1 h
    cases hr
    obtain ⟨hlen, _, _, hchar⟩ :=
      forEach_itemBody_ok _ (convertFrom c f) itemType n.arrayItems n.arrayItems.length 0 _ s' hl
    have hlen' : s'.length = n.arrayItems.length := by
      rw [hlen]
      simp only [List.length_append, List.length_take, List.length_replicate]
      omega
    refine ⟨trivial, ?_⟩
    intro i
    show runOps _ _ (arrayOps n i) s[i]? = some s'[i]?
    unfold arrayOps
    simp only [hobj, ↓reduceIte]
    by_cases hi : i < n.arrayItems.length
    · obtain ⟨a, v, v', ha, hv, hc, hv'⟩ := hchar i (by omega) (by omega)
      rw [getElem?_resized _ _ _ _ hi] at hv
      cases hv
      simp only [ha, hv', runOps_cons, SlotOp.apply, slotConv, convStep, hc,
        Outcome.toOption, Option.map_some', Option.some_bind, runOps_nil]
    · rw [List.getElem?_eq_none (by omega : n.arrayItems.length ≤ i),
        List.getElem?_eq_none (by omega : s'.length ≤ i)]
      rfl
  · intro n s hn _ hall
    have hobj : n.isArray = true := by
      by_contra hcon
      obtain ⟨y, hy⟩ := hall 0
      unfold arrayOps at hy
      simp only [hcon, Bool.false_eq_true, ↓reduceIte, runOps_cons, SlotOp.apply,
        Option.none_bind] at hy
      cases hy
    obtain ⟨vals', hl⟩ := forEach_itemBody_exists .array (convertFrom c f) itemType
      n.arrayItems n.arrayItems.length 0
      (s.take n.arrayItems.length
        ++ List.replicate (n.arrayItems.length - s.length) (c itemType)) (by
      intro i _ hi
      have hi' : i < n.arrayItems.length := by omega
      obtain ⟨y, hy⟩ := hall i
      unfold arrayOps at hy
      simp only [hobj, ↓reduceIte, runOps_cons, List.getElem?_eq_getElem hi', SlotOp.apply,
        slotConv, convStep] at hy
      rw [getElem?_resized _ _ _ _ hi']
      cases hc : convertFrom c f itemType (s[i]?.getD (c itemType)) n.arrayItems[i] with
      | ok v' => exact ⟨_, _, v', List.getElem?_eq_getElem hi', rfl, hc⟩
      | fail e v' => simp [hc, Outcome.toOption] at hy
      | undefined => simp [hc, Outcome.toOption] at hy)
    exact ⟨vals', (convStep_array_ok c f fixedSize itemType n s _).2 ⟨hobj, vals', rfl, hl⟩⟩

theorem mem_identifierOps {aNode : Node} {i : Nat} {op : SlotOp} :
    ∀ {identifiers : List Identifier}, op ∈ identifierOps aNode i identifiers →
      ∃ identifier ∈ identifiers, identifier.value = i ∧
        ∃ a, aNode.get identifier.name = some a ∧ op = .into a := by
  intro identifiers
  induction identifiers with
  | nil => intro h; simp [identifierOps] at h
  | cons identifier rest ih =>
    intro h
    simp only [identifierOps, List.mem_append] at h
    rcases h with h | h
    · split at h
      · rename_i hv
        split at h
        · rename_i a hg
          simp only [List.mem_singleton] at h
          exact ⟨identifier, List.mem_cons_self _ _, hv, a, hg, h⟩
        · simp at h
      · simp at h
    · obtain ⟨x, hx, hrest⟩ := ih h
      exact ⟨x, List.mem_cons_of_mem _ hx, hrest⟩

theorem forEach_enumIndexedBody_slots (conv : TypeDescriptor → Value → Node → Outcome)
    (aNode : Node) (itemType : TypeDescriptor) (c : Value) :
    ∀ (identifiers : List Identifier) (vals vals' : List Value),
    forEach (enumIndexedBody conv aNode itemType) identifiers vals = .ok vals' →
    vals'.length = vals.length ∧
    ∀ i : Nat, runOps (fun a v => (conv itemType v a).toOption) c
      (identifierOps aNode i identifiers) vals[i]? = some vals'[i]? := by
  intro identifiers
  induction identifiers with
  | nil =>
    intro vals vals' h
    simp only [forEach, Except.ok.injEq] at h
    subst h
    exact ⟨rfl, fun i => rfl⟩
  | cons identifier rest ih =>
    intro vals vals' h
    simp only [forEach] at h
    cases hb : enumIndexedBody conv aNode itemType identifier vals with
    | error e => simp [hb] at h
    | ok vals1 =>
      simp only [hb] at h
      obtain ⟨hlen, hslots⟩ := ih vals1 vals' h
      rcases enumIndexedBody_ok hb with ⟨hg, rfl⟩ | ⟨a, v, v', hg, hv, hc, rfl⟩
      · refine ⟨hlen, fun i => ?_⟩
        simp only [identifierOps, hg, ite_self, List.nil_append]
        exact hslots i
      · refine ⟨by rw [hlen, List.length_set], fun i => ?_⟩
        simp only [identifierOps, hg, runOps_append]
        by_cases hi : identifier.value = i
        · subst hi
          have hlt : identifier.value < vals.length := by
            by_contra hcon
            rw [List.getElem?_eq_none (by omega)] at hv
            cases hv
          have := hslots identifier.value
          rw [List.getElem?_set_self hlt] at this
          have hc' : (conv itemType v a).toOption = some v' := by rw [hc]; rfl
          simp only [↓reduceIte, hv, runOps_cons, SlotOp.apply, hc',
            Option.map_some', Option.some_bind, runOps_nil, this]
        · have := hslots i
          rw [List.getElem?_set_ne hi] at this
          simp only [hi, ↓reduceIte, runOps_nil, Option.some_bind, this]

theorem forEach_enumIndexedBody_exists (conv : TypeDescriptor → Value → Node → Outcome)
    (aNode : Node) (itemType : TypeDescriptor) (c : Value) :
    ∀ (identifiers : List Identifier) (vals : List Value),
    (∀ i : Nat, ∃ y, runOps (fun a v => (conv itemType v a).toOption) c
      (identifierOps aNode i identifiers) vals[i]? = some y) →
    ∃ vals', forEach (enumIndexedBody conv aNode itemType) identifiers vals = .ok vals' := by
  intro identifiers
  induction identifiers with
  | nil => intro vals _; exact ⟨vals, rfl⟩
  | cons identifier rest ih =>
    intro vals hall
    simp only [forEach]
    cases hg : aNode.get identifier.name with
    | none =>
      have hb : enumIndexedBody conv aNode itemType identifier vals = .ok vals := by
        unfold enumIndexedBody
        rw [hg]
      rw [hb]
      apply ih vals
      intro i
      obtain ⟨y, hy⟩ := hall i
      simp only [identifierOps, hg, ite_self, List.nil_append] at hy
      exact ⟨y, hy⟩
    | some a =>
      obtain ⟨y, hy⟩ := hall identifier.value
      simp only [identifierOps, hg, ↓reduceIte, runOps_append, runOps_cons] at hy
      cases hv : vals[identifier.value]? with
      | none => simp [hv, SlotOp.apply] at hy
      | some v =>
        cases hc : conv itemType v a with
        | fail e v' => simp [hv, SlotOp.apply, hc, Outcome.toOption] at hy
        | undefined => simp [hv, SlotOp.apply, hc, Outcome.toOption] at hy
        | ok v' =>
          have hc' : (conv itemType v a).toOption = some v' := by rw [hc]; rfl
          simp only [hv, SlotOp.apply, hc', Option.map_some', Option.some_bind,
            runOps_nil] at hy
          have hb : enumIndexedBody conv aNode itemType identifier vals
              = .ok (vals.set identifier.value v') := by
            unfold enumIndexedBody
            simp only [hg, hv, hc, storeItem]
          rw [hb]
          have hlt : identifier.value < vals.length := by
            by_contra hcon
            rw [List.getElem?_eq_none (by omega)] at hv
            cases hv
          apply ih
          intro i
          by_cases hi : identifier.value = i
          · subst hi
            rw [List.getElem?_set_self hlt]
            exact ⟨y, hy⟩
          · obtain ⟨y2, hy2⟩ := hall i
            simp only [identifierOps, hi, ↓reduceIte, List.nil_append] at hy2
            rw [List.getElem?_set_ne hi]
            exact ⟨y2, hy2⟩

theorem storageFor_enumIndexedArray_iff (fixedSize : Nat) (itemType : TypeDescriptor)
    (identifiers : List Identifier) (v : Value) :
    StorageFor (.enumIndexedArray fixedSize itemType identifiers) v ↔
      ∃ vals : List Value, v = .enumIndexedArray vals ∧
        (∀ identifier ∈ identifiers, identifier.value < vals.length) ∧
        ∀ (i : Nat) (v' : Value), vals[i]? = some v' → SlotStorage (some itemType) v' := by
  constructor
  · intro h
    cases h with
    | enumIndexedArray _ _ _ vals hlen hall => exact ⟨vals, rfl, hlen, hall⟩
  · rintro ⟨vals, rfl, hlen, hall⟩
    exact StorageFor.enumIndexedArray _ _ _ _ hlen hall

theorem convStep_enumIndexedArray_ok (c : TypeDescriptor → Value)
    (f : Option (String → Option TypeDescriptor)) (fixedSize : Nat) (itemType : TypeDescriptor)
    (identifiers : List Identifier) (aNode : Node) (vals : List Value) (r : Value) :
    convStep c f (.enumIndexedArray fixedSize itemType identifiers) aNode
        (.enumIndexedArray vals) = some r ↔
      aNode.isObject = true ∧ ∃ vals', r = .enumIndexedArray vals' ∧
        forEach (enumIndexedBody (convertFrom c f) aNode itemType) identifiers vals
          = .ok vals' := by
  unfold convStep
  rw [Outcome.toOption_eq_some, convertFrom_enumIndexedArray]
  cases hobj : aNode.isObject
  · simp
  · simp only [Bool.not_true, Bool.false_eq_true, ↓reduceIte, Value.enumIndexedItems, true_and]
    constructor
    · intro h
      obtain ⟨vals', hl, rfl⟩ := finishLoop_ok h
      exact ⟨vals', rfl, hl⟩
    · rintro ⟨vals', rfl, hl⟩
      rw [hl]
      rfl

theorem good_enumIndexedArray (c : TypeDescriptor → Value)
    (f : Option (String → Option TypeDescriptor))
    (fixedSize : Nat) (itemType : TypeDescriptor) (identifiers : List Identifier)
    (ih : GoodType c f itemType) :
    GoodType c f (.enumIndexedArray fixedSize itemType identifiers) := by
  intro hcons
  have hci : Constructs c itemType := by
    cases hcons with
    | enumIndexedArray _ _ _ h => exact h
  refine container_good_into Value.enumIndexedArray Value.enumIndexedItems (fun s => rfl)
    (fun (vals : List Value) i => vals[i]?) (fun s s' h => List.ext_getElem? h)
    (fun vals => ∀ identifier ∈ identifiers, identifier.value < vals.length)
    _ _ _
    (fun _ => slotConv c f (some itemType))
    (fun _ => SlotStorage (some itemType))
    (fun _ => SlotNode (some itemType))
    (enumIndexedOps identifiers)
    (storageFor_enumIndexedArray_iff fixedSize itemType identifiers) ?_ ?_ ?_ ?_ ?_ ?_ ?_
  · intro n s r h
    obtain ⟨_, vals', rfl, _⟩ :=
      (convStep_enumIndexedArray_ok c f fixedSize itemType identifiers n s r).1 h
    exact ⟨vals', rfl⟩
  · intro _
    exact ih hci
  · intro n i op hop
    unfold enumIndexedOps at hop
    split at hop
    · obtain ⟨_, _, _, a, _, rfl⟩ := mem_identifierOps hop
      rfl
    · simp only [List.mem_singleton] at hop
      subst hop
      rfl
  · intro n i a hn hop
    unfold enumIndexedOps at hop
    split at hop
    · obtain ⟨identifier, hmem, _, b, hg, hb⟩ := mem_identifierOps hop
      cases hb
      cases hn with
      | enumIndexedArray _ _ _ _ h => exact h identifier hmem a hg
    · simp at hop
  · intro n i s hsh hne hns
    show (s[i]?).isSome = true
    unfold enumIndexedOps at hne hns
    split at hne
    · cases hops : identifierOps n i identifiers with
      | nil => exact absurd hops hne
      | cons op rest =>
        have hmem : op ∈ identifierOps n i identifiers := by
          rw [hops]
          exact List.mem_cons_self _ _
        obtain ⟨identifier, hid, hv, _⟩ := mem_identifierOps hmem
        have := hsh identifier hid
        rw [List.getElem?_eq_getElem (by omega)]
        rfl
    · rename_i hobj
      simp only [hobj] at hns
      exact absurd rfl hns
  · intro n s s' hn hsh h
    obtain ⟨hobj, vals', hr, hl⟩ :=
      (convStep_enumIndexedArray_ok c f fixedSize itemType identifiers n s _).1 h
    cases hr
    obtain ⟨hlen, hslots⟩ :=
      forEach_enumIndexedBody_slots (convertFrom c f) n itemType .raw identifiers s s' hl
    refine ⟨fun identifier hid => by rw [hlen]; exact hsh identifier hid, ?_⟩
    intro i
    show runOps _ _ (enumIndexedOps identifiers n i) s[i]? = some s'[i]?
    unfold enumIndexedOps
    simp only [hobj, ↓reduceIte]
    exact hslots i
  · intro n s hn hsh hall
    have hobj : n.isObject = true := by
      by_contra hcon
      obtain ⟨y, hy⟩ := hall 0
      unfold enumIndexedOps at hy
      simp only [hcon, Bool.false_eq_true, ↓reduceIte, runOps_cons, SlotOp.apply,
        Option.none_bind] at hy
      cases hy
    obtain ⟨vals', hl⟩ := forEach_enumIndexedBody_exists (convertFrom c f) n itemType .raw
      identifiers s (by
      intro i
      obtain ⟨y, hy⟩ := hall i
      unfold enumIndexedOps at hy
      simp only [hobj, ↓reduceIte] at hy
      exact ⟨y, hy⟩)
    exact ⟨vals', (convStep_enumIndexedArray_ok c f fixedSize itemType identifiers n s _).2
      ⟨hobj, vals', rfl, hl⟩⟩

theorem runOps_fresh_single (g : Node → Value → Option Value) (c : Value) (a : Node)
    (x : Option Value) : runOps g c [.fresh a] x = (g a (x.getD c)).map some := by
  rw [runOps_cons]
  simp only [SlotOp.apply]
  cases g a (x.getD c) <;> rfl

theorem findStateFrom_getElem (stateName : String) :
    ∀ (states : List State) (j i : Nat) (state : State),
    findStateFrom stateName j states = some (i, state) →
    j ≤ i ∧ states[i - j]? = some state := by
  intro states
  induction states with
  | nil => intro j i state h; simp [findStateFrom] at h
  | cons s rest ih =>
    intro j i state h
    simp only [findStateFrom] at h
    split at h
    · simp only [Option.some.injEq, Prod.mk.injEq] at h
      obtain ⟨rfl, rfl⟩ := h
      simp
    · obtain ⟨hle, hget⟩ := ih _ _ _ h
      refine ⟨by omega, ?_⟩
      have : i - j = (i - (j + 1)) + 1 := by omega
      rw [this, List.getElem?_cons_succ]
      exact hget

theorem findState_getElem {states : List State} {stateName : String} {i : Nat} {state : State}
    (h : findState states stateName = some (i, state)) : states[i]? = some state := by
  have := (findStateFrom_getElem stateName states 0 i state h).2
  simpa using this

theorem switchView_ext (s s' : Nat × Value) (h : ∀ i, switchView s i = switchView s' i) :
    s = s' := by
  have h1 := h s.1
  unfold switchView at h1
  simp only [↓reduceIte] at h1
  split at h1
  · rename_i heq
    simp only [Option.some.injEq] at h1
    exact Prod.ext heq h1
  · cases h1

theorem storageFor_switch_iff (fixedSize storageOffset : Nat) (states : List State) (v : Value) :
    StorageFor (.switch fixedSize storageOffset states) v ↔
      ∃ s : Nat × Value, v = .switch s.1 s.2 ∧ (∃ state, states[s.1]? = some state) ∧
        ∀ (i : Nat) (v' : Value), switchView s i = some v' →
          SlotStorage ((states[i]?).map State.structType) v' := by
  constructor
  · intro h
    cases h with
    | switch _ _ _ id state payload hst hp =>
      refine ⟨(id, payload), rfl, ⟨state, hst⟩, ?_⟩
      intro i v' hv'
      unfold switchView at hv'
      split at hv'
      · rename_i hi
        simp only [Option.some.injEq] at hv'
        subst hv'
        simp only at hi
        subst hi
        rw [hst]
        exact hp
      · cases hv'
  · rintro ⟨⟨id, payload⟩, rfl, ⟨state, hst⟩, hall⟩
    refine StorageFor.switch _ _ _ id state payload hst ?_
    have := hall id payload (by simp [switchView])
    rw [hst] at this
    exact this

theorem convStep_switch_ok (c : TypeDescriptor → Value)
    (f : Option (String → Option TypeDescriptor)) (fixedSize storageOffset : Nat)
    (states : List State) (aNode : Node) (id : Nat) (p r : Value)
    (hn : NoNarrowing (.switch fixedSize storageOffset states) aNode) :
    convStep c f (.switch fixedSize storageOffset states) aNode (.switch id p) = some r ↔
      ∃ j aValue state, switchEntry states aNode = some (j, aValue) ∧
        states[j]? = some state ∧
        ∃ p', r = .switch j p' ∧
          convertFrom c f state.structType (if j = id then p else c state.structType) aValue
            = .ok p' := by
  have hnarrow : ∀ (iter : String × Node) (i : Nat) (state : State),
      aNode.objectItems.head? = some iter → findState states iter.1 = some (i, state) →
      i < 65536 := by
    cases hn with
    | switch _ _ _ _ h _ => exact h
  unfold convStep switchEntry
  rw [Outcome.toOption_eq_some, convertFrom_switch]
  cases hobj : aNode.isObject
  · simp
  · simp only [Bool.not_true, Bool.false_eq_true, ↓reduceIte, Bool.true_and]
    by_cases hlen : aNode.objectItems.length = 1
    · simp only [hlen, bne_self_eq_false, Bool.false_eq_true, ↓reduceIte, beq_self_eq_true]
      cases hhead : aNode.objectItems.head? with
      | none => simp
      | some iter =>
        simp only []
        cases hfind : findState states iter.1 with
        | none => simp
        | some found =>
          obtain ⟨i, state⟩ := found
          have hi := hnarrow iter i state hhead hfind
          have hget := findState_getElem hfind
          simp only [Option.map_some', Option.some.injEq, Prod.mk.injEq, Nat.mod_eq_of_lt hi,
            ensureStateIs, Value.switchState]
          by_cases hid : id = i
          · subst hid
            simp only [bne_self_eq_false, Bool.false_eq_true, ↓reduceIte]
            constructor
            · intro h
              obtain ⟨p', hp', rfl⟩ := wrapOutcome_ok h
              exact ⟨id, iter.2, state, ⟨rfl, rfl⟩, hget, p', rfl, by simpa using hp'⟩
            · rintro ⟨j, aValue, state', ⟨rfl, rfl⟩, hget', p', rfl, hp'⟩
              rw [hget] at hget'
              cases hget'
              simp only [↓reduceIte] at hp'
              rw [hp']
              rfl
          · have hne : (id != i) = true := by simpa using hid
            simp only [hne, ↓reduceIte, hget]
            constructor
            · intro h
              obtain ⟨p', hp', rfl⟩ := wrapOutcome_ok h
              exact ⟨i, iter.2, state, ⟨rfl, rfl⟩, hget, p', rfl, by
                rw [if_neg (fun h => hid h.symm)]
                exact hp'⟩
            · rintro ⟨j, aValue, state', ⟨rfl, rfl⟩, hget', p', rfl, hp'⟩
              rw [hget] at hget'
              cases hget'
              rw [if_neg (fun h => hid h.symm)] at hp'
              rw [hp']
              rfl
    · have hne : (aNode.objectItems.length != 1) = true := by simpa using hlen
      have hbeq : (aNode.objectItems.length == 1) = false := by simpa using hlen
      simp [hne, hbeq]

theorem good_switch (c : TypeDescriptor → Value) (f : Option (String → Option TypeDescriptor))
    (fixedSize storageOffset : Nat) (states : List State)
    (ih : ∀ state ∈ states, GoodType c f state.structType) :
    GoodType c f (.switch fixedSize storageOffset states) := by
  intro hcons
  have hcs : (∀ state ∈ states, StorageFor state.structType (c state.structType)) ∧
      ∀ state ∈ states, Constructs c state.structType := by
    cases hcons with
    | switch _ _ _ h1 h2 => exact ⟨h1, h2⟩
  refine container_good_fresh (fun (s : Nat × Value) => Value.switch s.1 s.2) Value.switchState
    (fun s => rfl) switchView switchView_ext
    (fun s => ∃ state, states[s.1]? = some state)
    _ _ _
    (fun i => slotConv c f ((states[i]?).map State.structType))
    (fun i => slotConstruct c ((states[i]?).map State.structType))
    (fun i => SlotStorage ((states[i]?).map State.structType))
    (fun i => SlotNode ((states[i]?).map State.structType))
    (switchOps states)
    (storageFor_switch_iff fixedSize storageOffset states) ?_ ?_ ?_ ?_ ?_ ?_ ?_
  · -- results are union storage
    intro n s r h
    unfold convStep at h
    rw [Outcome.toOption_eq_some, convertFrom_switch] at h
    split at h
    · cases h
    · split at h
      · cases h
      · split at h
        · cases h
        · split at h
          · cases h
          · split at h
            · cases h
            · rename_i id storage _
              obtain ⟨p', _, rfl⟩ := wrapOutcome_ok h
              exact ⟨(id, p'), rfl⟩
  · -- the slot types are good
    intro i
    apply slotGood_of
    intro T hT
    simp only [Option.map_eq_some'] at hT
    obtain ⟨state, hst, rfl⟩ := hT
    exact ih state (List.getElem?_mem hst) (hcs.2 state (List.getElem?_mem hst))
  · -- construction
    intro i
    show SlotStorage ((states[i]?).map State.structType)
      (slotConstruct c ((states[i]?).map State.structType))
    cases hst : states[i]? with
    | none => trivial
    | some state => exact hcs.1 state (List.getElem?_mem hst)
  · -- the operations
    intro n i op hop
    unfold switchOps at hop
    split at hop
    · simp only [List.mem_singleton] at hop
      subst hop
      rfl
    · split at hop
      · simp only [List.mem_singleton] at hop
        subst hop
        rfl
      · simp only [List.mem_singleton] at hop
        subst hop
        rfl
  · -- the nodes
    intro n i a hn hop
    unfold switchOps at hop
    split at hop
    · simp at hop
    · rename_i j aValue hentry
      split at hop
      · rename_i hij
        simp only [List.mem_singleton, SlotOp.fresh.injEq] at hop
        subst hop
        subst hij
        unfold switchEntry at hentry
        split at hentry
        · split at hentry
          · cases hentry
          · rename_i iter hhead
            simp only [Option.map_eq_some', Prod.mk.injEq] at hentry
            obtain ⟨⟨j, state⟩, hfind, rfl, rfl⟩ := hentry
            show SlotNode ((states[j]?).map State.structType) iter.2
            rw [findState_getElem hfind]
            cases hn with
            | switch _ _ _ _ _ h => exact h iter j state hhead hfind
        · cases hentry
      · simp at hop
  · -- soundness
    intro n s s' hn hsh h
    obtain ⟨id, p⟩ := s
    obtain ⟨id', p'⟩ := s'
    obtain ⟨j, aValue, state, hentry, hst, q, hr, hc⟩ :=
      (convStep_switch_ok c f fixedSize storageOffset states n id p _ hn).1 h
    simp only [Value.switch.injEq] at hr
    obtain ⟨rfl, rfl⟩ := hr
    refine ⟨⟨state, hst⟩, ?_⟩
    intro i
    show runOps _ _ (switchOps states n i) (switchView (id, p) i) = some (switchView (id', p') i)
    unfold switchOps switchView
    simp only [hentry]
    by_cases hi : i = id'
    · subst hi
      have hget : (if i = id then some p else none : Option Value).getD (c state.structType)
          = if i = id then p else c state.structType := by
        by_cases hid : i = id
        · simp [hid]
        · simp [hid]
      simp only [↓reduceIte, runOps_fresh_single, hst, Option.map_some', slotConv,
        slotConstruct]
      show (convStep c f state.structType aValue _).map some = _
      unfold convStep
      rw [hget, hc]
      rfl
    · simp only [hi, ↓reduceIte, runOps_cons, SlotOp.apply, Option.some_bind, runOps_nil]
  · -- success
    intro n s hn hsh hall
    obtain ⟨id, p⟩ := s
    cases hentry : switchEntry states n with
    | none =>
      obtain ⟨y, hy⟩ := hall 0
      unfold switchOps at hy
      simp only [hentry, runOps_cons, SlotOp.apply, Option.none_bind] at hy
      cases hy
    | some found =>
      obtain ⟨j, aValue⟩ := found
      have hst : ∃ state, states[j]? = some state := by
        unfold switchEntry at hentry
        split at hentry
        · split at hentry
          · cases hentry
          · simp only [Option.map_eq_some', Prod.mk.injEq] at hentry
            obtain ⟨⟨j', state⟩, hfind, rfl, _⟩ := hentry
            exact ⟨state, findState_getElem hfind⟩
        · cases hentry
      obtain ⟨state, hst⟩ := hst
      obtain ⟨y, hy⟩ := hall j
      have hget : (switchView (id, p) j).getD (c state.structType)
          = if j = id then p else c state.structType := by
        unfold switchView
        by_cases hid : j = id
        · simp [hid]
        · simp [hid]
      unfold switchOps at hy
      simp only [hentry, ↓reduceIte, runOps_fresh_single, hst, Option.map_some', slotConv,
        slotConstruct] at hy
      have hy' : (convStep c f state.structType aValue
          ((switchView (id, p) j).getD (c state.structType))).map some = some y := hy
      unfold convStep at hy'
      rw [hget] at hy'
      cases hc : convertFrom c f state.structType (if j = id then p else c state.structType)
          aValue with
      | ok p' =>
        exact ⟨(j, p'), (convStep_switch_ok c f fixedSize storageOffset states n id p _ hn).2
          ⟨j, aValue, state, hentry, hst, p', rfl, hc⟩⟩
      | fail e v' =>
        rw [hc] at hy'
        cases hy'
      | undefined =>
        rw [hc] at hy'
        cases hy'

/-- A sequence of steps each of which leaves every state unchanged or gives a result
that does not depend on the state. -/
theorem runSteps_constOrId {α σ : Type} (step : α → σ → Option σ)
    (h : ∀ a, (∀ s, step a s = some s) ∨ (∃ r, ∀ s, step a s = r)) :
    ∀ (l : List α), (∀ s, runSteps step l s = some s) ∨ (∃ r, ∀ s, runSteps step l s = r) := by
  intro l
  induction l with
  | nil => exact Or.inl (fun s => rfl)
  | cons a l ih =>
    rcases h a with hid | ⟨r, hr⟩
    · rcases ih with ih | ⟨r', hr'⟩
      · exact Or.inl (fun s => by simp only [runSteps, hid, Option.some_bind, ih])
      · exact Or.inr ⟨r', fun s => by simp only [runSteps, hid, Option.some_bind, hr']⟩
    · exact Or.inr ⟨r.bind (runSteps step l), fun s => by simp only [runSteps, hr]⟩

/-- The three properties of a conversion that reads no storage. -/
theorem slotGood_constOrId (g : Node → Value → Option Value) (W : Value → Prop)
    (N : Node → Prop) (hW : ∀ v, W v)
    (h : ∀ a, (∀ v, g a v = some v) ∨ (∃ r, ∀ v, g a v = r)) : SlotGood g W N where
  pres := fun _ _ r _ _ _ => hW r
  succ := fun a v1 v2 r _ _ _ hg => by
    rcases h a with hid | ⟨r', hr'⟩
    · exact ⟨v2, hid v2⟩
    · exact ⟨r, by rw [hr' v2, ← hr' v1, hg]⟩
  band := fun as v r _ _ hrun => by
    rcases runSteps_constOrId g h as with hid | ⟨r', hr'⟩
    · exact hid r
    · rw [hr' r, ← hr' v, hrun]

theorem convStep_plain (c : TypeDescriptor → Value)
    (f : Option (String → Option TypeDescriptor)) (typeKey : TypeKey) (fixedSize : Nat)
    (a : Node) :
    (∀ v, convStep c f (.plain typeKey fixedSize) a v = some v) ∨
      (∃ r, ∀ v, convStep c f (.plain typeKey fixedSize) a v = r) := by
  unfold convStep
  cases typeKey with
  | float =>
    right
    refine ⟨(convertFrom c f (.plain .float fixedSize) .raw a).toOption, fun v => ?_⟩
    simp only [convertFrom_float]
    split <;> rfl
  | u8 =>
    right
    refine ⟨(convertFrom c f (.plain .u8 fixedSize) .raw a).toOption, fun v => ?_⟩
    simp only [convertFrom_u8]
    split <;> rfl
  | u16 =>
    right
    refine ⟨(convertFrom c f (.plain .u16 fixedSize) .raw a).toOption, fun v => ?_⟩
    simp only [convertFrom_u16]
    split <;> rfl
  | bool =>
    right
    refine ⟨(convertFrom c f (.plain .bool fixedSize) .raw a).toOption, fun v => ?_⟩
    simp only [convertFrom_bool]
  | u32 =>
    right
    refine ⟨(convertFrom c f (.plain .u32 fixedSize) .raw a).toOption, fun v => ?_⟩
    simp only [convertFrom_u32]
    split <;> rfl
  | s32 =>
    right
    refine ⟨(convertFrom c f (.plain .s32 fixedSize) .raw a).toOption, fun v => ?_⟩
    simp only [convertFrom_s32]
    split <;> rfl
  | string =>
    cases ht : a.isText
    · left
      intro v
      simp only [convertFrom_string, ht, Bool.false_eq_true, ↓reduceIte]
      rfl
    · right
      refine ⟨some (.string a.textOf), fun v => ?_⟩
      simp only [convertFrom_string, ht, ↓reduceIte]
      rfl
  | savedTypedPtr =>
    right
    refine ⟨(convertFrom c f (.plain .savedTypedPtr fixedSize) .raw a).toOption, fun v => ?_⟩
    simp only [convertFrom_savedTypedPtr]
    split
    · rfl
    · split
      · rfl
      · split
        · rfl
        · split <;> rfl
  | typedArray =>
    right
    refine ⟨(convertFrom c f (.plain .typedArray fixedSize) .raw a).toOption, fun v => ?_⟩
    simp only [convertFrom_typedArray]
    split
    · rfl
    · split
      · rfl
      · split <;> rfl
  | other name =>
    right
    refine ⟨none, fun v => ?_⟩
    simp only [convertFrom_other]
    rfl

theorem convStep_enum (c : TypeDescriptor → Value)
    (f : Option (String → Option TypeDescriptor)) (fixedSize : Nat)
    (identifiers : List Identifier) (a : Node) :
    (∀ v, convStep c f (.enum fixedSize identifiers) a v = some v) ∨
      (∃ r, ∀ v, convStep c f (.enum fixedSize identifiers) a v = r) := by
  unfold convStep
  right
  refine ⟨(convertFrom c f (.enum fixedSize identifiers) .raw a).toOption, fun v => ?_⟩
  simp only [convertFrom_enum]
  split
  · rfl
  · split
    · rfl
    · split
      · split <;> rfl
      · split
        · split <;> rfl
        · split <;> rfl

theorem good_plain (c : TypeDescriptor → Value) (f : Option (String → Option TypeDescriptor))
    (typeKey : TypeKey) (fixedSize : Nat) : GoodType c f (.plain typeKey fixedSize) :=
  fun _ => slotGood_constOrId _ _ _ (fun v => StorageFor.plain _ _ v)
    (convStep_plain c f typeKey fixedSize)

theorem good_enum (c : TypeDescriptor → Value) (f : Option (String → Option TypeDescriptor))
    (fixedSize : Nat) (identifiers : List Identifier) :
    GoodType c f (.enum fixedSize identifiers) :=
  fun _ => slotGood_constOrId _ _ _ (fun v => StorageFor.enum _ _ v)
    (convStep_enum c f fixedSize identifiers)

theorem sizeOf_member_type_lt {members : List Member} {m : Member} (h : m ∈ members)
    (fixedSize : Nat) (name : String) :
    sizeOf m.type < sizeOf (TypeDescriptor.struct fixedSize name members) := by
  have hlt := List.sizeOf_lt_of_mem h
  cases m with
  | mk mname offset t =>
    simp only [Member.mk.sizeOf_spec] at hlt
    simp only [Member.type, TypeDescriptor.struct.sizeOf_spec]
    omega

theorem sizeOf_state_type_lt {states : List State} {state : State} (h : state ∈ states)
    (fixedSize storageOffset : Nat) :
    sizeOf state.structType < sizeOf (TypeDescriptor.switch fixedSize storageOffset states) := by
  have hlt := List.sizeOf_lt_of_mem h
  cases state with
  | mk sname t =>
    simp only [State.mk.sizeOf_spec] at hlt
    simp only [State.structType, TypeDescriptor.switch.sizeOf_spec]
    omega

/-- Every descriptor has the three properties. -/
theorem goodType (c : TypeDescriptor → Value) (f : Option (String → Option TypeDescriptor)) :
    ∀ (k : Nat) (type : TypeDescriptor), sizeOf type < k → GoodType c f type := by
  intro k
  induction k with
  | zero => intro type h; omega
  | succ k ih =>
    intro type hk
    cases type with
    | plain typeKey fixedSize => exact good_plain c f typeKey fixedSize
    | enum fixedSize identifiers => exact good_enum c f fixedSize identifiers
    | struct fixedSize name members =>
      apply good_struct
      intro m hm
      apply ih
      have := sizeOf_member_type_lt hm fixedSize name
      omega
    | fixedArray fixedSize itemType numItems =>
      apply good_fixedArray
      apply ih
      simp only [TypeDescriptor.fixedArray.sizeOf_spec] at hk
      omega
    | array fixedSize itemType =>
      apply good_array
      apply ih
      simp only [TypeDescriptor.array.sizeOf_spec] at hk
      omega
    | enumIndexedArray fixedSize itemType identifiers =>
      apply good_enumIndexedArray
      apply ih
      simp only [TypeDescriptor.enumIndexedArray.sizeOf_spec] at hk
      omega
    | switch fixedSize storageOffset states =>
      apply good_switch
      intro state hs
      apply ih
      have := sizeOf_state_type_lt hs fixedSize storageOffset
      omega

/-- Idempotence of `convertFrom` on storage of the type, for a node whose conversion
narrows no state index. -/
theorem convertFrom_idempotent (c : TypeDescriptor → Value)
    (f : Option (String → Option TypeDescriptor)) (type : TypeDescriptor) (ptr s' : Value)
    (aNode : Node) (hc : Constructs c type) (hs : StorageFor type ptr)
    (hn : NoNarrowing type aNode)
    (h : convertFrom c f type ptr aNode = .ok s') :
    convertFrom c f type s' aNode = .ok s' := by
  have hgood := goodType c f (sizeOf type + 1) type (Nat.lt_succ_self _) hc
  have hrun : runSteps (convStep c f type) [aNode] ptr = some s' := by
    simp only [runSteps, convStep, h, Outcome.toOption, Option.some_bind]
  have := hgood.band [aNode] ptr s' (fun a ha => by
    simp only [List.mem_singleton] at ha
    subst ha
    exact hn) hs hrun
  simp only [runSteps, convStep] at this
  cases hr : convertFrom c f type s' aNode with
  | ok r =>
    simp only [hr, Outcome.toOption, Option.some_bind, Option.some.injEq] at this
    rw [this]
  | fail e v => simp [hr, Outcome.toOption] at this
  | undefined => simp [hr, Outcome.toOption] at this

/-- Idempotence of `convertFrom`, with the type of the result. -/
theorem convertFrom_idempotent_storage (c : TypeDescriptor → Value)
    (f : Option (String → Option TypeDescriptor)) (type : TypeDescriptor) (ptr s' : Value)
    (aNode : Node) (hc : Constructs c type) (hs : StorageFor type ptr)
    (hn : NoNarrowing type aNode)
    (h : convertFrom c f type ptr aNode = .ok s') :
    convertFrom c f type s' aNode = .ok s' ∧ StorageFor type s' := by
  refine ⟨convertFrom_idempotent c f type ptr s' aNode hc hs hn h, ?_⟩
  have hgood := goodType c f (sizeOf type + 1) type (Nat.lt_succ_self _) hc
  exact hgood.pres aNode ptr s' hn hs (by
    unfold convStep
    rw [h]
    rfl)

/-! ## Repeatable runs -/

theorem distinctSlotsMembers_getElem :
    ∀ (members : List Member) (k : Nat) (m : Member), distinctSlotsMembers members = true →
    members[k]? = some m → m.type.distinctSlots = true := by
  intro members
  induction members with
  | nil => intro k m _ h; simp at h
  | cons a l ih =>
    intro k m hd h
    cases a with
    | mk name offset t =>
      simp only [distinctSlotsMembers, Bool.and_eq_true] at hd
      cases k with
      | zero =>
        simp only [List.getElem?_cons_zero, Option.some.injEq] at h
        subst h
        exact hd.1
      | succ k =>
        simp only [List.getElem?_cons_succ] at h
        exact ih k m hd.2 h

theorem distinctSlotsStates_mem :
    ∀ (states : List State) (state : State), distinctSlotsStates states = true →
    state ∈ states → state.structType.distinctSlots = true := by
  intro states
  induction states with
  | nil => intro state _ h; simp at h
  | cons a l ih =>
    intro state hd h
    cases a with
    | mk name t =>
      simp only [distinctSlotsStates, Bool.and_eq_true] at hd
      rcases List.mem_cons.1 h with h | h
      · subst h
        exact hd.1
      · exact ih state hd.2 h

theorem findStateFrom_mem (stateName : String) :
    ∀ (states : List State) (j i : Nat) (state : State),
    findStateFrom stateName j states = some (i, state) → state ∈ states := by
  intro states
  induction states with
  | nil => intro j i state h; simp [findStateFrom] at h
  | cons s rest ih =>
    intro j i state h
    simp only [findStateFrom] at h
    split at h
    · simp only [Option.some.injEq, Prod.mk.injEq] at h
      rw [← h.2]
      exact List.mem_cons_self _ _
    · exact List.mem_cons_of_mem _ (ih _ _ _ h)

/-- Every run at a descriptor with distinct slots is repeatable: any storage, any node,
any construction, state indexes narrowed or not. -/
theorem repeatable_of_distinctSlots (c : TypeDescriptor → Value) :
    ∀ (N : Nat) (type : TypeDescriptor), sizeOf type < N → type.distinctSlots = true →
    ∀ (ptr : Value) (aNode : Node), Repeatable c type ptr aNode := by
  intro N
  induction N with
  | zero => intro type h; omega
  | succ N ih =>
    intro type hN hd ptr aNode
    cases type with
    | plain typeKey fixedSize =>
      exact Repeatable.typed _ _ _ (Constructs.plain _ _) (StorageFor.plain _ _ _)
        (NoNarrowing.plain _ _ _)
    | enum fixedSize identifiers =>
      exact Repeatable.typed _ _ _ (Constructs.enum _ _) (StorageFor.enum _ _ _)
        (NoNarrowing.enum _ _ _)
    | struct fixedSize name members =>
      refine Repeatable.struct _ _ _ _ _ ?_
      intro vals k m v a _ hk _ _
      apply ih
      · have := sizeOf_member_type_lt (List.getElem?_mem hk) fixedSize name
        omega
      · exact distinctSlotsMembers_getElem members k m (by
          simpa [TypeDescriptor.distinctSlots] using hd) hk
    | fixedArray fixedSize itemType numItems =>
      refine Repeatable.fixedArray _ _ _ _ _ ?_
      intro vals i v a _ _ _ _
      apply ih
      · simp only [TypeDescriptor.fixedArray.sizeOf_spec] at hN
        omega
      · simpa [TypeDescriptor.distinctSlots] using hd
    | array fixedSize itemType =>
      refine Repeatable.array _ _ _ _ ?_
      intro vals i a _ _
      apply ih
      · simp only [TypeDescriptor.array.sizeOf_spec] at hN
        omega
      · simpa [TypeDescriptor.distinctSlots] using hd
    | enumIndexedArray fixedSize itemType identifiers =>
      simp only [TypeDescriptor.distinctSlots, Bool.and_eq_true, decide_eq_true_eq] at hd
      obtain ⟨hnodup, hdi⟩ := hd
      refine Repeatable.enumIndexedArray _ _ _ _ _ ?_ ?_
      · intro j k first second hjk hj hk _ _ hval
        have hj1 : (identifiers.map (fun identifier => identifier.value))[j]?
            = some second.value := by
          rw [List.getElem?_map, hj]
          exact congrArg some hval
        have hk1 : (identifiers.map (fun identifier => identifier.value))[k]?
            = some second.value := by
          rw [List.getElem?_map, hk]
          rfl
        have hjlt : j < (identifiers.map (fun identifier => identifier.value)).length := by
          by_contra hcon
          rw [List.getElem?_eq_none (by omega)] at hj1
          cases hj1
        have hklt : k < (identifiers.map (fun identifier => identifier.value)).length := by
          by_contra hcon
          rw [List.getElem?_eq_none (by omega)] at hk1
          cases hk1
        rw [List.getElem?_eq_getElem hjlt] at hj1
        rw [List.getElem?_eq_getElem hklt] at hk1
        have := (List.Nodup.getElem_inj_iff hnodup).1
          ((Option.some.inj hj1).trans (Option.some.inj hk1).symm)
        exact hjk this
      · intro vals _ identifier _ v a _ _
        apply ih
        · simp only [TypeDescriptor.enumIndexedArray.sizeOf_spec] at hN
          omega
        · exact hdi
    | switch fixedSize storageOffset states =>
      refine Repeatable.switch _ _ _ _ _ ?_
      intro iter i state id storage _ hfs _
      have hmem : state ∈ states := by
        unfold findState at hfs
        exact findStateFrom_mem _ _ _ _ _ hfs
      apply ih
      · have := sizeOf_state_type_lt hmem fixedSize storageOffset
        omega
      · exact distinctSlotsStates_mem states state (by
          simpa [TypeDescriptor.distinctSlots] using hd) hmem

/-! ## The claims -/

/-- C1 (struct partial update).  For a Struct target holding struct storage and an
Object node: if `convertFrom` succeeds, the result is struct storage of the same
shape in which every declared member without a same-named entry keeps its prior
value and every declared member with a same-named entry holds the conversion of that
entry into the member's prior value; and `convertFrom` does succeed as soon as the
conversion of each member that has an entry succeeds, so a missing member never
causes a failure. -/
theorem C1_struct_partial_update (construct : TypeDescriptor → Value)
    (typeFromName : Option (String → Option TypeDescriptor))
    (fixedSize : Nat) (name : String) (members : List Member) (vals : List Value)
    (aNode : Node) (hobj : aNode.isObject = true) :
    (∀ result, convertFrom construct typeFromName (.struct fixedSize name members)
        (.struct vals) aNode = .ok result →
      ∃ vals', result = .struct vals' ∧ vals'.length = vals.length ∧
        ∀ (k : Nat) (member : Member), members[k]? = some member →
          (aNode.get member.name = none → vals'[k]? = vals[k]?) ∧
          (∀ aMember, aNode.get member.name = some aMember →
            ∃ prior converted, vals[k]? = some prior ∧
              convertFrom construct typeFromName member.type prior aMember = .ok converted ∧
              vals'[k]? = some converted)) ∧
    ((∀ (k : Nat) (member : Member) (aMember : Node), members[k]? = some member →
        aNode.get member.name = some aMember →
        ∃ prior converted, vals[k]? = some prior ∧
          convertFrom construct typeFromName member.type prior aMember = .ok converted) →
      ∃ result, convertFrom construct typeFromName (.struct fixedSize name members)
        (.struct vals) aNode = .ok result) := by
  rw [convertFrom_struct]
  simp only [hobj, Bool.not_true, Bool.false_eq_true, ↓reduceIte, Value.structMembers]
  constructor
  · intro result h
    cases hl : forEach (structBody (convertFrom construct typeFromName) aNode)
        members.enum vals with
    | error e =>
      cases e <;> simp [hl, finishLoop] at h
    | ok vals' =>
      simp only [hl, finishLoop, Outcome.ok.injEq] at h
      obtain ⟨hlen, _, hrest⟩ := forEach_structBody_ok _ aNode members 0 vals vals' hl
      refine ⟨vals', h.symm, hlen, ?_⟩
      intro k member hk
      simpa using hrest k member hk
  · intro h
    obtain ⟨vals', hl⟩ := forEach_structBody_exists (convertFrom construct typeFromName)
      aNode members 0 vals (by simpa using h)
    exact ⟨.struct vals', by simp only [List.enum, hl, finishLoop]⟩

/-- Witness of C1: members `x`, `y` holding 1 and 2, document `{"y": 7}`. -/
theorem C1_struct_partial_update_witness :
    (Node.object [("y", .number 7)]).isObject = true ∧
    convertFrom defaultConstruct none (.struct 4 "S" exampleMembers)
      (.struct [.u16 1, .u16 2]) (.object [("y", .number 7)])
      = .ok (.struct [.u16 1, .u16 7]) ∧
    ∃ vals', Value.struct [.u16 1, .u16 7] = .struct vals' ∧
      vals'.length = [Value.u16 1, Value.u16 2].length ∧
      ∀ (k : Nat) (member : Member), exampleMembers[k]? = some member →
        ((Node.object [("y", .number 7)]).get member.name = none →
          vals'[k]? = [Value.u16 1, Value.u16 2][k]?) ∧
        (∀ aMember, (Node.object [("y", .number 7)]).get member.name = some aMember →
          ∃ prior converted, [Value.u16 1, Value.u16 2][k]? = some prior ∧
            convertFrom defaultConstruct none member.type prior aMember = .ok converted ∧
            vals'[k]? = some converted) :=
  ⟨rfl, exampleMembers_partial_update,
    (C1_struct_partial_update defaultConstruct none 4 "S" exampleMembers [.u16 1, .u16 2]
      (.object [("y", .number 7)]) rfl).1 _ exampleMembers_partial_update⟩

/-- C2 (alignment rule of struct synthesis).  After a declared member is appended
(lambda of lines 54-65): when the running total size is 0 modulo 4 nothing else is
appended; when it is 2 modulo 4 exactly one 2-byte field named "padding" is appended
right behind the member and the total becomes a multiple of 4; when it is 1 or 3
modulo 4 the lambda fails with AlignmentViolation, and so does the synthesis of a
struct whose member loop has reached that member. -/
theorem C2_alignment_rule (structType : TypeDescriptor_Struct) (memberName : String)
    (memberType : TypeDescriptor) :
    ((structType.appendMember memberName memberType).fixedSize % 4 = 0 →
      appendMember structType memberName memberType
        = .ok (structType.appendMember memberName memberType)) ∧
    ((structType.appendMember memberName memberType).fixedSize % 4 = 2 →
      appendMember structType memberName memberType
        = .ok ((structType.appendMember memberName memberType).appendMember "padding" typeU16) ∧
      ((structType.appendMember memberName memberType).appendMember "padding" typeU16).members
        = structType.members ++
          [Member.mk memberName structType.fixedSize memberType,
           Member.mk "padding" (structType.fixedSize + memberType.fixedSize) (.plain .u16 2)] ∧
      ((structType.appendMember memberName memberType).appendMember "padding" typeU16).fixedSize
        = structType.fixedSize + memberType.fixedSize + 2 ∧
      ((structType.appendMember memberName memberType).appendMember "padding" typeU16).fixedSize
        % 4 = 0) ∧
    ((structType.appendMember memberName memberType).fixedSize % 4 = 1 ∨
      (structType.appendMember memberName memberType).fixedSize % 4 = 3 →
      appendMember structType memberName memberType = .error .AlignmentViolation ∧
      (∀ typeOwner, appendConverted structType memberName (.ok memberType typeOwner)
        = .error (.fail .AlignmentViolation typeOwner)) ∧
      ∀ (conv : Option TypeDescriptorOwner → Node → TypeOutcome) (decl : Node)
        (rest : List (String × Node)) (typeOwner typeOwner' : Option TypeDescriptorOwner),
        conv typeOwner decl = .ok memberType typeOwner' →
        finishStruct (forEach (objectMemberBody conv) ((memberName, decl) :: rest)
          (structType, typeOwner)) = .fail .AlignmentViolation typeOwner') := by
  refine ⟨?_, ?_, ?_⟩
  · intro h
    simp [appendMember, h]
  · intro h
    refine ⟨by simp [appendMember, h], ?_, ?_, ?_⟩
    · simp [TypeDescriptor_Struct.appendMember, typeU16]
    · simp [TypeDescriptor_Struct.appendMember, typeU16, TypeDescriptor.fixedSize]
    · simp only [TypeDescriptor_Struct.appendMember, typeU16, TypeDescriptor.fixedSize] at h ⊢
      omega
  · intro h
    have h1 : appendMember structType memberName memberType = .error .AlignmentViolation := by
      rcases h with h | h <;> simp [appendMember, h]
    refine ⟨h1, ?_, ?_⟩
    · intro typeOwner
      simp [appendConverted, h1]
    · intro conv decl rest typeOwner typeOwner' hconv
      simp [forEach, objectMemberBody, hconv, appendConverted, h1, finishStruct]

/-- Witness of C2: a `u16` member in an empty struct is padded; a `u8` member fails,
and so does the synthesis of the struct `M` with members `a: u16`, `b: u8`. -/
theorem C2_alignment_rule_witness :
    appendMember ⟨0, "S", []⟩ "a" typeU16
      = .ok ((TypeDescriptor_Struct.appendMember ⟨0, "S", []⟩ "a" typeU16).appendMember
          "padding" typeU16) ∧
    appendMember ⟨0, "S", []⟩ "b" (.plain .u8 1) = .error .AlignmentViolation ∧
    convertType exampleResolver (some ⟨[], none⟩) exampleMisalignedDecl =
      .fail .AlignmentViolation (some ⟨[], none⟩) :=
  ⟨((C2_alignment_rule ⟨0, "S", []⟩ "a" typeU16).2.1 (by decide)).1,
   ((C2_alignment_rule ⟨0, "S", []⟩ "b" (.plain .u8 1)).2.2 (by decide)).1,
   exampleMisalignedDecl_synthesis⟩

/-- C3, counterexample.  The declaration of a struct `S` whose first member `e` is an
empty struct and whose second member `x` is a float synthesizes to a descriptor in
which `e` and `x` both have offset 0: the offsets are not strictly increasing. -/
theorem C3_counterexample :
    convertType none (some ⟨[], none⟩) exampleEmptyMemberDecl =
      .ok (.struct 4 "S" [Member.mk "e" 0 (.struct 0 "E" []), Member.mk "x" 0 typeFloat])
        (some ⟨[.struct 0 "E" [],
          .struct 4 "S" [Member.mk "e" 0 (.struct 0 "E" []), Member.mk "x" 0 typeFloat]],
          none⟩) ∧
    ¬ ((Member.mk "e" 0 (.struct 0 "E" [])).offset < (Member.mk "x" 0 typeFloat).offset) :=
  ⟨exampleEmptyMemberDecl_synthesis, by decide⟩

/-- C3, amended.  Every descriptor that `convertType` returns for an Object
declaration is a struct descriptor whose first member has offset 0 and in which each
later member (pad fields included) has the previous member's offset plus the previous
member's size as its offset; the offsets increase strictly across every member of
non-zero size. -/
theorem C3_member_offsets (typeFromName : Option (String → Option TypeDescriptor))
    (typeOwner typeOwner' : Option TypeDescriptorOwner) (items : List (String × Node))
    (type : TypeDescriptor)
    (h : convertType typeFromName typeOwner (.object items) = .ok type typeOwner') :
    ∃ fixedSize name members, type = .struct fixedSize name members ∧
      (∀ m : Member, members[0]? = some m → m.offset = 0) ∧
      ∀ (k : Nat) (m m' : Member), members[k]? = some m → members[k + 1]? = some m' →
        m'.offset = m.offset + m.type.fixedSize ∧
        (0 < m.type.fixedSize → m.offset < m'.offset) := by
  rw [convertType_object] at h
  split at h
  · obtain ⟨s, hs, hlay, _⟩ := synthesizeStruct_wellLaidOut _ _ _ _ _ h
    obtain ⟨h0, hk⟩ := offsetsFrom_getElem s.members 0 hlay
    refine ⟨s.fixedSize, s.name, s.members, hs, h0, ?_⟩
    intro k m m' hm hm'
    have := hk k m m' hm hm'
    exact ⟨this, fun hpos => by omega⟩
  · cases h

/-- Witness of C3 (amended): the struct `P` with members `a: u16`, `b: float`, which
synthesizes to `a` at 0, a pad field at 2 and `b` at 4. -/
theorem C3_member_offsets_witness :
    convertType none (some ⟨[], none⟩) examplePaddedDecl =
      .ok (.struct 8 "P" [Member.mk "a" 0 typeU16, Member.mk "padding" 2 typeU16,
          Member.mk "b" 4 typeFloat])
        (some ⟨[.struct 8 "P" [Member.mk "a" 0 typeU16, Member.mk "padding" 2 typeU16,
          Member.mk "b" 4 typeFloat]], none⟩) ∧
    ∃ fixedSize name members,
      TypeDescriptor.struct 8 "P" [Member.mk "a" 0 typeU16, Member.mk "padding" 2 typeU16,
          Member.mk "b" 4 typeFloat] = .struct fixedSize name members ∧
      (∀ m : Member, members[0]? = some m → m.offset = 0) ∧
      ∀ (k : Nat) (m m' : Member), members[k]? = some m → members[k + 1]? = some m' →
        m'.offset = m.offset + m.type.fixedSize ∧
        (0 < m.type.fixedSize → m.offset < m'.offset) :=
  ⟨examplePaddedDecl_synthesis,
    C3_member_offsets none (some ⟨[], none⟩) _ _ _ examplePaddedDecl_synthesis⟩

/-- C4 (primitive name resolution).  For a Text node, the names "u16", "u16_2",
"u16_3", "u16_4" and "float" resolve to the built-in descriptors (a 2-byte u16, fixed
arrays of 2, 3 and 4 u16 of 4, 6 and 8 bytes, a 4-byte float) whatever the resolver
is; every other name resolves to the resolver's descriptor when a resolver is
supplied and returns one, and fails with UnresolvedPrimitiveType when there is no
resolver or the resolver returns nothing.  The owner is left as it is. -/
theorem C4_primitive_name_resolution (typeFromName : Option (String → Option TypeDescriptor))
    (typeOwner : Option TypeDescriptorOwner) :
    (convertType typeFromName typeOwner (.text "u16") = .ok (.plain .u16 2) typeOwner ∧
     convertType typeFromName typeOwner (.text "u16_2")
       = .ok (.fixedArray 4 (.plain .u16 2) 2) typeOwner ∧
     convertType typeFromName typeOwner (.text "u16_3")
       = .ok (.fixedArray 6 (.plain .u16 2) 3) typeOwner ∧
     convertType typeFromName typeOwner (.text "u16_4")
       = .ok (.fixedArray 8 (.plain .u16 2) 4) typeOwner ∧
     convertType typeFromName typeOwner (.text "float") = .ok (.plain .float 4) typeOwner) ∧
    ∀ str : String, str ≠ "u16" → str ≠ "u16_2" → str ≠ "u16_3" → str ≠ "u16_4" →
      str ≠ "float" →
      (∀ typeDesc, resolve typeFromName str = some typeDesc →
        convertType typeFromName typeOwner (.text str) = .ok typeDesc typeOwner) ∧
      (resolve typeFromName str = none →
        convertType typeFromName typeOwner (.text str)
          = .fail .UnresolvedPrimitiveType typeOwner) := by
  refine ⟨⟨?_, ?_, ?_, ?_, ?_⟩, ?_⟩
  · rw [convertType_text]; rfl
  · rw [convertType_text]; rfl
  · rw [convertType_text]; rfl
  · rw [convertType_text]; rfl
  · rw [convertType_text]; rfl
  · intro str h1 h2 h3 h4 h5
    constructor
    · intro typeDesc h
      rw [convertType_text]
      simp only [beq_iff_eq, h1, h2, h3, h4, h5, ↓reduceIte, h]
    · intro h
      rw [convertType_text]
      simp only [beq_iff_eq, h1, h2, h3, h4, h5, ↓reduceIte, h]

/-- Witness of C4: the name "u8" with a resolver that knows it, and with no
resolver. -/
theorem C4_primitive_name_resolution_witness :
    convertType (some (fun s => if s = "u8" then some (.plain .u8 1) else none)) none
        (.text "u8") = .ok (.plain .u8 1) none ∧
    convertType none none (.text "u8") = .fail .UnresolvedPrimitiveType none :=
  ⟨((C4_primitive_name_resolution
      (some (fun s => if s = "u8" then some (.plain .u8 1) else none)) none).2 "u8"
      (by decide) (by decide) (by decide) (by decide) (by decide)).1 (.plain .u8 1) rfl,
   ((C4_primitive_name_resolution none none).2 "u8"
      (by decide) (by decide) (by decide) (by decide) (by decide)).2 rfl⟩

/-- C5, counterexample.  A FixedArray target of 1 item converted against an Array
node of 2 elements does not fail: the first element is converted and the second is
ignored. -/
theorem C5_counterexample :
    [Node.number 5, Node.number 6].length ≠ 1 ∧
    convertFrom defaultConstruct none (.fixedArray 2 typeU16 1) (.fixedArray [.u16 0])
      (.array [.number 5, .number 6]) = .ok (.fixedArray [.u16 5]) := by
  refine ⟨by decide, ?_⟩
  simp [convertFrom_fixedArray, convertFrom_u16, itemBody, forEach, indexRange, List.range',
    Node.isArray, Node.arrayItems, Node.isNumeric, Value.fixedArrayItems, typeU16, storeItem,
    finishLoop]
  rfl

/-- C5, amended.  For a FixedArray(item, count) target holding fixed-array storage and
an Array node: a successful convert implies that the node has at least `count`
elements and that element `i` of the target is the conversion of element `i` of the
node for every `i < count`; with fewer than `count` elements convert fails with
ShapeMismatch once the elements present have converted; with `count` or more
elements the elements beyond the first `count` are ignored. -/
theorem C5_fixed_array_positional (construct : TypeDescriptor → Value)
    (typeFromName : Option (String → Option TypeDescriptor))
    (fixedSize : Nat) (itemType : TypeDescriptor) (numItems : Nat) (vals : List Value)
    (items : List Node) :
    (∀ result, convertFrom construct typeFromName (.fixedArray fixedSize itemType numItems)
        (.fixedArray vals) (.array items) = .ok result →
      numItems ≤ items.length ∧
      ∃ vals', result = .fixedArray vals' ∧ vals'.length = vals.length ∧
        ∀ i : Nat, i < numItems →
          ∃ aItem prior converted, items[i]? = some aItem ∧ vals[i]? = some prior ∧
            convertFrom construct typeFromName itemType prior aItem = .ok converted ∧
            vals'[i]? = some converted) ∧
    (items.length < numItems →
      (∀ (i : Nat) (aItem : Node), items[i]? = some aItem → ∃ prior converted, vals[i]? = some prior ∧
        convertFrom construct typeFromName itemType prior aItem = .ok converted) →
      ∃ obj, convertFrom construct typeFromName (.fixedArray fixedSize itemType numItems)
        (.fixedArray vals) (.array items) = .fail .ShapeMismatch obj) ∧
    (numItems ≤ items.length →
      convertFrom construct typeFromName (.fixedArray fixedSize itemType numItems)
        (.fixedArray vals) (.array items) =
      convertFrom construct typeFromName (.fixedArray fixedSize itemType numItems)
        (.fixedArray vals) (.array (items.take numItems))) := by
  refine ⟨?_, ?_, ?_⟩
  · intro result h
    rw [convertFrom_fixedArray] at h
    simp only [Node.isArray, Bool.not_true, Bool.false_eq_true, ↓reduceIte,
      Value.fixedArrayItems, Node.arrayItems, indexRange_zero] at h
    cases hl : forEach (itemBody .fixedArray (convertFrom construct typeFromName) itemType items)
        (List.range' 0 numItems) vals with
    | error e => cases e <;> simp [hl, finishLoop] at h
    | ok vals' =>
      simp only [hl, finishLoop, Outcome.ok.injEq] at h
      obtain ⟨hlen, _, _, hrest⟩ := forEach_itemBody_ok _ _ _ _ numItems 0 vals vals' hl
      constructor
      · by_contra hcon
        obtain ⟨a, _, _, ha, _⟩ := hrest items.length (by omega) (by omega)
        rw [List.getElem?_eq_none (by omega)] at ha
        cases ha
      · refine ⟨vals', h.symm, hlen, ?_⟩
        intro i hi
        exact hrest i (by omega) (by omega)
  · intro hlt hconv
    rw [convertFrom_fixedArray]
    simp only [Node.isArray, Bool.not_true, Bool.false_eq_true, ↓reduceIte,
      Value.fixedArrayItems, Node.arrayItems, indexRange_zero]
    have hsplit : ∃ rest, List.range' 0 numItems
        = List.range' 0 items.length ++ items.length :: rest := by
      obtain ⟨b, hb⟩ : ∃ b, numItems = (b + 1) + items.length :=
        ⟨numItems - items.length - 1, by omega⟩
      refine ⟨List.range' (items.length + 1) b, ?_⟩
      rw [hb, ← List.range'_append_1, List.range'_succ]
      simp
    obtain ⟨rest, hsplit⟩ := hsplit
    obtain ⟨vals1, h1⟩ := forEach_itemBody_exists .fixedArray
      (convertFrom construct typeFromName) itemType items items.length 0 vals (by
        intro i _ hi
        have hi' : i < items.length := by omega
        obtain ⟨prior, converted, hp, hc⟩ := hconv i items[i] (List.getElem?_eq_getElem hi')
        exact ⟨items[i], prior, converted, List.getElem?_eq_getElem hi', hp, hc⟩)
    rw [hsplit, forEach_append, h1]
    simp only [forEach, itemBody, List.getElem?_eq_none (Nat.le_refl items.length), finishLoop]
    exact ⟨_, rfl⟩
  · intro hle
    rw [convertFrom_fixedArray, convertFrom_fixedArray]
    simp only [Node.isArray, Bool.not_true, Bool.false_eq_true, ↓reduceIte,
      Value.fixedArrayItems, Node.arrayItems, indexRange_zero]
    congr 1
    apply forEach_congr
    intro i hi s
    have hi' : i < numItems := by
      simp only [List.mem_range'_1] at hi
      omega
    simp only [itemBody, List.getElem?_take, hi', ↓reduceIte]

/-- Witness of C5 (amended): two `u16` items against a one-element node. -/
theorem C5_fixed_array_positional_witness :
    ∃ obj, convertFrom defaultConstruct none (.fixedArray 4 typeU16 2)
      (.fixedArray [.u16 0, .u16 0]) (.array [.number 5]) = .fail .ShapeMismatch obj :=
  (C5_fixed_array_positional defaultConstruct none 4 typeU16 2 [.u16 0, .u16 0]
    [.number 5]).2.1 (by decide) (by
      intro i aItem h
      match i, h with
      | 0, h =>
        simp only [List.getElem?_cons_zero, Option.some.injEq] at h
        subst h
        exact ⟨.u16 0, .u16 5, rfl, by simp [typeU16, convertFrom_u16, Node.isNumeric]; rfl⟩
      | i + 1, h => simp at h)

/-- C6, counterexample.  String is not a kind of the spec's dispatch table, yet a
String target converted against a Text node succeeds and stores the text, and
converted against a Number node it returns success with the storage unchanged. -/
theorem C6_counterexample :
    convertFrom defaultConstruct none (.plain .string 16) (.string "old") (.text "new")
      = .ok (.string "new") ∧
    convertFrom defaultConstruct none (.plain .string 16) (.string "old") (.number 3)
      = .ok (.string "old") := by
  constructor <;> rw [convertFrom_string] <;> rfl

/-- C6, amended.  For every target descriptor whose type key is none of those
`convertFrom` compares against (the kinds of the spec's dispatch table and String)
and for every node, convert fails with UnsupportedTargetType and leaves the storage
unchanged; a String target converted against a Text node stores the node's text. -/
theorem C6_unsupported_target_type (construct : TypeDescriptor → Value)
    (typeFromName : Option (String → Option TypeDescriptor))
    (name : String) (fixedSize : Nat) (ptr : Value) (aNode : Node) (text : String) :
    convertFrom construct typeFromName (.plain (.other name) fixedSize) ptr aNode
      = .fail .UnsupportedTargetType ptr ∧
    convertFrom construct typeFromName (.plain .string fixedSize) ptr (.text text)
      = .ok (.string text) := by
  constructor
  · rw [convertFrom_other]
  · rw [convertFrom_string]
    rfl

/-- C8 (enum conversion).  For an Enum target of storage width 1, 2 or 4 (identifier
values being 32-bit) and a Text node: convert succeeds iff the identifier lookup
finds an identifier named exactly the node's text (the first such) and its value
fits the storage width; on success the storage holds that identifier's value as an
unsigned integer of the declared width, untruncated; when no identifier has that
name convert fails with UnknownEnumIdentifier and the storage is unchanged. -/
theorem C8_enum_conversion (construct : TypeDescriptor → Value)
    (typeFromName : Option (String → Option TypeDescriptor))
    (fixedSize : Nat) (identifiers : List Identifier) (ptr : Value) (text : String)
    (hwidth : fixedSize = 1 ∨ fixedSize = 2 ∨ fixedSize = 4)
    (hu32 : ∀ identifier ∈ identifiers, identifier.value < 2 ^ 32) :
    ((∃ v, convertFrom construct typeFromName (.enum fixedSize identifiers) ptr (.text text)
        = .ok v) ↔
      ∃ identifier, identifiers.find? (fun identifier => identifier.name == text)
          = some identifier ∧ identifier.value < 2 ^ (8 * fixedSize)) ∧
    (∀ identifier, identifiers.find? (fun identifier => identifier.name == text)
        = some identifier → identifier.value < 2 ^ (8 * fixedSize) →
      convertFrom construct typeFromName (.enum fixedSize identifiers) ptr (.text text)
        = .ok (if fixedSize = 1 then .u8 identifier.value
               else if fixedSize = 2 then .u16 identifier.value
               else .u32 identifier.value)) ∧
    ((∀ identifier ∈ identifiers, identifier.name ≠ text) →
      convertFrom construct typeFromName (.enum fixedSize identifiers) ptr (.text text)
        = .fail .UnknownEnumIdentifier ptr) := by
  have hfit : ∀ identifier, identifiers.find? (fun identifier => identifier.name == text)
        = some identifier → identifier.value < 2 ^ (8 * fixedSize) →
      convertFrom construct typeFromName (.enum fixedSize identifiers) ptr (.text text)
        = .ok (if fixedSize = 1 then .u8 identifier.value
               else if fixedSize = 2 then .u16 identifier.value
               else .u32 identifier.value) := by
    intro identifier hfind hlt
    rw [convertFrom_enum]
    simp only [Node.isText, Node.textOf, Bool.not_true, Bool.false_eq_true, ↓reduceIte, hfind]
    rcases hwidth with h | h | h
    · subst h
      have h255 : identifier.value ≤ 255 := by norm_num at hlt; omega
      simp [h255, Nat.mod_eq_of_lt (by omega : identifier.value < 256)]
    · subst h
      have h65535 : identifier.value ≤ 65535 := by norm_num at hlt; omega
      simp [h65535, Nat.mod_eq_of_lt (by omega : identifier.value < 65536)]
    · subst h
      simp
  refine ⟨⟨?_, ?_⟩, hfit, ?_⟩
  · rintro ⟨v, hv⟩
    rw [convertFrom_enum] at hv
    simp only [Node.isText, Node.textOf, Bool.not_true, Bool.false_eq_true, ↓reduceIte] at hv
    cases hfind : identifiers.find? (fun identifier => identifier.name == text) with
    | none => simp [hfind] at hv
    | some identifier =>
      refine ⟨identifier, rfl, ?_⟩
      simp only [hfind] at hv
      rcases hwidth with h | h | h
      · subst h
        by_cases h255 : identifier.value ≤ 255
        · norm_num; omega
        · simp [h255] at hv
      · subst h
        by_cases h65535 : identifier.value ≤ 65535
        · norm_num; omega
        · simp [h65535] at hv
      · subst h
        exact hu32 identifier (List.mem_of_find?_eq_some hfind)
  · rintro ⟨identifier, hfind, hlt⟩
    exact ⟨_, hfit identifier hfind hlt⟩
  · intro hnone
    rw [convertFrom_enum]
    have hfind : identifiers.find? (fun identifier => identifier.name == text) = none := by
      rw [List.find?_eq_none]
      intro identifier hmem
      simpa using hnone identifier hmem
    simp [Node.isText, Node.textOf, hfind]

/-- Witness of C8: identifiers Red = 0, Green = 1, Blue = 2, width 1: "Blue" stores
2, "Purple" fails with UnknownEnumIdentifier. -/
theorem C8_enum_conversion_witness :
    convertFrom defaultConstruct none (.enum 1 exampleColors) (.u8 0) (.text "Blue")
      = .ok (.u8 2) ∧
    convertFrom defaultConstruct none (.enum 1 exampleColors) (.u8 0) (.text "Purple")
      = .fail .UnknownEnumIdentifier (.u8 0) :=
  ⟨(C8_enum_conversion defaultConstruct none 1 exampleColors (.u8 0) "Blue" (Or.inl rfl)
      (by decide)).2.1 ⟨"Blue", 2⟩ (by decide) (by decide),
   (C8_enum_conversion defaultConstruct none 1 exampleColors (.u8 0) "Purple" (Or.inl rfl)
      (by decide)).2.2 (by decide)⟩

/-- C9 (tagged-union failure conditions).  For a TaggedUnion target and an Object
node: when the node does not have exactly one entry convert fails with
ShapeMismatch, and when its single entry's name is the name of no declared state
convert fails with UnknownUnionState; in both cases the storage (active state and
payload) is unchanged. -/
theorem C9_tagged_union_failures (construct : TypeDescriptor → Value)
    (typeFromName : Option (String → Option TypeDescriptor))
    (fixedSize storageOffset : Nat) (states : List State) (ptr : Value)
    (items : List (String × Node)) :
    (items.length ≠ 1 →
      convertFrom construct typeFromName (.switch fixedSize storageOffset states) ptr
        (.object items) = .fail .ShapeMismatch ptr) ∧
    (∀ stateName value, items = [(stateName, value)] →
      (∀ state ∈ states, state.name ≠ stateName) →
      convertFrom construct typeFromName (.switch fixedSize storageOffset states) ptr
        (.object items) = .fail .UnknownUnionState ptr) := by
  have hnone : ∀ (stateName : String) (i : Nat) (l : List State),
      (∀ state ∈ l, state.name ≠ stateName) → findStateFrom stateName i l = none := by
    intro stateName i l
    induction l generalizing i with
    | nil => intro _; rfl
    | cons s l ih =>
      intro h
      have hs : s.name ≠ stateName := h s (List.mem_cons_self _ _)
      simp only [findStateFrom, beq_iff_eq, hs, ↓reduceIte]
      exact ih (i + 1) (fun state hmem => h state (List.mem_cons_of_mem _ hmem))
  constructor
  · intro hlen
    rw [convertFrom_switch]
    simp [Node.isObject, Node.objectItems, hlen]
  · intro stateName value hitems hstates
    subst hitems
    rw [convertFrom_switch]
    simp [Node.isObject, Node.objectItems, findState, hnone stateName 0 states hstates]

/-- Witness of C9: the union with states "A" and "B" against `{}` and against
`{"C": {}}`. -/
theorem C9_tagged_union_failures_witness :
    convertFrom defaultConstruct none (.switch 8 2 exampleStates) (.switch 0 (.struct []))
      (.object []) = .fail .ShapeMismatch (.switch 0 (.struct [])) ∧
    convertFrom defaultConstruct none (.switch 8 2 exampleStates) (.switch 0 (.struct []))
      (.object [("C", .object [])]) = .fail .UnknownUnionState (.switch 0 (.struct [])) :=
  ⟨(C9_tagged_union_failures defaultConstruct none 8 2 exampleStates (.switch 0 (.struct []))
      []).1 (by decide),
   (C9_tagged_union_failures defaultConstruct none 8 2 exampleStates (.switch 0 (.struct []))
      [("C", .object [])]).2 "C" (.object []) rfl (by
        intro state hmem
        simp only [exampleStates, List.mem_cons, List.mem_singleton, List.not_mem_nil,
          or_false] at hmem
        rcases hmem with rfl | rfl <;> decide)⟩

/-- C10, counterexample.  In a union descriptor with 65536 states named "A" followed
by a state named "B", the first state named "B" has index 65536; converting
`{"B": {}}` into a union in state 0 succeeds and leaves the union in state 0 (the
index is narrowed to 16 bits at line 233), not in the state named "B". -/
theorem C10_counterexample :
    findState (manyStates 65536) "B" = some (65536, State.mk "B" exampleEmptyStruct) ∧
    convertFrom defaultConstruct none (.switch 8 2 (manyStates 65536)) (.switch 0 (.struct []))
      (.object [("B", .object [])]) = .ok (.switch 0 (.struct [])) :=
  ⟨findState_manyStates 65536, convertFrom_manyStates 65536 (Nat.mod_self 65536)⟩

/-- C10, amended.  For a TaggedUnion target holding union storage and a one-entry
Object node `{S: v}` where the first declared state named `S` has an index below
65536: convert is the conversion of `v` into the payload, which is the existing
payload when that state is already the active one and a default-constructed payload
of the state's struct type otherwise (the previous payload being dropped); a
successful convert leaves the union in that state with the converted payload. -/
theorem C10_tagged_union_transition (construct : TypeDescriptor → Value)
    (typeFromName : Option (String → Option TypeDescriptor))
    (fixedSize storageOffset : Nat) (states : List State) (oldId : Nat) (storage : Value)
    (stateName : String) (value : Node) (i : Nat) (state : State)
    (hstate : states[i]? = some state) (hname : state.name = stateName)
    (hfirst : ∀ (k : Nat) (s : State), k < i → states[k]? = some s → s.name ≠ stateName)
    (hid : i < 65536) :
    convertFrom construct typeFromName (.switch fixedSize storageOffset states)
      (.switch oldId storage) (.object [(stateName, value)]) =
      wrapOutcome (.switch i)
        (convertFrom construct typeFromName state.structType
          (if oldId = i then storage else construct state.structType) value) ∧
    ∀ result, convertFrom construct typeFromName (.switch fixedSize storageOffset states)
        (.switch oldId storage) (.object [(stateName, value)]) = .ok result →
      ∃ payload, result = .switch i payload ∧
        convertFrom construct typeFromName state.structType
          (if oldId = i then storage else construct state.structType) value = .ok payload := by
  have hfind : findState states stateName = some (i, state) := by
    have h := findStateFrom_first stateName states 0 i state hstate hname hfirst
    simpa [findState] using h
  have heq : convertFrom construct typeFromName (.switch fixedSize storageOffset states)
      (.switch oldId storage) (.object [(stateName, value)]) =
      wrapOutcome (.switch i)
        (convertFrom construct typeFromName state.structType
          (if oldId = i then storage else construct state.structType) value) := by
    rw [convertFrom_switch]
    simp only [Node.isObject, Node.objectItems, List.length_singleton, bne_self_eq_false,
      Bool.not_true, Bool.false_eq_true, ↓reduceIte, List.head?_cons, hfind,
      Nat.mod_eq_of_lt hid, ensureStateIs, Value.switchState]
    by_cases hsame : oldId = i
    · subst hsame
      simp
    · simp [hsame, hstate]
  refine ⟨heq, ?_⟩
  intro result h
  rw [heq] at h
  cases hc : convertFrom construct typeFromName state.structType
      (if oldId = i then storage else construct state.structType) value with
  | ok payload =>
    rw [hc] at h
    simp only [wrapOutcome, Outcome.ok.injEq] at h
    exact ⟨payload, h.symm, rfl⟩
  | fail e v => rw [hc] at h; simp [wrapOutcome] at h
  | undefined => rw [hc] at h; simp [wrapOutcome] at h

/-- Witness of C10 (amended): the union with states "A" and "B", in state "A",
converted against `{"B": {"x": 7}}`. -/
theorem C10_tagged_union_transition_witness :
    convertFrom defaultConstruct none (.switch 8 2 exampleStates) (.switch 0 (.struct []))
      (.object [("B", .object [("x", .number 7)])]) =
    wrapOutcome (.switch 1)
      (convertFrom defaultConstruct none
        (State.mk "B" (.struct 2 "B" [Member.mk "x" 0 typeU16])).structType
        (if 0 = 1 then .struct []
          else defaultConstruct
            (State.mk "B" (.struct 2 "B" [Member.mk "x" 0 typeU16])).structType)
        (.object [("x", .number 7)])) :=
  (C10_tagged_union_transition defaultConstruct none 8 2 exampleStates 0 (.struct []) "B"
    (.object [("x", .number 7)]) 1 (State.mk "B" (.struct 2 "B" [Member.mk "x" 0 typeU16]))
    rfl rfl (by
      intro k s hk hs
      have hk0 : k = 0 := by omega
      subst hk0
      simp only [exampleStates, List.getElem?_cons_zero, Option.some.injEq] at hs
      subst hs
      decide)
    (by decide)).1

/-- C11 (EnumIndexedArray conversion).  For an EnumIndexedArray target holding
enum-indexed storage and an Object node, a successful convert returns enum-indexed
storage of the same length such that: every slot whose index is the value of no
identifier with a same-named entry is unchanged; for each identifier with a
same-named entry, in declaration order, the entry is converted into slot
`identifier.value` of the storage left by the identifiers before it (the conversion
against the first k identifiers), and the outcome is written to that slot; when no
other identifier with an entry has the same value, the slot finally holds the
conversion of the entry into the slot's prior content.  Entries whose names are not
enum identifiers are ignored: Object nodes that agree on the entry looked up for each
identifier convert alike. -/
theorem C11_enum_indexed_array (construct : TypeDescriptor → Value)
    (typeFromName : Option (String → Option TypeDescriptor))
    (fixedSize : Nat) (itemType : TypeDescriptor) (identifiers : List Identifier)
    (vals : List Value) (aNode : Node) (hobj : aNode.isObject = true) :
    (∀ result, convertFrom construct typeFromName
        (.enumIndexedArray fixedSize itemType identifiers) (.enumIndexedArray vals) aNode
        = .ok result →
      ∃ vals', result = .enumIndexedArray vals' ∧ vals'.length = vals.length ∧
        (∀ i : Nat, (∀ identifier ∈ identifiers, aNode.get identifier.name ≠ none →
            identifier.value ≠ i) → vals'[i]? = vals[i]?) ∧
        (∀ (k : Nat) (identifier : Identifier) (aMember : Node),
          identifiers[k]? = some identifier → aNode.get identifier.name = some aMember →
          ∃ before prior converted,
            convertFrom construct typeFromName
              (.enumIndexedArray fixedSize itemType (identifiers.take k))
              (.enumIndexedArray vals) aNode = .ok (.enumIndexedArray before) ∧
            before[identifier.value]? = some prior ∧
            convertFrom construct typeFromName itemType prior aMember = .ok converted ∧
            convertFrom construct typeFromName
              (.enumIndexedArray fixedSize itemType (identifiers.take (k + 1)))
              (.enumIndexedArray vals) aNode
              = .ok (.enumIndexedArray (before.set identifier.value converted))) ∧
        (∀ (k : Nat) (identifier : Identifier) (aMember : Node),
          identifiers[k]? = some identifier → aNode.get identifier.name = some aMember →
          (∀ (j : Nat) (other : Identifier), j ≠ k → identifiers[j]? = some other →
            aNode.get other.name ≠ none → other.value ≠ identifier.value) →
          ∃ prior converted, vals[identifier.value]? = some prior ∧
            convertFrom construct typeFromName itemType prior aMember = .ok converted ∧
            vals'[identifier.value]? = some converted)) ∧
    (∀ aNode' : Node, aNode'.isObject = true →
      (∀ identifier ∈ identifiers, aNode'.get identifier.name = aNode.get identifier.name) →
      convertFrom construct typeFromName (.enumIndexedArray fixedSize itemType identifiers)
        (.enumIndexedArray vals) aNode' =
      convertFrom construct typeFromName (.enumIndexedArray fixedSize itemType identifiers)
        (.enumIndexedArray vals) aNode) := by
  have hunfold : ∀ (ids : List Identifier) (n : Node), n.isObject = true →
      convertFrom construct typeFromName (.enumIndexedArray fixedSize itemType ids)
        (.enumIndexedArray vals) n
      = finishLoop .enumIndexedArray
          (forEach (enumIndexedBody (convertFrom construct typeFromName) n itemType) ids vals) := by
    intro ids n hn
    rw [convertFrom_enumIndexedArray]
    simp only [hn, Bool.not_true, Bool.false_eq_true, ↓reduceIte, Value.enumIndexedItems]
  constructor
  · intro result h
    rw [hunfold identifiers aNode hobj] at h
    cases hl : forEach (enumIndexedBody (convertFrom construct typeFromName) aNode itemType)
        identifiers vals with
    | error e => cases e <;> simp [hl, finishLoop] at h
    | ok vals' =>
      simp only [hl, finishLoop, Outcome.ok.injEq] at h
      obtain ⟨hlen, hframe⟩ := forEach_enumIndexedBody_frame _ _ _ identifiers vals vals' hl
      refine ⟨vals', h.symm, hlen, hframe, ?_, ?_⟩
      · intro k identifier aMember hk hg
        obtain ⟨before, prior, converted, hb, hp, hc, hstep, _⟩ :=
          forEach_enumIndexedBody_step _ _ _ identifiers vals vals' hl k identifier aMember hk hg
        refine ⟨before, prior, converted, ?_, hp, hc, ?_⟩
        · rw [hunfold _ aNode hobj, hb]
          rfl
        · rw [hunfold _ aNode hobj, hstep]
          rfl
      · intro k identifier aMember hk hg hother
        obtain ⟨before, prior, converted, hb, hp, hc, _, hrest⟩ :=
          forEach_enumIndexedBody_step _ _ _ identifiers vals vals' hl k identifier aMember hk hg
        obtain ⟨hlenb, hframeb⟩ := forEach_enumIndexedBody_frame _ _ _ _ vals before hb
        obtain ⟨_, hframer⟩ := forEach_enumIndexedBody_frame _ _ _ _ _ vals' hrest
        have hbefore : before[identifier.value]? = vals[identifier.value]? := by
          apply hframeb
          intro other hmem hpresent
          obtain ⟨j, hj, hjget⟩ := List.getElem_of_mem hmem
          have hjk : j < k := by
            have := hj
            simp only [List.length_take] at this
            omega
          have hjget' : identifiers[j]? = some other := by
            rw [List.getElem_take] at hjget
            rw [List.getElem?_eq_getElem (by
              simp only [List.length_take] at hj
              omega)]
            exact congrArg some hjget
          exact hother j other (by omega) hjget' hpresent
        have hafter : vals'[identifier.value]?
            = (before.set identifier.value converted)[identifier.value]? := by
          apply hframer
          intro other hmem hpresent
          obtain ⟨j, hj, hjget⟩ := List.getElem_of_mem hmem
          have hjget' : identifiers[k + 1 + j]? = some other := by
            rw [List.getElem_drop] at hjget
            rw [List.getElem?_eq_getElem (by
              simp only [List.length_drop] at hj
              omega)]
            exact congrArg some hjget
          exact hother (k + 1 + j) other (by omega) hjget' hpresent
        refine ⟨prior, converted, hbefore ▸ hp, hc, ?_⟩
        rw [hafter]
        have hlt : identifier.value < before.length := by
          by_contra hcon
          rw [List.getElem?_eq_none (by omega)] at hp
          cases hp
        exact List.getElem?_set_self hlt
  · intro aNode' hobj' hget
    rw [hunfold identifiers aNode hobj, hunfold identifiers aNode' hobj']
    congr 1
    apply forEach_congr
    intro identifier hmem s
    exact enumIndexedBody_congr _ _ _ _ _ _ (hget identifier hmem)

/-- Witness of C11: with identifiers Red = 0, Green = 1, Blue = 2 and storage
[7, 8, 9], the node {"Blue": 5, "Purple": 1, "Red": 3} converts to [3, 8, 5]: slot 1
(Green has no entry) is unchanged, and without the entry "Purple", which names no
identifier, the conversion is the same. -/
theorem C11_enum_indexed_array_witness :
    (∃ vals', Value.enumIndexedArray [.u16 3, .u16 8, .u16 5] = .enumIndexedArray vals' ∧
      vals'.length = 3 ∧ vals'[1]? = some (.u16 8)) ∧
    convertFrom defaultConstruct none (.enumIndexedArray 6 typeU16 exampleColors)
        (.enumIndexedArray [.u16 7, .u16 8, .u16 9])
        (.object [("Blue", .number 5), ("Red", .number 3)])
      = convertFrom defaultConstruct none (.enumIndexedArray 6 typeU16 exampleColors)
        (.enumIndexedArray [.u16 7, .u16 8, .u16 9])
        (.object [("Blue", .number 5), ("Purple", .number 1), ("Red", .number 3)]) :=
  ⟨by
    obtain ⟨vals', h1, h2, h3, _⟩ :=
      (C11_enum_indexed_array defaultConstruct none 6 typeU16 exampleColors
        [.u16 7, .u16 8, .u16 9]
        (.object [("Blue", .number 5), ("Purple", .number 1), ("Red", .number 3)]) rfl).1 _
        exampleColors_import
    exact ⟨vals', h1, h2, h3 1 (by simp [exampleColors, Node.get])⟩,
   (C11_enum_indexed_array defaultConstruct none 6 typeU16 exampleColors
      [.u16 7, .u16 8, .u16 9]
      (.object [("Blue", .number 5), ("Purple", .number 1), ("Red", .number 3)]) rfl).2
      (.object [("Blue", .number 5), ("Red", .number 3)]) rfl
      (by simp [exampleColors, Node.get])⟩

/-- C13 (OwnedValue conversion equals synthesis followed by import).  For an
OwnedValue target (`SavedTypedPtr`) and a node with entries "type" = `aType` and
"value" = `aValue`: convert succeeds with a result exactly when `convertTypeFrom` on
`aType` succeeds with an owner whose root is `rootType` and `import_` of `aValue` at
`rootType` succeeds with a value, the result being the pair (owner, value); this is
the conversion in the spec's words, `ownedValueSpec`; and the result is the same for
every prior content of the field. -/
theorem C13_owned_value (construct : TypeDescriptor → Value)
    (typeFromName : Option (String → Option TypeDescriptor))
    (fixedSize : Nat) (ptr : Value) (aNode aType aValue : Node)
    (htype : aNode.get "type" = some aType) (hvalue : aNode.get "value" = some aValue) :
    (∀ result, convertFrom construct typeFromName (.plain .savedTypedPtr fixedSize) ptr aNode
        = .ok result ↔
      ∃ typeOwner rootType value, convertTypeFrom (some aType) typeFromName = .ok typeOwner ∧
        typeOwner.rootType = some rootType ∧
        import_ construct typeFromName rootType aValue = .ok value ∧
        result = .savedTypedPtr (some typeOwner) value) ∧
    (∀ result, convertFrom construct typeFromName (.plain .savedTypedPtr fixedSize) ptr aNode
        = .ok result ↔ ownedValueSpec construct typeFromName aType aValue = some result) ∧
    (∀ ptr' result,
      convertFrom construct typeFromName (.plain .savedTypedPtr fixedSize) ptr aNode
        = .ok result →
      convertFrom construct typeFromName (.plain .savedTypedPtr fixedSize) ptr' aNode
        = .ok result) := by
  have hobj : aNode.isObject = true := by
    cases aNode <;> simp [Node.get] at htype
    rfl
  have hspec : ∀ (p : Value) (result : Value),
      convertFrom construct typeFromName (.plain .savedTypedPtr fixedSize) p aNode
        = .ok result ↔ ownedValueSpec construct typeFromName aType aValue = some result := by
    intro p result
    rw [convertFrom_savedTypedPtr]
    simp only [hobj, Bool.not_true, Bool.false_eq_true, ↓reduceIte, htype, hvalue]
    unfold ownedValueSpec import_
    cases hc : convertTypeFrom (some aType) typeFromName with
    | error e => simp
    | ok typeOwner =>
      simp only []
      cases hr : typeOwner.rootType with
      | none => simp
      | some rootType =>
        simp only []
        cases hi : convertFrom construct typeFromName rootType (construct rootType) aValue with
        | ok value => simp [wrapOutcome]
        | fail e v => simp [wrapOutcome]
        | undefined => simp [wrapOutcome]
  refine ⟨?_, hspec ptr, ?_⟩
  · intro result
    rw [hspec ptr result]
    unfold ownedValueSpec
    constructor
    · intro h
      cases hc : convertTypeFrom (some aType) typeFromName with
      | error e => simp [hc] at h
      | ok typeOwner =>
        simp only [hc] at h
        cases hr : typeOwner.rootType with
        | none => simp [hr] at h
        | some rootType =>
          simp only [hr] at h
          cases hi : import_ construct typeFromName rootType aValue with
          | ok value =>
            simp only [hi, Option.some.injEq] at h
            exact ⟨typeOwner, rootType, value, rfl, hr, hi, h.symm⟩
          | fail e v => simp [hi] at h
          | undefined => simp [hi] at h
    · rintro ⟨typeOwner, rootType, value, hc, hr, hi, rfl⟩
      simp [hc, hr, hi]
  · intro ptr' result h
    rw [hspec ptr']
    exact (hspec ptr result).1 h

/-- Witness of C13: the spec's example document.  The declaration `Pt` synthesizes
to a struct with exactly two float members at offsets 0 and 4, total size 8, no pad
field, and the field finally holds that owner with the value x = 1.5, y = 2.5. -/
theorem C13_owned_value_witness :
    convertFrom defaultConstruct none (.plain .savedTypedPtr 16) (.savedTypedPtr none .raw)
        examplePtDocument
      = .ok (.savedTypedPtr (some ⟨[examplePtType], some examplePtType⟩)
          (.struct [.float 1.5, .float 2.5])) :=
  ((C13_owned_value defaultConstruct none 16 (.savedTypedPtr none .raw) examplePtDocument
      examplePtDecl (.object [("x", .number 1.5), ("y", .number 2.5)]) rfl rfl).1 _).2
    ⟨_, _, _, examplePtDecl_synthesis, rfl, examplePt_import, rfl⟩

/-- C14 (TypedValueArray conversion).  For a TypedValueArray target (`TypedArray`)
and a node with entries "type" = `aType` and "data" = an Array of n elements: after
a successful convert the item type has been synthesized once, by the one call of
`convertTypeFrom` on `aType`, and the result is a typed array of that owner with
exactly n elements, element i being the conversion of `data[i]` into a freshly
constructed element of the owner's root type, for every i < n. -/
theorem C14_typed_value_array (construct : TypeDescriptor → Value)
    (typeFromName : Option (String → Option TypeDescriptor))
    (fixedSize : Nat) (ptr : Value) (aNode aType : Node) (items : List Node)
    (htype : aNode.get "type" = some aType) (hdata : aNode.get "data" = some (.array items))
    (result : Value)
    (h : convertFrom construct typeFromName (.plain .typedArray fixedSize) ptr aNode
      = .ok result) :
    ∃ typeOwner itemType vals', convertTypeFrom (some aType) typeFromName = .ok typeOwner ∧
      typeOwner.rootType = some itemType ∧
      result = .typedArray (some typeOwner) vals' ∧ vals'.length = items.length ∧
      ∀ i : Nat, i < items.length →
        ∃ aItem converted, items[i]? = some aItem ∧
          convertFrom construct typeFromName itemType (construct itemType) aItem
            = .ok converted ∧
          vals'[i]? = some converted := by
  have hobj : aNode.isObject = true := by
    cases aNode <;> simp [Node.get] at htype
    rfl
  rw [convertFrom_typedArray] at h
  simp only [hobj, Bool.not_true, Bool.false_eq_true, ↓reduceIte, htype, hdata,
    Node.arrayItemsRef, Node.arrayItems, indexRange_zero] at h
  cases hc : convertTypeFrom (some aType) typeFromName with
  | error e => simp [hc] at h
  | ok typeOwner =>
    simp only [hc] at h
    cases hr : typeOwner.rootType with
    | none => simp [hr] at h
    | some itemType =>
      simp only [hr] at h
      cases hl : forEach (itemBody (.typedArray (some typeOwner))
          (convertFrom construct typeFromName) itemType items)
          (List.range' 0 items.length) (List.replicate items.length (construct itemType)) with
      | error e => cases e <;> simp [hl, finishLoop] at h
      | ok vals' =>
        simp only [hl, finishLoop, Outcome.ok.injEq] at h
        obtain ⟨hlen, _, _, hrest⟩ := forEach_itemBody_ok _ _ _ _ items.length 0 _ vals' hl
        refine ⟨typeOwner, itemType, vals', rfl, hr, h.symm, by simpa using hlen, ?_⟩
        intro i hi
        obtain ⟨a, v, v', ha, hv, hcv, hv'⟩ := hrest i (by omega) (by omega)
        rw [List.getElem?_replicate_of_lt hi] at hv
        cases hv
        exact ⟨a, v', ha, hcv, hv'⟩

/-- Witness of C14: the document {"type": "u16", "data": [1, 2, 3]} converts to a
typed array of three `u16` elements 1, 2, 3. -/
theorem C14_typed_value_array_witness :
    ∃ typeOwner itemType vals',
      convertTypeFrom (some (.text "u16")) none = .ok typeOwner ∧
      typeOwner.rootType = some itemType ∧
      Value.typedArray (some ⟨[], some typeU16⟩) [.u16 1, .u16 2, .u16 3]
        = .typedArray (some typeOwner) vals' ∧
      vals'.length = 3 ∧
      ∀ i : Nat, i < 3 →
        ∃ aItem converted, [Node.number 1, .number 2, .number 3][i]? = some aItem ∧
          convertFrom defaultConstruct none itemType (defaultConstruct itemType) aItem
            = .ok converted ∧
          vals'[i]? = some converted :=
  C14_typed_value_array defaultConstruct none 16 (.typedArray none [])
    exampleTypedArrayDocument (.text "u16") [.number 1, .number 2, .number 3] rfl rfl _
    exampleTypedArray_import

/-- C15 (the two member-collection forms are equivalent).  Two struct declarations
that agree on "key" and "name", one with "members" an ordered object of entries
(n1, d1), ..., (nk, dk), the other with "members" the array of pairs
[[n1, d1], ..., [nk, dk]], synthesize to the same outcome: the same descriptor and
owner, or the same failure.  A declaration whose array-form "members" has an element
that is not an array of exactly 2 items fails. -/
theorem C15_member_forms_equivalent (typeFromName : Option (String → Option TypeDescriptor))
    (typeOwner : Option TypeDescriptorOwner) :
    (∀ (objectForm arrayForm : List (String × Node)) (entries : List (String × Node)),
      (Node.object objectForm).get "key" = (Node.object arrayForm).get "key" →
      (Node.object objectForm).get "name" = (Node.object arrayForm).get "name" →
      (Node.object objectForm).get "members" = some (.object entries) →
      (Node.object arrayForm).get "members" = some (.array (memberPairs entries)) →
      convertType typeFromName typeOwner (.object objectForm)
        = convertType typeFromName typeOwner (.object arrayForm)) ∧
    (∀ (arrayForm : List (String × Node)) (elements : List Node) (element : Node),
      (Node.object arrayForm).get "members" = some (.array elements) →
      element ∈ elements →
      element.isArray = false ∨ element.arrayItems.length ≠ 2 →
      ∃ e owner, convertType typeFromName typeOwner (.object arrayForm) = .fail e owner) := by
  constructor
  · intro objectForm arrayForm entries hkey hname hobj harr
    rw [convertType_object, convertType_object, hkey]
    split
    · unfold synthesizeStruct
      simp only [hname, hobj, harr, Node.isObject, Node.isArray, Node.objectItems,
        Node.arrayItems, Bool.false_eq_true, ↓reduceIte, forEach_memberPairs]
    · rfl
  · intro arrayForm elements element hmem helem hbad
    rw [convertType_object]
    split
    · unfold synthesizeStruct
      split
      · exact ⟨_, _, rfl⟩
      · split
        · exact ⟨_, _, rfl⟩
        · simp only [hmem, Node.isObject, Node.isArray, Node.arrayItems, Bool.false_eq_true,
            ↓reduceIte]
          obtain ⟨e, he⟩ := forEach_error_of_mem (arrayMemberBody (convertType typeFromName))
            element (by
              intro s
              unfold arrayMemberBody
              rcases hbad with h | h
              · simp [h]
              · by_cases ha : element.isArray = true
                · simp [ha, h]
                · simp [ha])
            elements helem
            (⟨0, Node.textOfRef ((Node.object arrayForm).get "name"), []⟩, typeOwner)
          rw [he]
          cases e with
          | fail e owner => exact ⟨e, owner, rfl⟩
    · exact ⟨_, _, rfl⟩

/-- Witness of C15: the struct `S` with members `a: u16`, `b: float` synthesizes
alike from its object form and from its array form, and the array form with a
3-item element fails. -/
theorem C15_member_forms_equivalent_witness :
    convertType none (some ⟨[], none⟩) exampleObjectFormDecl
      = convertType none (some ⟨[], none⟩) exampleArrayFormDecl ∧
    ∃ e owner, convertType none (some ⟨[], none⟩) exampleBadPairDecl = .fail e owner :=
  ⟨(C15_member_forms_equivalent none (some ⟨[], none⟩)).1 _ _
      [("a", .text "u16"), ("b", .text "float")] rfl rfl rfl rfl,
   (C15_member_forms_equivalent none (some ⟨[], none⟩)).2 _ _
      (.array [.text "b", .text "float", .text "extra"]) rfl
      (by simp) (Or.inr (by decide))⟩

/-- C16 (rejected declarations).  The function `convertType` fails with
UnrecognizedTypeDeclaration, the owner left as it was (no descriptor registered), for
every node that is neither Text nor Object, for every Object node whose "key" text
is not "struct", and in particular for every Object node with no "key" entry. -/
theorem C16_unrecognized_declaration (typeFromName : Option (String → Option TypeDescriptor))
    (typeOwner : Option TypeDescriptorOwner) (aNode : Node) :
    (aNode.isText = false → aNode.isObject = false →
      convertType typeFromName typeOwner aNode
        = .fail .UnrecognizedTypeDeclaration typeOwner) ∧
    (aNode.isObject = true → Node.textOfRef (aNode.get "key") ≠ "struct" →
      convertType typeFromName typeOwner aNode
        = .fail .UnrecognizedTypeDeclaration typeOwner) ∧
    (aNode.isObject = true → aNode.get "key" = none →
      convertType typeFromName typeOwner aNode
        = .fail .UnrecognizedTypeDeclaration typeOwner) := by
  have hobj : aNode.isObject = true → Node.textOfRef (aNode.get "key") ≠ "struct" →
      convertType typeFromName typeOwner aNode
        = .fail .UnrecognizedTypeDeclaration typeOwner := by
    intro ho hk
    cases aNode with
    | object items =>
      rw [convertType_object]
      simp [hk]
    | _ => simp [Node.isObject] at ho
  refine ⟨convertType_other _ _ _, hobj, ?_⟩
  intro ho hnone
  apply hobj ho
  rw [hnone]
  decide

/-- Witness of C16: a Number node, an Object with "key" = "enum" and an Object
without "key" are each rejected with UnrecognizedTypeDeclaration, the owner
unchanged. -/
theorem C16_unrecognized_declaration_witness :
    convertType none (some ⟨[], none⟩) (.number 3)
      = .fail .UnrecognizedTypeDeclaration (some ⟨[], none⟩) ∧
    convertType none (some ⟨[], none⟩) (.object [("key", .text "enum"), ("name", .text "E")])
      = .fail .UnrecognizedTypeDeclaration (some ⟨[], none⟩) ∧
    convertType none (some ⟨[], none⟩) (.object [("name", .text "S"), ("members", .object [])])
      = .fail .UnrecognizedTypeDeclaration (some ⟨[], none⟩) :=
  ⟨(C16_unrecognized_declaration none (some ⟨[], none⟩) (.number 3)).1 rfl rfl,
   (C16_unrecognized_declaration none (some ⟨[], none⟩)
      (.object [("key", .text "enum"), ("name", .text "E")])).2.1 rfl
      (by simp [Node.get, Node.textOfRef, Node.textOf]),
   (C16_unrecognized_declaration none (some ⟨[], none⟩)
      (.object [("name", .text "S"), ("members", .object [])])).2.2 rfl
      (by simp [Node.get])⟩

/-- C19 (layout of a synthesized struct).  First: a struct declaration (owner
present, "name" a text, "members" in object form or as the array of pairs) whose member
declarations synthesize, in order, to types that all have an even size synthesizes
successfully; the descriptor's member list is `paddedMembers`, the declared members in
declaration order with one 2-byte member named "padding" immediately after each
declared member whose size is 2 modulo 4, and its total size is `paddedSize`, the sum of
the members' sizes rounded up to the next multiple of 4, a multiple of 4.  Second: when
every member type that synthesizes has an even size, a failure of the struct with
AlignmentViolation is the failure of one of its member declarations, never of its own
layout.  Third: with a resolver that returns types of even size only (in particular
with no resolver, where the names are the built-in ones), no declaration fails with
AlignmentViolation and every synthesized type has an even size. -/
theorem C19_struct_layout (typeFromName : Option (String → Option TypeDescriptor)) :
    (∀ (typeOwner typeOwner' : Option TypeDescriptorOwner)
      (items entries : List (String × Node)) (declared : List (String × TypeDescriptor)),
      typeOwner.isSome = true →
      Node.textOfRef ((Node.object items).get "key") = "struct" →
      Node.isTextRef ((Node.object items).get "name") = true →
      ((Node.object items).get "members" = some (.object entries) ∨
        (Node.object items).get "members" = some (.array (memberPairs entries))) →
      synthesizeMembers (convertType typeFromName) typeOwner entries
        = .ok (declared, typeOwner') →
      (∀ d ∈ declared, d.2.fixedSize % 2 = 0) →
      convertType typeFromName typeOwner (.object items)
        = .ok (.struct (paddedSize declared) (Node.textOfRef ((Node.object items).get "name"))
            (paddedMembers 0 declared))
          (typeOwner'.map (fun o => o.adoptType
            (.struct (paddedSize declared) (Node.textOfRef ((Node.object items).get "name"))
              (paddedMembers 0 declared)))) ∧
      paddedSize declared % 4 = 0 ∧
      declared.map (fun d => d.1) = entries.map (fun e => e.1)) ∧
    (∀ (typeOwner : Option TypeDescriptorOwner) (items entries : List (String × Node)),
      ((Node.object items).get "members" = some (.object entries) ∨
        (Node.object items).get "members" = some (.array (memberPairs entries))) →
      (∀ entry ∈ entries, ∀ o t o', convertType typeFromName o entry.2 = .ok t o' →
        t.fixedSize % 2 = 0) →
      ∀ owner, convertType typeFromName typeOwner (.object items)
          = .fail .AlignmentViolation owner →
        ∃ entry ∈ entries, ∃ o, convertType typeFromName o entry.2
          = .fail .AlignmentViolation owner) ∧
    ((∀ name t, resolve typeFromName name = some t → t.fixedSize % 2 = 0) →
      ∀ (typeOwner : Option TypeDescriptorOwner) (aNode : Node),
        (∀ owner, convertType typeFromName typeOwner aNode
          ≠ .fail .AlignmentViolation owner) ∧
        (∀ t owner, convertType typeFromName typeOwner aNode = .ok t owner →
          t.fixedSize % 2 = 0)) := by
  refine ⟨?_, ?_, ?_⟩
  · intro typeOwner typeOwner' items entries declared hown hkey hname hmem hsyn heven
    refine ⟨?_, paddedSize_mod declared, ?_⟩
    · obtain ⟨o, rfl⟩ := Option.isSome_iff_exists.1 hown
      have hloop := (forEach_objectMemberBody_even (convertType typeFromName) entries
        ⟨0, Node.textOfRef ((Node.object items).get "name"), []⟩ (some o) typeOwner' declared
        rfl hsyn heven).1
      rw [convertType_object]
      simp only [hkey, beq_self_eq_true, ↓reduceIte]
      unfold synthesizeStruct
      simp only [Option.isNone_some, Bool.false_eq_true, ↓reduceIte, hname, Bool.not_true]
      rcases hmem with h | h
      · simp only [h, Node.isObject, Node.objectItems, ↓reduceIte, hloop, finishStruct,
          TypeDescriptor_Struct.toType, Nat.zero_add, List.nil_append]
      · simp only [h, Node.isObject, Node.isArray, Node.arrayItems, Bool.false_eq_true,
          ↓reduceIte, forEach_memberPairs, hloop, finishStruct,
          TypeDescriptor_Struct.toType, Nat.zero_add, List.nil_append]
    · exact (forEach_objectMemberBody_even (convertType typeFromName) entries
        ⟨0, Node.textOfRef ((Node.object items).get "name"), []⟩ typeOwner typeOwner' declared
        rfl hsyn heven).2
  · intro typeOwner items entries hmem heven owner hfail
    have hloop := forEach_members_even (objectMemberBody (convertType typeFromName))
      (fun entry => entry ∈ entries)
      (fun e => ∀ owner, e = .fail .AlignmentViolation owner →
        ∃ entry ∈ entries, ∃ o, convertType typeFromName o entry.2
          = .fail .AlignmentViolation owner)
      (by
        intro entry hentry st hst
        obtain ⟨h1, h2⟩ := appendConverted_even st.1 entry.1
          (convertType typeFromName st.2 entry.2) hst (heven entry hentry st.2)
        refine ⟨?_, h2⟩
        intro e he owner hcon
        obtain ⟨err, owner', ho, rfl⟩ := h1 e he
        simp only [TypeStop.fail.injEq] at hcon
        exact ⟨entry, hentry, st.2, by rw [ho, hcon.1, hcon.2]⟩)
      entries (fun _ h => h)
      (⟨0, Node.textOfRef ((Node.object items).get "name"), []⟩, typeOwner) rfl
    have hfinish : finishStruct (forEach (objectMemberBody (convertType typeFromName)) entries
        (⟨0, Node.textOfRef ((Node.object items).get "name"), []⟩, typeOwner))
        = .fail .AlignmentViolation owner →
        ∃ entry ∈ entries, ∃ o, convertType typeFromName o entry.2
          = .fail .AlignmentViolation owner := by
      intro h
      cases hr : forEach (objectMemberBody (convertType typeFromName)) entries
        (⟨0, Node.textOfRef ((Node.object items).get "name"), []⟩, typeOwner) with
      | ok st =>
        rw [hr] at h
        obtain ⟨s, o⟩ := st
        simp [finishStruct] at h
      | error e =>
        rw [hr] at h
        cases e with
        | fail err o =>
          simp only [finishStruct, TypeOutcome.fail.injEq] at h
          exact hloop.1 _ hr owner (by rw [h.1, h.2])
    rw [convertType_object] at hfail
    split at hfail
    · unfold synthesizeStruct at hfail
      split at hfail
      · cases hfail
      · split at hfail
        · cases hfail
        · rcases hmem with h | h
          · simp only [h, Node.isObject, Node.objectItems, ↓reduceIte] at hfail
            exact hfinish hfail
          · simp only [h, Node.isObject, Node.isArray, Node.arrayItems, Bool.false_eq_true,
              ↓reduceIte, forEach_memberPairs] at hfail
            exact hfinish hfail
    · cases hfail
  · intro hres typeOwner aNode
    exact convertType_even typeFromName hres (sizeOf aNode + 1) aNode (Nat.lt_succ_self _)
      typeOwner

/-- Witness of C19: the struct `W` with members `a: u16`, `b: u16` synthesizes to
the members a at 0, padding at 2, b at 4, padding at 6, total size 8. -/
theorem C19_struct_layout_witness :
    convertType none (some ⟨[], none⟩) exampleTwoU16Decl
      = .ok (.struct 8 "W" [Member.mk "a" 0 typeU16, Member.mk "padding" 2 typeU16,
          Member.mk "b" 4 typeU16, Member.mk "padding" 6 typeU16])
        (some ⟨[.struct 8 "W" [Member.mk "a" 0 typeU16, Member.mk "padding" 2 typeU16,
          Member.mk "b" 4 typeU16, Member.mk "padding" 6 typeU16]], none⟩) := by
  have h := ((C19_struct_layout none).1 (some ⟨[], none⟩) (some ⟨[], none⟩)
    [("key", .text "struct"), ("name", .text "W"),
      ("members", .object [("a", .text "u16"), ("b", .text "u16")])]
    [("a", .text "u16"), ("b", .text "u16")] [("a", typeU16), ("b", typeU16)]
    rfl (by simp [Node.get, Node.textOfRef, Node.textOf])
    (by simp [Node.get, Node.isTextRef, Node.isText])
    (Or.inl (by simp [Node.get])) exampleTwoU16_members
    (by simp [typeU16, TypeDescriptor.fixedSize])).1
  simpa [exampleTwoU16Decl, paddedSize, paddedMembers, roundUp4, typeU16,
    TypeDescriptor.fixedSize, Node.get, Node.textOfRef, Node.textOf,
    TypeDescriptorOwner.adoptType] using h

/-- C18 (convert and synthesizeType are total).  The functions `convertFrom` and
`convertType` are total functions of this development, defined by recursion on the
document node.  `convertFromFuel` is `convertFrom` on the handles of an arbitrary
descriptor graph (which may refer to itself) with a bound `fuel` on the depth of the
recursion, `convertTypeFuel` the same for `convertType`.  First: on every descriptor
graph, for every node, a bound of at least the depth of the document tree makes
`convertFromFuel` return.  Second: on descriptor trees it then returns the result of
`convertFrom`.  Third: `convertTypeFuel` with a bound of at least the depth of the
declaration node returns the result of `convertType`.  Fourth: a call returns as soon
as the calls it makes on nodes of smaller depth return, that is, every recursive call
is on a node of smaller depth.  Fifth: the nodes reached from a node by a lookup, as
an array element or as an object entry are strict sub-nodes: of smaller depth and
smaller size. -/
theorem C18_total :
    (∀ (D : Type) (view : D → TypeView D) (embed : TypeDescriptor → D) (construct : D → Value)
      (typeFromName : Option (String → Option TypeDescriptor))
      (fuel : Nat) (type : D) (ptr : Value) (aNode : Node),
      aNode.depth ≤ fuel →
      ∃ r, convertFromFuel view embed construct typeFromName fuel type ptr aNode = some r) ∧
    (∀ (construct : TypeDescriptor → Value)
      (typeFromName : Option (String → Option TypeDescriptor))
      (fuel : Nat) (type : TypeDescriptor) (ptr : Value) (aNode : Node),
      aNode.depth ≤ fuel →
      convertFromFuel TypeDescriptor.view id construct typeFromName fuel type ptr aNode
        = some (convertFrom construct typeFromName type ptr aNode)) ∧
    (∀ (typeFromName : Option (String → Option TypeDescriptor))
      (fuel : Nat) (typeOwner : Option TypeDescriptorOwner) (aNode : Node),
      aNode.depth ≤ fuel →
      convertTypeFuel typeFromName fuel typeOwner aNode
        = some (convertType typeFromName typeOwner aNode)) ∧
    (∀ (D : Type) (view : D → TypeView D) (embed : TypeDescriptor → D) (construct : D → Value)
      (convFuel : D → Value → Node → Option Outcome)
      (convTypeFrom : Option Node → Option (Except ConversionError TypeDescriptorOwner))
      (type : D) (ptr : Value) (aNode : Node),
      (∀ t p a, a.depth < aNode.depth → ∃ r, convFuel t p a = some r) →
      (∃ r, convTypeFrom (aNode.get "type") = some r) →
      ∃ r, convertFromStep view embed construct convFuel convTypeFrom type ptr aNode
        = some r) ∧
    (∀ (aNode v : Node),
      ((∃ key, aNode.get key = some v) ∨ v ∈ aNode.arrayItems ∨
        (∃ name, (name, v) ∈ aNode.objectItems)) →
      v.depth < aNode.depth ∧ sizeOf v < sizeOf aNode) :=
  ⟨fun D view embed construct f => convertFromFuel_isSome view embed construct f,
   fun c f => convertFromFuel_eq c f,
   fun f => convertTypeFuel_eq f,
   fun D view embed construct convFuel convTypeFrom type ptr aNode =>
    convertFromStep_isSome view embed construct convFuel convTypeFrom type ptr aNode,
   fun aNode v h => by
    rcases h with ⟨key, h⟩ | h | ⟨name, h⟩
    · exact ⟨Node.depth_get_lt h, Node.sizeOf_get_lt h⟩
    · exact ⟨Node.depth_lt_of_mem_arrayItems h, Node.sizeOf_lt_of_mem_arrayItems h⟩
    · exact ⟨Node.depth_lt_of_mem_objectItems h, Node.sizeOf_lt_of_mem_objectItems h⟩⟩

/-- Witness of C18: on the self-referential descriptor graph `Tree` (a struct whose
member `children` is a dynamic array of `Tree`) the document
{"children": [{"children": []}, {}]}, of depth 4, is converted within 4 levels of
recursion. -/
theorem C18_total_witness :
    exampleTreeDocument.depth ≤ 4 ∧
    (∃ r, convertFromFuel exampleTreeView (fun _ => 2) exampleTreeConstruct none 4 0
      (.struct [.array []]) exampleTreeDocument = some r) :=
  ⟨le_of_eq exampleTree_depth,
   C18_total.1 Nat exampleTreeView (fun _ => 2) exampleTreeConstruct none 4 0
     (.struct [.array []]) exampleTreeDocument (le_of_eq exampleTree_depth)⟩

end pylon
